import Mathlib

/-!
# decoder-ring: verification of the transform set

A shallow embedding of the transforms of `src/main.go` (a command-line
transcoder).  Byte strings are modelled as `List Nat` with every element
below 256; a Go transform `func([]byte) ([]byte, error)` becomes a Lean
function `List Nat → Except Unit (List Nat)` (Go's error *values* — offsets
inside `CorruptInputError`, messages — are not modelled, only the
success/failure distinction, which is all the program observes: on a non-nil
error it aborts with no output).
-/

set_option maxRecDepth 10000

/-- A Go `[]byte` value: every element of the list is a byte. -/
def Bytes (l : List Nat) : Prop := ∀ b ∈ l, b < 256

instance (l : List Nat) : Decidable (Bytes l) :=
  List.decidableBAll _ l

/-- Byte list of an ASCII string literal (used only for concrete examples). -/
def strBytes (s : String) : List Nat := s.data.map Char.toNat

/-- Result type of a transform: Go `([]byte, error)` with the error value
    itself not modelled. -/
abbrev ModeFunc := List Nat → Except Unit (List Nat)

instance {ε α : Type} [DecidableEq ε] [DecidableEq α] : DecidableEq (Except ε α) :=
  fun x y =>
    match x, y with
    | .ok a, .ok b =>
      if h : a = b then .isTrue (by rw [h])
      else .isFalse (by intro hc; cases hc; exact h rfl)
    | .error a, .error b =>
      if h : a = b then .isTrue (by rw [h])
      else .isFalse (by intro hc; cases hc; exact h rfl)
    | .ok _, .error _ => .isFalse (by intro hc; cases hc)
    | .error _, .ok _ => .isFalse (by intro hc; cases hc)

/-! ## hex (Go `encoding/hex`) -/

/-- Go `hex.hextable`: the lowercase hex digits. -/
def hextable : List Nat :=
  [48, 49, 50, 51, 52, 53, 54, 55, 56, 57, 97, 98, 99, 100, 101, 102]

/-- Digit lookup `hextable[n]`. -/
def hexDigit (n : Nat) : Nat := hextable.getD n 0

/-- Go `hex.Encode`: each byte becomes two lowercase hex digits. -/
def hexEncode : List Nat → List Nat
  | [] => []
  | b :: rest => hexDigit (b / 16) :: hexDigit (b % 16) :: hexEncode rest

/-- Go `hex.fromHexChar`: value of one hex digit character. -/
def fromHexChar (c : Nat) : Option Nat :=
  if 48 ≤ c ∧ c ≤ 57 then some (c - 48)
  else if 97 ≤ c ∧ c ≤ 102 then some (c - 97 + 10)
  else if 65 ≤ c ∧ c ≤ 70 then some (c - 65 + 10)
  else none

/-- Go `hex.Decode`: consumes pairs of hex digits; a trailing lone digit is
    `ErrLength`, a non-digit is `InvalidByteError`. -/
def hexDecode : List Nat → Except Unit (List Nat)
  | [] => .ok []
  | [_] => .error ()
  | a :: b :: rest =>
    match fromHexChar a, fromHexChar b with
    | some hi, some lo => (hexDecode rest).map (fun tl => (hi * 16 + lo) :: tl)
    | _, _ => .error ()

/-- `hexEnc` of `main.go`. -/
def hexEnc (src : List Nat) : Except Unit (List Nat) := .ok (hexEncode src)

/-- `hexDec` of `main.go`. -/
def hexDec (src : List Nat) : Except Unit (List Nat) := hexDecode src

theorem fromHexChar_hexDigit : ∀ n, n < 16 → fromHexChar (hexDigit n) = some n := by
  decide

theorem hex_roundtrip (x : List Nat) (hx : Bytes x) :
    hexDecode (hexEncode x) = .ok x := by
  induction x with
  | nil => rfl
  | cons b rest ih =>
    have hb : b < 256 := hx b (List.mem_cons_self ..)
    have hrest : Bytes rest := fun c hc => hx c (List.mem_cons_of_mem _ hc)
    have h1 : fromHexChar (hexDigit (b / 16)) = some (b / 16) :=
      fromHexChar_hexDigit _ (by omega)
    have h2 : fromHexChar (hexDigit (b % 16)) = some (b % 16) :=
      fromHexChar_hexDigit _ (by omega)
    have hbeq : b / 16 * 16 + b % 16 = b := by omega
    simp only [hexEncode, hexDecode, h1, h2, ih hrest, Except.map, hbeq]

/-! ## rot13 -/

/-- One byte of `rot13` of `main.go`: rotate ASCII letters by 13 in place. -/
def rot13Byte (b : Nat) : Nat :=
  if 65 ≤ b ∧ b ≤ 90 then 65 + (b - 65 + 13) % 26
  else if 97 ≤ b ∧ b ≤ 122 then 97 + (b - 97 + 13) % 26
  else b

/-- `rot13` of `main.go` (the append loop over `src` is a map; it never
    fails). -/
def rot13 (src : List Nat) : Except Unit (List Nat) := .ok (src.map rot13Byte)

/-- The registry row `modes["rot13"]` of `main.go`: decoder and encoder are
    the same function. -/
def rot13Mode : Option ModeFunc × Option ModeFunc := (some rot13, some rot13)

theorem rot13Byte_invol (b : Nat) : rot13Byte (rot13Byte b) = b := by
  by_cases h1 : 65 ≤ b ∧ b ≤ 90
  · have h2 : rot13Byte b = 65 + (b - 65 + 13) % 26 := by
      unfold rot13Byte; rw [if_pos h1]
    have h3 : 65 ≤ 65 + (b - 65 + 13) % 26 ∧ 65 + (b - 65 + 13) % 26 ≤ 90 := by
      omega
    rw [h2]; unfold rot13Byte; rw [if_pos h3]; omega
  · by_cases h2 : 97 ≤ b ∧ b ≤ 122
    · have h3 : rot13Byte b = 97 + (b - 97 + 13) % 26 := by
        unfold rot13Byte; rw [if_neg h1, if_pos h2]
      have h4 : ¬(65 ≤ 97 + (b - 97 + 13) % 26 ∧ 97 + (b - 97 + 13) % 26 ≤ 90) := by
        omega
      have h5 : 97 ≤ 97 + (b - 97 + 13) % 26 ∧ 97 + (b - 97 + 13) % 26 ≤ 122 := by
        omega
      rw [h3]; unfold rot13Byte; rw [if_neg h4, if_pos h5]; omega
    · have h3 : rot13Byte b = b := by unfold rot13Byte; rw [if_neg h1, if_neg h2]
      rw [h3, h3]

/-! ## base64 (Go `encoding/base64`, padded encodings)

Go's decoder skips `\r` and `\n` bytes wherever they occur; this is modelled
as a filter before grouping, which accepts the same inputs. -/

/-- RFC 4648 standard base64 alphabet (`base64.StdEncoding`). -/
def b64StdAlphabet : List Nat :=
  [65, 66, 67, 68, 69, 70, 71, 72, 73, 74, 75, 76, 77, 78, 79, 80, 81, 82,
   83, 84, 85, 86, 87, 88, 89, 90, 97, 98, 99, 100, 101, 102, 103, 104, 105,
   106, 107, 108, 109, 110, 111, 112, 113, 114, 115, 116, 117, 118, 119, 120,
   121, 122, 48, 49, 50, 51, 52, 53, 54, 55, 56, 57, 43, 47]

/-- RFC 4648 URL-safe base64 alphabet (`base64.URLEncoding`). -/
def b64URLAlphabet : List Nat :=
  [65, 66, 67, 68, 69, 70, 71, 72, 73, 74, 75, 76, 77, 78, 79, 80, 81, 82,
   83, 84, 85, 86, 87, 88, 89, 90, 97, 98, 99, 100, 101, 102, 103, 104, 105,
   106, 107, 108, 109, 110, 111, 112, 113, 114, 115, 116, 117, 118, 119, 120,
   121, 122, 48, 49, 50, 51, 52, 53, 54, 55, 56, 57, 45, 95]

/-- Symbol of digit `i` in alphabet `A` (Go indexes the encode table). -/
def alphaChar (A : List Nat) (i : Nat) : Nat := A.getD i 0

/-- Reverse lookup, as built by Go's `decodeMap` (255 marks invalid). -/
def alphaIndex (A : List Nat) (c : Nat) : Option Nat :=
  let i := A.findIdx (fun a => a == c)
  if i < A.length then some i else none

/-- Go `base64.Encode` with padding: groups of three bytes become four
    symbols; a final group of one or two bytes is padded with `=` (61). -/
def b64EncodeGroups (A : List Nat) : List Nat → List Nat
  | [] => []
  | [a] => [alphaChar A (a / 4), alphaChar A (a % 4 * 16), 61, 61]
  | [a, b] =>
    [alphaChar A (a / 4), alphaChar A (a % 4 * 16 + b / 16),
     alphaChar A (b % 16 * 4), 61]
  | a :: b :: c :: rest =>
    alphaChar A (a / 4) :: alphaChar A (a % 4 * 16 + b / 16) ::
      alphaChar A (b % 16 * 4 + c / 64) :: alphaChar A (c % 64) ::
      b64EncodeGroups A rest

/-- Go `base64.Decode` after newline removal: quanta of four symbols, with
    `=` padding allowed only in the last quantum at positions 2 or 3. -/
def b64DecodeGroups (A : List Nat) : List Nat → Except Unit (List Nat)
  | [] => .ok []
  | c0 :: c1 :: c2 :: c3 :: rest =>
    match alphaIndex A c0, alphaIndex A c1 with
    | some i0, some i1 =>
      if c2 = 61 then
        if c3 = 61 ∧ rest = [] then .ok [i0 * 4 + i1 / 16] else .error ()
      else
        match alphaIndex A c2 with
        | some i2 =>
          if c3 = 61 then
            if rest = [] then .ok [i0 * 4 + i1 / 16, i1 % 16 * 16 + i2 / 4]
            else .error ()
          else
            match alphaIndex A c3 with
            | some i3 =>
              (b64DecodeGroups A rest).map
                (fun tl => (i0 * 4 + i1 / 16) :: (i1 % 16 * 16 + i2 / 4) ::
                  (i2 % 4 * 64 + i3) :: tl)
            | none => .error ()
        | none => .error ()
    | _, _ => .error ()
  | _ => .error ()

/-- Go `base64.Decode`: newline bytes are skipped wherever they occur. -/
def b64Decode (A : List Nat) (src : List Nat) : Except Unit (List Nat) :=
  b64DecodeGroups A (src.filter (fun b => decide (b ≠ 10 ∧ b ≠ 13)))

/-- `base64Enc` of `main.go`. -/
def base64Enc (src : List Nat) : Except Unit (List Nat) :=
  .ok (b64EncodeGroups b64StdAlphabet src)

/-- `base64Dec` of `main.go`. -/
def base64Dec (src : List Nat) : Except Unit (List Nat) :=
  b64Decode b64StdAlphabet src

/-- `base64URLEnc` of `main.go`. -/
def base64URLEnc (src : List Nat) : Except Unit (List Nat) :=
  .ok (b64EncodeGroups b64URLAlphabet src)

/-- `base64URLDec` of `main.go`. -/
def base64URLDec (src : List Nat) : Except Unit (List Nat) :=
  b64Decode b64URLAlphabet src

/-- Characters emitted by the base64 encoder: padding or alphabet symbols. -/
theorem b64EncodeGroups_mem (A : List Nat) (x : List Nat) (hx : Bytes x) :
    ∀ c ∈ b64EncodeGroups A x, c = 61 ∨ ∃ i, i < 64 ∧ c = alphaChar A i := by
  induction x using b64EncodeGroups.induct A with
  | case1 => intro c hc; cases hc
  | case2 a =>
    have ha : a < 256 := hx a (by simp)
    intro c hc
    simp only [b64EncodeGroups, List.mem_cons, List.not_mem_nil, or_false] at hc
    rcases hc with h | h | h | h
    · exact Or.inr ⟨a / 4, by omega, h⟩
    · exact Or.inr ⟨a % 4 * 16, by omega, h⟩
    · exact Or.inl h
    · exact Or.inl h
  | case3 a b =>
    have ha : a < 256 := hx a (by simp)
    have hb : b < 256 := hx b (by simp)
    intro c hc
    simp only [b64EncodeGroups, List.mem_cons, List.not_mem_nil, or_false] at hc
    rcases hc with h | h | h | h
    · exact Or.inr ⟨a / 4, by omega, h⟩
    · exact Or.inr ⟨a % 4 * 16 + b / 16, by omega, h⟩
    · exact Or.inr ⟨b % 16 * 4, by omega, h⟩
    · exact Or.inl h
  | case4 a b c rest ih =>
    have ha : a < 256 := hx a (by simp)
    have hb : b < 256 := hx b (by simp)
    have hc' : c < 256 := hx c (by simp)
    have hrest : Bytes rest := fun d hd => hx d (by simp [hd])
    intro d hd
    simp only [b64EncodeGroups, List.mem_cons] at hd
    rcases hd with h | h | h | h | h
    · exact Or.inr ⟨a / 4, by omega, h⟩
    · exact Or.inr ⟨a % 4 * 16 + b / 16, by omega, h⟩
    · exact Or.inr ⟨b % 16 * 4 + c / 64, by omega, h⟩
    · exact Or.inr ⟨c % 64, by omega, h⟩
    · exact ih hrest d h

theorem b64Encode_filter (A : List Nat) (x : List Nat) (hx : Bytes x)
    (hnl : ∀ i, i < 64 → alphaChar A i ≠ 10 ∧ alphaChar A i ≠ 13) :
    (b64EncodeGroups A x).filter (fun b => decide (b ≠ 10 ∧ b ≠ 13)) =
      b64EncodeGroups A x := by
  apply List.filter_eq_self.mpr
  intro c hc
  rcases b64EncodeGroups_mem A x hx c hc with h | ⟨i, hi, rfl⟩
  · subst h; decide
  · have h := hnl i hi
    simp only [decide_eq_true_eq]
    exact h

theorem b64DecodeGroups_encode (A : List Nat)
    (hrev : ∀ i, i < 64 → alphaIndex A (alphaChar A i) = some i)
    (hpad : ∀ i, i < 64 → alphaChar A i ≠ 61)
    (x : List Nat) (hx : Bytes x) :
    b64DecodeGroups A (b64EncodeGroups A x) = .ok x := by
  induction x using b64EncodeGroups.induct A with
  | case1 => rfl
  | case2 a =>
    have ha : a < 256 := hx a (by simp)
    have h0 := hrev (a / 4) (by omega)
    have h1 := hrev (a % 4 * 16) (by omega)
    have he : a / 4 * 4 + a % 4 * 16 / 16 = a := by omega
    simp [b64EncodeGroups, b64DecodeGroups, h0, h1, he]
    omega
  | case3 a b =>
    have ha : a < 256 := hx a (by simp)
    have hb : b < 256 := hx b (by simp)
    have h0 := hrev (a / 4) (by omega)
    have h1 := hrev (a % 4 * 16 + b / 16) (by omega)
    have h2 := hrev (b % 16 * 4) (by omega)
    have he0 : a / 4 * 4 + (a % 4 * 16 + b / 16) / 16 = a := by omega
    have he1 : (a % 4 * 16 + b / 16) % 16 * 16 + b % 16 * 4 / 4 = b := by omega
    have hn2 : alphaChar A (b % 16 * 4) ≠ 61 := hpad _ (by omega)
    simp [b64EncodeGroups, b64DecodeGroups, h0, h1, h2, hn2, he0, he1]
    omega
  | case4 a b c rest ih =>
    have ha : a < 256 := hx a (by simp)
    have hb : b < 256 := hx b (by simp)
    have hc : c < 256 := hx c (by simp)
    have hrest : Bytes rest := fun d hd => hx d (by simp [hd])
    have h0 := hrev (a / 4) (by omega)
    have h1 := hrev (a % 4 * 16 + b / 16) (by omega)
    have h2 := hrev (b % 16 * 4 + c / 64) (by omega)
    have h3 := hrev (c % 64) (by omega)
    have he0 : a / 4 * 4 + (a % 4 * 16 + b / 16) / 16 = a := by omega
    have he1 : (a % 4 * 16 + b / 16) % 16 * 16 + (b % 16 * 4 + c / 64) / 4 = b := by
      omega
    have he2 : (b % 16 * 4 + c / 64) % 4 * 64 + c % 64 = c := by omega
    have hn2 : alphaChar A (b % 16 * 4 + c / 64) ≠ 61 := hpad _ (by omega)
    have hn3 : alphaChar A (c % 64) ≠ 61 := hpad _ (by omega)
    simp [b64EncodeGroups, b64DecodeGroups, h0, h1, h2, h3, hn2, hn3, he0,
      he1, he2, ih hrest, Except.map]

theorem b64Std_alpha_facts :
    (∀ i, i < 64 → alphaIndex b64StdAlphabet (alphaChar b64StdAlphabet i) = some i) ∧
    (∀ i, i < 64 → alphaChar b64StdAlphabet i ≠ 10 ∧ alphaChar b64StdAlphabet i ≠ 13) ∧
    (∀ i, i < 64 → alphaChar b64StdAlphabet i ≠ 61) := by
  decide

theorem b64URL_alpha_facts :
    (∀ i, i < 64 → alphaIndex b64URLAlphabet (alphaChar b64URLAlphabet i) = some i) ∧
    (∀ i, i < 64 → alphaChar b64URLAlphabet i ≠ 10 ∧ alphaChar b64URLAlphabet i ≠ 13) ∧
    (∀ i, i < 64 → alphaChar b64URLAlphabet i ≠ 61) := by
  decide

theorem base64_roundtrip (x : List Nat) (hx : Bytes x) :
    (base64Enc x).bind base64Dec = .ok x := by
  have h := b64Std_alpha_facts
  show base64Dec (b64EncodeGroups b64StdAlphabet x) = .ok x
  unfold base64Dec b64Decode
  rw [b64Encode_filter _ x hx h.2.1]
  exact b64DecodeGroups_encode _ h.1 h.2.2 x hx

/-! ## base32 (Go `encoding/base32`, padded encodings) -/

/-- RFC 4648 standard base32 alphabet (`base32.StdEncoding`). -/
def b32StdAlphabet : List Nat :=
  [65, 66, 67, 68, 69, 70, 71, 72, 73, 74, 75, 76, 77, 78, 79, 80, 81, 82,
   83, 84, 85, 86, 87, 88, 89, 90, 50, 51, 52, 53, 54, 55]

/-- RFC 4648 extended-hex base32 alphabet (`base32.HexEncoding`). -/
def b32HexAlphabet : List Nat :=
  [48, 49, 50, 51, 52, 53, 54, 55, 56, 57, 65, 66, 67, 68, 69, 70, 71, 72,
   73, 74, 75, 76, 77, 78, 79, 80, 81, 82, 83, 84, 85, 86]

/-- Crockford base32 alphabet (`base32.NewEncoding` argument in `main.go`:
    `0123456789ABCDEFGHJKMNPQRSTVWXYZ`, i.e. without I, L, O, U). -/
def crockfordAlphabet : List Nat :=
  [48, 49, 50, 51, 52, 53, 54, 55, 56, 57, 65, 66, 67, 68, 69, 70, 71, 72,
   74, 75, 77, 78, 80, 81, 82, 83, 84, 86, 87, 88, 89, 90]

/-- Go `base32.Encode` with padding: groups of five bytes become eight
    symbols; a final short group is padded with `=` (61). -/
def b32EncodeGroups (A : List Nat) : List Nat → List Nat
  | [] => []
  | [a] => [alphaChar A (a / 8), alphaChar A (a % 8 * 4), 61, 61, 61, 61, 61, 61]
  | [a, b] =>
    [alphaChar A (a / 8), alphaChar A (a % 8 * 4 + b / 64),
     alphaChar A (b / 2 % 32), alphaChar A (b % 2 * 16), 61, 61, 61, 61]
  | [a, b, c] =>
    [alphaChar A (a / 8), alphaChar A (a % 8 * 4 + b / 64),
     alphaChar A (b / 2 % 32), alphaChar A (b % 2 * 16 + c / 16),
     alphaChar A (c % 16 * 2), 61, 61, 61]
  | [a, b, c, d] =>
    [alphaChar A (a / 8), alphaChar A (a % 8 * 4 + b / 64),
     alphaChar A (b / 2 % 32), alphaChar A (b % 2 * 16 + c / 16),
     alphaChar A (c % 16 * 2 + d / 128), alphaChar A (d / 4 % 32),
     alphaChar A (d % 4 * 8), 61]
  | a :: b :: c :: d :: e :: rest =>
    alphaChar A (a / 8) :: alphaChar A (a % 8 * 4 + b / 64) ::
      alphaChar A (b / 2 % 32) :: alphaChar A (b % 2 * 16 + c / 16) ::
      alphaChar A (c % 16 * 2 + d / 128) :: alphaChar A (d / 4 % 32) ::
      alphaChar A (d % 4 * 8 + e / 32) :: alphaChar A (e % 32) ::
      b32EncodeGroups A rest

/-- Go `base32.Decode` after newline removal: quanta of eight symbols;
    padding may start at symbol 2, 4, 5 or 7 of the final quantum and must
    run to its end (other padding shapes are `CorruptInputError`). -/
def b32DecodeGroups (A : List Nat) : List Nat → Except Unit (List Nat)
  | [] => .ok []
  | c0 :: c1 :: c2 :: c3 :: c4 :: c5 :: c6 :: c7 :: rest =>
    match alphaIndex A c0, alphaIndex A c1 with
    | some i0, some i1 =>
      if c2 = 61 then
        if c3 = 61 ∧ c4 = 61 ∧ c5 = 61 ∧ c6 = 61 ∧ c7 = 61 ∧ rest = [] then
          .ok [i0 * 8 + i1 / 4]
        else .error ()
      else
        match alphaIndex A c2, alphaIndex A c3 with
        | some i2, some i3 =>
          if c4 = 61 then
            if c5 = 61 ∧ c6 = 61 ∧ c7 = 61 ∧ rest = [] then
              .ok [i0 * 8 + i1 / 4, i1 % 4 * 64 + i2 * 2 + i3 / 16]
            else .error ()
          else
            match alphaIndex A c4 with
            | some i4 =>
              if c5 = 61 then
                if c6 = 61 ∧ c7 = 61 ∧ rest = [] then
                  .ok [i0 * 8 + i1 / 4, i1 % 4 * 64 + i2 * 2 + i3 / 16,
                       i3 % 16 * 16 + i4 / 2]
                else .error ()
              else
                match alphaIndex A c5, alphaIndex A c6 with
                | some i5, some i6 =>
                  if c7 = 61 then
                    if rest = [] then
                      .ok [i0 * 8 + i1 / 4, i1 % 4 * 64 + i2 * 2 + i3 / 16,
                           i3 % 16 * 16 + i4 / 2, i4 % 2 * 128 + i5 * 4 + i6 / 8]
                    else .error ()
                  else
                    match alphaIndex A c7 with
                    | some i7 =>
                      (b32DecodeGroups A rest).map
                        (fun tl => (i0 * 8 + i1 / 4) ::
                          (i1 % 4 * 64 + i2 * 2 + i3 / 16) ::
                          (i3 % 16 * 16 + i4 / 2) ::
                          (i4 % 2 * 128 + i5 * 4 + i6 / 8) ::
                          (i6 % 8 * 32 + i7) :: tl)
                    | none => .error ()
                | _, _ => .error ()
            | none => .error ()
        | _, _ => .error ()
    | _, _ => .error ()
  | _ => .error ()

/-- Go `base32.Decode`: newline bytes are skipped wherever they occur. -/
def b32Decode (A : List Nat) (src : List Nat) : Except Unit (List Nat) :=
  b32DecodeGroups A (src.filter (fun b => decide (b ≠ 10 ∧ b ≠ 13)))

/-- `base32Enc` of `main.go`. -/
def base32Enc (src : List Nat) : Except Unit (List Nat) :=
  .ok (b32EncodeGroups b32StdAlphabet src)

/-- `base32Dec` of `main.go`. -/
def base32Dec (src : List Nat) : Except Unit (List Nat) :=
  b32Decode b32StdAlphabet src

/-- `base32HexEnc` of `main.go`. -/
def base32HexEnc (src : List Nat) : Except Unit (List Nat) :=
  .ok (b32EncodeGroups b32HexAlphabet src)

/-- `base32HexDec` of `main.go`. -/
def base32HexDec (src : List Nat) : Except Unit (List Nat) :=
  b32Decode b32HexAlphabet src

/-- Characters emitted by the base32 encoder: padding or alphabet symbols. -/
theorem b32EncodeGroups_mem (A : List Nat) (x : List Nat) (hx : Bytes x) :
    ∀ c ∈ b32EncodeGroups A x, c = 61 ∨ ∃ i, i < 32 ∧ c = alphaChar A i := by
  induction x using b32EncodeGroups.induct A with
  | case1 => intro c hc; cases hc
  | case2 a =>
    have ha : a < 256 := hx a (by simp)
    intro c hc
    simp only [b32EncodeGroups, List.mem_cons, List.not_mem_nil, or_false] at hc
    rcases hc with h | h | h | h | h | h | h | h
    · exact Or.inr ⟨a / 8, by omega, h⟩
    · exact Or.inr ⟨a % 8 * 4, by omega, h⟩
    all_goals exact Or.inl h
  | case3 a b =>
    have ha : a < 256 := hx a (by simp)
    have hb : b < 256 := hx b (by simp)
    intro c hc
    simp only [b32EncodeGroups, List.mem_cons, List.not_mem_nil, or_false] at hc
    rcases hc with h | h | h | h | h | h | h | h
    · exact Or.inr ⟨a / 8, by omega, h⟩
    · exact Or.inr ⟨a % 8 * 4 + b / 64, by omega, h⟩
    · exact Or.inr ⟨b / 2 % 32, by omega, h⟩
    · exact Or.inr ⟨b % 2 * 16, by omega, h⟩
    all_goals exact Or.inl h
  | case4 a b c =>
    have ha : a < 256 := hx a (by simp)
    have hb : b < 256 := hx b (by simp)
    have hc' : c < 256 := hx c (by simp)
    intro d hd
    simp only [b32EncodeGroups, List.mem_cons, List.not_mem_nil, or_false] at hd
    rcases hd with h | h | h | h | h | h | h | h
    · exact Or.inr ⟨a / 8, by omega, h⟩
    · exact Or.inr ⟨a % 8 * 4 + b / 64, by omega, h⟩
    · exact Or.inr ⟨b / 2 % 32, by omega, h⟩
    · exact Or.inr ⟨b % 2 * 16 + c / 16, by omega, h⟩
    · exact Or.inr ⟨c % 16 * 2, by omega, h⟩
    all_goals exact Or.inl h
  | case5 a b c d =>
    have ha : a < 256 := hx a (by simp)
    have hb : b < 256 := hx b (by simp)
    have hc' : c < 256 := hx c (by simp)
    have hd' : d < 256 := hx d (by simp)
    intro e he
    simp only [b32EncodeGroups, List.mem_cons, List.not_mem_nil, or_false] at he
    rcases he with h | h | h | h | h | h | h | h
    · exact Or.inr ⟨a / 8, by omega, h⟩
    · exact Or.inr ⟨a % 8 * 4 + b / 64, by omega, h⟩
    · exact Or.inr ⟨b / 2 % 32, by omega, h⟩
    · exact Or.inr ⟨b % 2 * 16 + c / 16, by omega, h⟩
    · exact Or.inr ⟨c % 16 * 2 + d / 128, by omega, h⟩
    · exact Or.inr ⟨d / 4 % 32, by omega, h⟩
    · exact Or.inr ⟨d % 4 * 8, by omega, h⟩
    · exact Or.inl h
  | case6 a b c d e rest ih =>
    have ha : a < 256 := hx a (by simp)
    have hb : b < 256 := hx b (by simp)
    have hc' : c < 256 := hx c (by simp)
    have hd' : d < 256 := hx d (by simp)
    have he' : e < 256 := hx e (by simp)
    have hrest : Bytes rest := fun f hf => hx f (by simp [hf])
    intro f hf
    simp only [b32EncodeGroups, List.mem_cons] at hf
    rcases hf with h | h | h | h | h | h | h | h | h
    · exact Or.inr ⟨a / 8, by omega, h⟩
    · exact Or.inr ⟨a % 8 * 4 + b / 64, by omega, h⟩
    · exact Or.inr ⟨b / 2 % 32, by omega, h⟩
    · exact Or.inr ⟨b % 2 * 16 + c / 16, by omega, h⟩
    · exact Or.inr ⟨c % 16 * 2 + d / 128, by omega, h⟩
    · exact Or.inr ⟨d / 4 % 32, by omega, h⟩
    · exact Or.inr ⟨d % 4 * 8 + e / 32, by omega, h⟩
    · exact Or.inr ⟨e % 32, by omega, h⟩
    · exact ih hrest f h

theorem b32Encode_filter (A : List Nat) (x : List Nat) (hx : Bytes x)
    (hnl : ∀ i, i < 32 → alphaChar A i ≠ 10 ∧ alphaChar A i ≠ 13) :
    (b32EncodeGroups A x).filter (fun b => decide (b ≠ 10 ∧ b ≠ 13)) =
      b32EncodeGroups A x := by
  apply List.filter_eq_self.mpr
  intro c hc
  rcases b32EncodeGroups_mem A x hx c hc with h | ⟨i, hi, rfl⟩
  · subst h; decide
  · have h := hnl i hi
    simp only [decide_eq_true_eq]
    exact h

theorem b32DecodeGroups_encode (A : List Nat)
    (hrev : ∀ i, i < 32 → alphaIndex A (alphaChar A i) = some i)
    (hpad : ∀ i, i < 32 → alphaChar A i ≠ 61)
    (x : List Nat) (hx : Bytes x) :
    b32DecodeGroups A (b32EncodeGroups A x) = .ok x := by
  induction x using b32EncodeGroups.induct A with
  | case1 => rfl
  | case2 a =>
    have ha : a < 256 := hx a (by simp)
    have h0 := hrev (a / 8) (by omega)
    have h1 := hrev (a % 8 * 4) (by omega)
    simp [b32EncodeGroups, b32DecodeGroups, h0, h1]
    omega
  | case3 a b =>
    have ha : a < 256 := hx a (by simp)
    have hb : b < 256 := hx b (by simp)
    have h0 := hrev (a / 8) (by omega)
    have h1 := hrev (a % 8 * 4 + b / 64) (by omega)
    have h2 := hrev (b / 2 % 32) (by omega)
    have h3 := hrev (b % 2 * 16) (by omega)
    have hn2 : alphaChar A (b / 2 % 32) ≠ 61 := hpad _ (by omega)
    have hn3 : alphaChar A (b % 2 * 16) ≠ 61 := hpad _ (by omega)
    simp [b32EncodeGroups, b32DecodeGroups, h0, h1, h2, h3, hn2, hn3]
    omega
  | case4 a b c =>
    have ha : a < 256 := hx a (by simp)
    have hb : b < 256 := hx b (by simp)
    have hc' : c < 256 := hx c (by simp)
    have h0 := hrev (a / 8) (by omega)
    have h1 := hrev (a % 8 * 4 + b / 64) (by omega)
    have h2 := hrev (b / 2 % 32) (by omega)
    have h3 := hrev (b % 2 * 16 + c / 16) (by omega)
    have h4 := hrev (c % 16 * 2) (by omega)
    have hn2 : alphaChar A (b / 2 % 32) ≠ 61 := hpad _ (by omega)
    have hn3 : alphaChar A (b % 2 * 16 + c / 16) ≠ 61 := hpad _ (by omega)
    have hn4 : alphaChar A (c % 16 * 2) ≠ 61 := hpad _ (by omega)
    simp [b32EncodeGroups, b32DecodeGroups, h0, h1, h2, h3, h4, hn2, hn3, hn4]
    omega
  | case5 a b c d =>
    have ha : a < 256 := hx a (by simp)
    have hb : b < 256 := hx b (by simp)
    have hc' : c < 256 := hx c (by simp)
    have hd' : d < 256 := hx d (by simp)
    have h0 := hrev (a / 8) (by omega)
    have h1 := hrev (a % 8 * 4 + b / 64) (by omega)
    have h2 := hrev (b / 2 % 32) (by omega)
    have h3 := hrev (b % 2 * 16 + c / 16) (by omega)
    have h4 := hrev (c % 16 * 2 + d / 128) (by omega)
    have h5 := hrev (d / 4 % 32) (by omega)
    have h6 := hrev (d % 4 * 8) (by omega)
    have hn2 : alphaChar A (b / 2 % 32) ≠ 61 := hpad _ (by omega)
    have hn3 : alphaChar A (b % 2 * 16 + c / 16) ≠ 61 := hpad _ (by omega)
    have hn4 : alphaChar A (c % 16 * 2 + d / 128) ≠ 61 := hpad _ (by omega)
    have hn5 : alphaChar A (d / 4 % 32) ≠ 61 := hpad _ (by omega)
    have hn6 : alphaChar A (d % 4 * 8) ≠ 61 := hpad _ (by omega)
    simp [b32EncodeGroups, b32DecodeGroups, h0, h1, h2, h3, h4, h5, h6,
      hn2, hn3, hn4, hn5, hn6]
    omega
  | case6 a b c d e rest ih =>
    have ha : a < 256 := hx a (by simp)
    have hb : b < 256 := hx b (by simp)
    have hc' : c < 256 := hx c (by simp)
    have hd' : d < 256 := hx d (by simp)
    have he' : e < 256 := hx e (by simp)
    have hrest : Bytes rest := fun f hf => hx f (by simp [hf])
    have h0 := hrev (a / 8) (by omega)
    have h1 := hrev (a % 8 * 4 + b / 64) (by omega)
    have h2 := hrev (b / 2 % 32) (by omega)
    have h3 := hrev (b % 2 * 16 + c / 16) (by omega)
    have h4 := hrev (c % 16 * 2 + d / 128) (by omega)
    have h5 := hrev (d / 4 % 32) (by omega)
    have h6 := hrev (d % 4 * 8 + e / 32) (by omega)
    have h7 := hrev (e % 32) (by omega)
    have hn2 : alphaChar A (b / 2 % 32) ≠ 61 := hpad _ (by omega)
    have hn3 : alphaChar A (b % 2 * 16 + c / 16) ≠ 61 := hpad _ (by omega)
    have hn4 : alphaChar A (c % 16 * 2 + d / 128) ≠ 61 := hpad _ (by omega)
    have hn5 : alphaChar A (d / 4 % 32) ≠ 61 := hpad _ (by omega)
    have hn6 : alphaChar A (d % 4 * 8 + e / 32) ≠ 61 := hpad _ (by omega)
    have hn7 : alphaChar A (e % 32) ≠ 61 := hpad _ (by omega)
    have ho0 : a / 8 * 8 + (a % 8 * 4 + b / 64) / 4 = a := by omega
    have ho1 : (a % 8 * 4 + b / 64) % 4 * 64 + b / 2 % 32 * 2 +
        (b % 2 * 16 + c / 16) / 16 = b := by omega
    have ho2 : (b % 2 * 16 + c / 16) % 16 * 16 + (c % 16 * 2 + d / 128) / 2 = c := by
      omega
    have ho3 : (c % 16 * 2 + d / 128) % 2 * 128 + d / 4 % 32 * 4 +
        (d % 4 * 8 + e / 32) / 8 = d := by omega
    have ho4 : (d % 4 * 8 + e / 32) % 8 * 32 + e % 32 = e := by omega
    simp [b32EncodeGroups, b32DecodeGroups, h0, h1, h2, h3, h4, h5, h6, h7,
      hn2, hn3, hn4, hn5, hn6, hn7, ho0, ho1, ho2, ho3, ho4, ih hrest,
      Except.map]

theorem b32Std_alpha_facts :
    (∀ i, i < 32 → alphaIndex b32StdAlphabet (alphaChar b32StdAlphabet i) = some i) ∧
    (∀ i, i < 32 → alphaChar b32StdAlphabet i ≠ 10 ∧ alphaChar b32StdAlphabet i ≠ 13) ∧
    (∀ i, i < 32 → alphaChar b32StdAlphabet i ≠ 61) := by
  decide

theorem b32Hex_alpha_facts :
    (∀ i, i < 32 → alphaIndex b32HexAlphabet (alphaChar b32HexAlphabet i) = some i) ∧
    (∀ i, i < 32 → alphaChar b32HexAlphabet i ≠ 10 ∧ alphaChar b32HexAlphabet i ≠ 13) ∧
    (∀ i, i < 32 → alphaChar b32HexAlphabet i ≠ 61) := by
  decide

theorem crockford_alpha_facts :
    (∀ i, i < 32 → alphaIndex crockfordAlphabet (alphaChar crockfordAlphabet i) = some i) ∧
    (∀ i, i < 32 → alphaChar crockfordAlphabet i ≠ 10 ∧ alphaChar crockfordAlphabet i ≠ 13) ∧
    (∀ i, i < 32 → alphaChar crockfordAlphabet i ≠ 61) := by
  decide

theorem base32_roundtrip (x : List Nat) (hx : Bytes x) :
    (base32Enc x).bind base32Dec = .ok x := by
  have h := b32Std_alpha_facts
  show base32Dec (b32EncodeGroups b32StdAlphabet x) = .ok x
  unfold base32Dec b32Decode
  rw [b32Encode_filter _ x hx h.2.1]
  exact b32DecodeGroups_encode _ h.1 h.2.2 x hx

theorem base32hex_roundtrip (x : List Nat) (hx : Bytes x) :
    (base32HexEnc x).bind base32HexDec = .ok x := by
  have h := b32Hex_alpha_facts
  show base32HexDec (b32EncodeGroups b32HexAlphabet x) = .ok x
  unfold base32HexDec b32Decode
  rw [b32Encode_filter _ x hx h.2.1]
  exact b32DecodeGroups_encode _ h.1 h.2.2 x hx

theorem base64url_roundtrip (x : List Nat) (hx : Bytes x) :
    (base64URLEnc x).bind base64URLDec = .ok x := by
  have h := b64URL_alpha_facts
  show base64URLDec (b64EncodeGroups b64URLAlphabet x) = .ok x
  unfold base64URLDec b64Decode
  rw [b64Encode_filter _ x hx h.2.1]
  exact b64DecodeGroups_encode _ h.1 h.2.2 x hx

/-! ## base32-crockford -/

/-- ASCII uppercasing: the action of Go `bytes.ToUpper` on ASCII bytes.
    (`bytes.ToUpper` additionally maps non-ASCII UTF-8 sequences through the
    Unicode case tables, which are not modelled; every claim about the
    Crockford decoder concerns ASCII text, where the two agree byte for
    byte, so the theorems below restrict variant texts to ASCII.) -/
def toUpperByte (b : Nat) : Nat := if 97 ≤ b ∧ b ≤ 122 then b - 32 else b

/-- One byte of the `base32CrockfordDec` normalization: uppercase, then
    I→1, L→1, O→0 in the order of the `bytes.Replace` calls of `main.go`
    (each call has a single-byte pattern, so it is a per-byte map). -/
def crockNormByte (b : Nat) : Nat :=
  let u0 := toUpperByte b
  let u1 := if u0 = 73 then 49 else u0
  let u2 := if u1 = 76 then 49 else u1
  if u2 = 79 then 48 else u2

/-- The full input normalization of `base32CrockfordDec`: per-byte map, then
    strip `-` (45), in the order of `main.go`. -/
def crockNormalize (src : List Nat) : List Nat :=
  (src.map crockNormByte).filter (fun b => decide (b ≠ 45))

/-- `base32CrockfordEnc` of `main.go`. -/
def base32CrockfordEnc (src : List Nat) : Except Unit (List Nat) :=
  .ok (b32EncodeGroups crockfordAlphabet src)

/-- `base32CrockfordDec` of `main.go`: normalize, then decode with the
    Crockford alphabet. -/
def base32CrockfordDec (src : List Nat) : Except Unit (List Nat) :=
  b32Decode crockfordAlphabet (crockNormalize src)

theorem crockNormByte_alpha :
    (∀ i, i < 32 → crockNormByte (alphaChar crockfordAlphabet i) =
      alphaChar crockfordAlphabet i ∧ alphaChar crockfordAlphabet i ≠ 45) ∧
    crockNormByte 61 = 61 := by
  decide

theorem crockNormalize_encode (x : List Nat) (hx : Bytes x) :
    crockNormalize (b32EncodeGroups crockfordAlphabet x) =
      b32EncodeGroups crockfordAlphabet x := by
  have hmem := b32EncodeGroups_mem crockfordAlphabet x hx
  unfold crockNormalize
  have hmap : (b32EncodeGroups crockfordAlphabet x).map crockNormByte =
      b32EncodeGroups crockfordAlphabet x := by
    have : ∀ c ∈ b32EncodeGroups crockfordAlphabet x, crockNormByte c = c := by
      intro c hc
      rcases hmem c hc with h | ⟨i, hi, rfl⟩
      · subst h; exact crockNormByte_alpha.2
      · exact (crockNormByte_alpha.1 i hi).1
    calc (b32EncodeGroups crockfordAlphabet x).map crockNormByte
        = (b32EncodeGroups crockfordAlphabet x).map id :=
          List.map_congr_left this
      _ = b32EncodeGroups crockfordAlphabet x := List.map_id _
  rw [hmap]
  apply List.filter_eq_self.mpr
  intro c hc
  rcases hmem c hc with h | ⟨i, hi, rfl⟩
  · subst h; decide
  · simp only [decide_eq_true_eq]
    exact (crockNormByte_alpha.1 i hi).2

theorem crockford_roundtrip (x : List Nat) (hx : Bytes x) :
    (base32CrockfordEnc x).bind base32CrockfordDec = .ok x := by
  have h := crockford_alpha_facts
  show base32CrockfordDec (b32EncodeGroups crockfordAlphabet x) = .ok x
  unfold base32CrockfordDec
  rw [crockNormalize_encode x hx]
  unfold b32Decode
  rw [b32Encode_filter _ x hx h.2.1]
  exact b32DecodeGroups_encode _ h.1 h.2.2 x hx

/-- One character of a Crockford-variant spelling of `a`: `a` itself, its
    ASCII case partner, or a confusable spelling (I, L, i, l for 1; O, o
    for 0). -/
def crockVariantChar (a b : Nat) : Prop :=
  b = a ∨
  (65 ≤ a ∧ a ≤ 90 ∧ b = a + 32) ∨
  (97 ≤ a ∧ a ≤ 122 ∧ b = a - 32) ∨
  (a = 49 ∧ (b = 73 ∨ b = 76 ∨ b = 105 ∨ b = 108)) ∨
  (a = 48 ∧ (b = 79 ∨ b = 111))

instance (a b : Nat) : Decidable (crockVariantChar a b) := by
  unfold crockVariantChar; infer_instance

theorem crockNormByte_variant (a b : Nat) (ha : a < 128)
    (h : crockVariantChar a b) : crockNormByte b = crockNormByte a := by
  rcases h with h | ⟨h1, h2, h3⟩ | ⟨h1, h2, h3⟩ | ⟨h1, h2⟩ | ⟨h1, h2⟩
  · rw [h]
  · subst h3
    unfold crockNormByte toUpperByte
    have hup : ¬(97 ≤ a ∧ a ≤ 122) := by omega
    have hlo : 97 ≤ a + 32 ∧ a + 32 ≤ 122 := by omega
    rw [if_pos hlo, if_neg hup]
    have : a + 32 - 32 = a := by omega
    rw [this]
  · subst h3
    unfold crockNormByte toUpperByte
    have hlo : 97 ≤ a ∧ a ≤ 122 := by omega
    have hup : ¬(97 ≤ a - 32 ∧ a - 32 ≤ 122) := by omega
    rw [if_pos hlo, if_neg hup]
  · subst h1
    rcases h2 with rfl | rfl | rfl | rfl <;> decide
  · subst h1
    rcases h2 with rfl | rfl <;> decide

theorem crockNormByte_ne_45 (b : Nat) : (crockNormByte b = 45) ↔ b = 45 := by
  simp only [crockNormByte, toUpperByte]
  split_ifs <;> omega

theorem forall₂_map_eq {R : Nat → Nat → Prop} {f : Nat → Nat}
    (h : ∀ a b, a < 128 → R a b → f b = f a) :
    ∀ s u : List Nat, (∀ b ∈ s, b < 128) → List.Forall₂ R s u →
      u.map f = s.map f := by
  intro s u hs hrel
  induction hrel with
  | nil => rfl
  | cons hab htail ih =>
    next a b s' u' =>
    simp only [List.map_cons]
    rw [h a b (hs a (by simp)) hab, ih (fun c hc => hs c (by simp [hc]))]

theorem crockford_dec_invariant (s t : List Nat)
    (hs : ∀ b ∈ s, b < 128) (hnd : 45 ∉ s)
    (hrel : List.Forall₂ crockVariantChar s
      (t.filter (fun b => decide (b ≠ 45)))) :
    base32CrockfordDec t = base32CrockfordDec s := by
  unfold base32CrockfordDec crockNormalize
  have hfun : ((fun b => decide (b ≠ 45)) ∘ crockNormByte) =
      (fun b : Nat => decide (b ≠ 45)) := by
    funext b
    simp only [Function.comp_apply, decide_eq_decide]
    exact not_congr (crockNormByte_ne_45 b)
  have hcomm : ∀ l : List Nat,
      (l.map crockNormByte).filter (fun b => decide (b ≠ 45)) =
        (l.filter (fun b => decide (b ≠ 45))).map crockNormByte := by
    intro l
    rw [List.filter_map, hfun]
  rw [hcomm t, hcomm s]
  have hss : s.filter (fun b => decide (b ≠ 45)) = s := by
    apply List.filter_eq_self.mpr
    intro c hc
    simp only [decide_eq_true_eq]
    intro hc45
    exact hnd (hc45 ▸ hc)
  rw [hss, forall₂_map_eq crockNormByte_variant s _ hs hrel]

/-! ## Claims C1, C2, C3, C8 -/

/-- C1: for every byte sequence `x`, applying the encoder and then the
    decoder of each of the modes base64, base32, base32-hex and hex returns
    exactly `x` with no error. -/
theorem claim_c1_base_codecs_roundtrip (x : List Nat) (hx : Bytes x) :
    (base64Enc x).bind base64Dec = .ok x ∧
    (base32Enc x).bind base32Dec = .ok x ∧
    (base32HexEnc x).bind base32HexDec = .ok x ∧
    (hexEnc x).bind hexDec = .ok x :=
  ⟨base64_roundtrip x hx, base32_roundtrip x hx, base32hex_roundtrip x hx,
   hex_roundtrip x hx⟩

theorem claim_c1_base_codecs_roundtrip_witness :
    (base64Enc [0, 255, 77, 8]).bind base64Dec = .ok [0, 255, 77, 8] ∧
    (base32Enc [0, 255, 77, 8]).bind base32Dec = .ok [0, 255, 77, 8] ∧
    (base32HexEnc [0, 255, 77, 8]).bind base32HexDec = .ok [0, 255, 77, 8] ∧
    (hexEnc [0, 255, 77, 8]).bind hexDec = .ok [0, 255, 77, 8] :=
  claim_c1_base_codecs_roundtrip [0, 255, 77, 8] (by decide)

/-- C2: crockford decode of crockford encode is the identity, and the
    decoder's result is unchanged when a dash-free ASCII text is respelt by
    mixing letter case, writing I, L (or i, l) for 1 and O (or o) for 0, and
    inserting `-` separators anywhere. -/
theorem claim_c2_crockford_roundtrip_invariance (x s t : List Nat)
    (hx : Bytes x) (hs : ∀ b ∈ s, b < 128) (hnd : 45 ∉ s)
    (hrel : List.Forall₂ crockVariantChar s
      (t.filter (fun b => decide (b ≠ 45)))) :
    (base32CrockfordEnc x).bind base32CrockfordDec = .ok x ∧
    base32CrockfordDec t = base32CrockfordDec s :=
  ⟨crockford_roundtrip x hx, crockford_dec_invariant s t hs hnd hrel⟩

theorem claim_c2_crockford_roundtrip_invariance_witness :
    (base32CrockfordEnc [255, 3]).bind base32CrockfordDec = .ok [255, 3] ∧
    base32CrockfordDec [105, 76, 45, 111] = base32CrockfordDec [49, 49, 48] :=
  claim_c2_crockford_roundtrip_invariance [255, 3] [49, 49, 48]
    [105, 76, 45, 111] (by decide) (by decide) (by decide) (by decide)

/-- C3: rot13 is an involution; it rotates only the ASCII letters by 13
    within their case, leaves every other byte unchanged in its position,
    and the registry uses the same single function as both the decoder and
    the encoder of the rot13 mode. -/
theorem claim_c3_rot13_involution :
    (∀ x y, rot13 x = .ok y → rot13 y = .ok x) ∧
    (∀ x y, rot13 x = .ok y → y.length = x.length ∧
      ∀ i, i < x.length →
        (65 ≤ x.getD i 0 ∧ x.getD i 0 ≤ 90 →
          y.getD i 0 = 65 + (x.getD i 0 - 65 + 13) % 26) ∧
        (97 ≤ x.getD i 0 ∧ x.getD i 0 ≤ 122 →
          y.getD i 0 = 97 + (x.getD i 0 - 97 + 13) % 26) ∧
        (¬(65 ≤ x.getD i 0 ∧ x.getD i 0 ≤ 90) ∧
          ¬(97 ≤ x.getD i 0 ∧ x.getD i 0 ≤ 122) →
          y.getD i 0 = x.getD i 0)) ∧
    rot13Mode.1 = rot13Mode.2 := by
  refine ⟨?_, ?_, rfl⟩
  · intro x y h
    have hy : y = x.map rot13Byte := by
      have := h
      unfold rot13 at this
      cases this
      rfl
    subst hy
    unfold rot13
    congr 1
    rw [List.map_map]
    calc x.map (rot13Byte ∘ rot13Byte)
        = x.map id := List.map_congr_left (fun a _ => rot13Byte_invol a)
      _ = x := List.map_id _
  · intro x y h
    have hy : y = x.map rot13Byte := by
      unfold rot13 at h
      cases h
      rfl
    subst hy
    refine ⟨List.length_map .., ?_⟩
    intro i hi
    have hg : (x.map rot13Byte).getD i 0 = rot13Byte (x.getD i 0) := by
      rw [List.getD_eq_getElem?_getD, List.getElem?_map, List.getD_eq_getElem?_getD,
        List.getElem?_eq_getElem hi]
      simp
    rw [hg]
    refine ⟨?_, ?_, ?_⟩
    · intro hb
      unfold rot13Byte
      rw [if_pos hb]
    · intro hb
      unfold rot13Byte
      rw [if_neg (by omega), if_pos hb]
    · intro hb
      unfold rot13Byte
      rw [if_neg hb.1, if_neg hb.2]

theorem claim_c3_rot13_involution_witness :
    rot13 (strBytes "Uryyb, Jbeyq!") = .ok (strBytes "Hello, World!") :=
  claim_c3_rot13_involution.1 (strBytes "Hello, World!")
    (strBytes "Uryyb, Jbeyq!") (by decide)

theorem crockford_no_confusables :
    ∀ i, i < 32 → alphaChar crockfordAlphabet i ≠ 73 ∧
      alphaChar crockfordAlphabet i ≠ 76 ∧ alphaChar crockfordAlphabet i ≠ 79 ∧
      alphaChar crockfordAlphabet i ≠ 85 := by
  decide

/-- C8 as stated is false: the crockford encoding of the single byte 0xFF is
    `ZW======`, which contains the padding character `=` (61), and `=` is
    not a character of the Crockford alphabet. -/
theorem claim_c8_counterexample :
    base32CrockfordEnc [255] = .ok [90, 87, 61, 61, 61, 61, 61, 61] ∧
    61 ∈ [90, 87, 61, 61, 61, 61, 61, 61] ∧ 61 ∉ crockfordAlphabet := by
  refine ⟨by decide, by decide, by decide⟩

/-- C8 amended: every character of a crockford encoding is either a
    Crockford-alphabet character or the padding `=`; in particular none of
    I, L, O, U ever appears; and decoding `zz-` (lowercase with separator)
    gives the same result as decoding `ZZ`. -/
theorem claim_c8_crockford_example (x : List Nat) (hx : Bytes x) :
    (∀ c ∈ b32EncodeGroups crockfordAlphabet x,
      (c ∈ crockfordAlphabet ∨ c = 61) ∧ c ≠ 73 ∧ c ≠ 76 ∧ c ≠ 79 ∧ c ≠ 85) ∧
    base32CrockfordEnc [255] = .ok [90, 87, 61, 61, 61, 61, 61, 61] ∧
    base32CrockfordDec (strBytes "zz-") = base32CrockfordDec (strBytes "ZZ") := by
  refine ⟨?_, by decide, by decide⟩
  intro c hc
  rcases b32EncodeGroups_mem crockfordAlphabet x hx c hc with h | ⟨i, hi, rfl⟩
  · subst h; decide
  · have hmem : alphaChar crockfordAlphabet i ∈ crockfordAlphabet := by
      have hlen : i < crockfordAlphabet.length := by
        have : crockfordAlphabet.length = 32 := by decide
        omega
      rw [alphaChar, List.getD_eq_getElem?_getD, List.getElem?_eq_getElem hlen]
      exact List.getElem_mem _
    exact ⟨Or.inl hmem, crockford_no_confusables i hi⟩

theorem claim_c8_crockford_example_witness :
    (∀ c ∈ b32EncodeGroups crockfordAlphabet [255],
      (c ∈ crockfordAlphabet ∨ c = 61) ∧ c ≠ 73 ∧ c ≠ 76 ∧ c ≠ 79 ∧ c ≠ 85) ∧
    base32CrockfordEnc [255] = .ok [90, 87, 61, 61, 61, 61, 61, 61] ∧
    base32CrockfordDec (strBytes "zz-") = base32CrockfordDec (strBytes "ZZ") :=
  claim_c8_crockford_example [255] (by decide)

/-! ## url-path / url-query (Go `net/url`)

Only the two escaping modes the program uses are modelled
(`encodePathSegment` for `url.PathEscape`/`PathUnescape`,
`encodeQueryComponent` for `url.QueryEscape`/`QueryUnescape`). -/

inductive URLMode where
  | pathSegment
  | queryComponent
deriving DecidableEq

/-- Go `url.ishex`. -/
def ishexByte (c : Nat) : Bool :=
  decide ((48 ≤ c ∧ c ≤ 57) ∨ (97 ≤ c ∧ c ≤ 102) ∨ (65 ≤ c ∧ c ≤ 70))

/-- Go `url.unhex`. -/
def unhexByte (c : Nat) : Nat :=
  if 48 ≤ c ∧ c ≤ 57 then c - 48
  else if 97 ≤ c ∧ c ≤ 102 then c - 97 + 10
  else if 65 ≤ c ∧ c ≤ 70 then c - 65 + 10
  else 0

/-- Go `url.shouldEscape` for the two modelled modes: alphanumerics and
    `-._~` are never escaped; of the RFC 3986 reserved characters
    `$&+,/:;=?@`, path-segment escaping escapes only `/;,?` while
    query-component escaping escapes all of them; everything else is
    escaped. -/
def urlShouldEscape (c : Nat) (m : URLMode) : Bool :=
  if (65 ≤ c ∧ c ≤ 90) ∨ (97 ≤ c ∧ c ≤ 122) ∨ (48 ≤ c ∧ c ≤ 57) then false
  else if c = 45 ∨ c = 95 ∨ c = 46 ∨ c = 126 then false
  else if c = 36 ∨ c = 38 ∨ c = 43 ∨ c = 44 ∨ c = 47 ∨ c = 58 ∨ c = 59 ∨
      c = 61 ∨ c = 63 ∨ c = 64 then
    match m with
    | .pathSegment => decide (c = 47 ∨ c = 59 ∨ c = 44 ∨ c = 63)
    | .queryComponent => true
  else true

/-- Go's uppercase hex digit table `upperhex`. -/
def upperhex : List Nat :=
  [48, 49, 50, 51, 52, 53, 54, 55, 56, 57, 65, 66, 67, 68, 69, 70]

/-- Go `url.escape`: space becomes `+` in query components; escaped bytes
    become `%XX` with uppercase hex; the rest passes through. -/
def urlEscape (m : URLMode) : List Nat → List Nat
  | [] => []
  | c :: rest =>
    if c = 32 ∧ m = .queryComponent then 43 :: urlEscape m rest
    else if urlShouldEscape c m then
      37 :: upperhex.getD (c / 16) 0 :: upperhex.getD (c % 16) 0 ::
        urlEscape m rest
    else c :: urlEscape m rest

/-- Go `url.unescape`: `%` must be followed by two hex digits (else
    `EscapeError`); `+` becomes a space in query components only; the rest
    passes through. -/
def urlUnescape (m : URLMode) : List Nat → Except Unit (List Nat)
  | [] => .ok []
  | c :: rest =>
    if c = 37 then
      match rest with
      | a :: b :: rest2 =>
        if ishexByte a && ishexByte b then
          (urlUnescape m rest2).map
            (fun tl => (unhexByte a * 16 + unhexByte b) :: tl)
        else .error ()
      | _ => .error ()
    else if c = 43 then
      (urlUnescape m rest).map
        (fun tl => (if m = .queryComponent then 32 else 43) :: tl)
    else (urlUnescape m rest).map (fun tl => c :: tl)

/-- `urlPathEnc` of `main.go` (`url.PathEscape`). -/
def urlPathEnc (src : List Nat) : Except Unit (List Nat) :=
  .ok (urlEscape .pathSegment src)

/-- `urlPathDec` of `main.go` (`url.PathUnescape`). -/
def urlPathDec (src : List Nat) : Except Unit (List Nat) :=
  urlUnescape .pathSegment src

/-- `urlQueryEnc` of `main.go` (`url.QueryEscape`). -/
def urlQueryEnc (src : List Nat) : Except Unit (List Nat) :=
  .ok (urlEscape .queryComponent src)

/-- `urlQueryDec` of `main.go` (`url.QueryUnescape`). -/
def urlQueryDec (src : List Nat) : Except Unit (List Nat) :=
  urlUnescape .queryComponent src

theorem urlUnescape_cons (m : URLMode) (c : Nat) (rest : List Nat) :
    urlUnescape m (c :: rest) =
      if c = 37 then
        match rest with
        | a :: b :: rest2 =>
          if ishexByte a && ishexByte b then
            (urlUnescape m rest2).map
              (fun tl => (unhexByte a * 16 + unhexByte b) :: tl)
          else .error ()
        | _ => .error ()
      else if c = 43 then
        (urlUnescape m rest).map
          (fun tl => (if m = .queryComponent then 32 else 43) :: tl)
      else (urlUnescape m rest).map (fun tl => c :: tl) := by
  rw [urlUnescape.eq_def]

theorem ishexByte_plusmap (c : Nat) :
    ishexByte (if c = 43 then 32 else c) = ishexByte c := by
  by_cases h : c = 43
  · subst h; decide
  · rw [if_neg h]

theorem urlUnescape_query_as_path (s : List Nat) :
    urlUnescape .queryComponent s =
      urlUnescape .pathSegment (s.map (fun b => if b = 43 then 32 else b)) := by
  induction s using urlUnescape.induct URLMode.queryComponent with
  | case1 => rfl
  | case2 a b rest2 hhex ih =>
    have ha : (if a = 43 then 32 else a) = a := by
      by_cases h : a = 43
      · subst h; simp [ishexByte] at hhex
      · exact if_neg h
    have hb : (if b = 43 then 32 else b) = b := by
      by_cases h : b = 43
      · subst h; simp [ishexByte] at hhex
      · exact if_neg h
    simp only [List.map_cons, urlUnescape_cons]
    simp [ha, hb, hhex, ih]
  | case3 a b rest2 hhex =>
    have hhex' : (ishexByte a && ishexByte b) = false := by
      cases h : (ishexByte a && ishexByte b)
      · rfl
      · exact absurd h hhex
    have hhexf : (ishexByte (if a = 43 then 32 else a) &&
        ishexByte (if b = 43 then 32 else b)) = false := by
      rw [ishexByte_plusmap, ishexByte_plusmap]; exact hhex'
    simp only [List.map_cons, urlUnescape_cons]
    simp [hhex', hhexf]
  | case4 rest hshape =>
    rcases rest with _ | ⟨x, _ | ⟨y, r⟩⟩
    · rfl
    · simp only [List.map_cons, urlUnescape_cons]
      simp
    · exact absurd rfl (hshape x y r)
  | case5 rest _ ih =>
    simp only [List.map_cons, urlUnescape_cons]
    simp [ih]
  | case6 c rest hc37 hc43 ih =>
    simp only [List.map_cons, urlUnescape_cons]
    simp [hc37, hc43, ih]

/-- C10: the url-query decoder is the url-path decoder composed with the
    byte map `+` (43) to space (32): it converts every `+` to a space in
    addition to percent-unescaping, while the url-path decoder leaves `+`
    unchanged; on `a+b` they differ as claimed. -/
theorem claim_c10_url_plus_handling :
    (∀ s, urlQueryDec s =
      urlPathDec (s.map (fun b => if b = 43 then 32 else b))) ∧
    urlQueryDec (strBytes "a+b") = .ok (strBytes "a b") ∧
    urlPathDec (strBytes "a+b") = .ok (strBytes "a+b") :=
  ⟨fun s => urlUnescape_query_as_path s, by decide, by decide⟩

/-! ## UTF-8 (Go `unicode/utf8`) -/

/-- Decode one UTF-8 rune from the front of a byte list (Go
    `utf8.DecodeRune`): result is (code point, width).  Invalid, truncated,
    surrogate or overlong input yields (0xFFFD, 1); empty input yields
    (0xFFFD, 0). -/
def utf8DecodeRune : List Nat → Nat × Nat
  | [] => (0xFFFD, 0)
  | b0 :: rest =>
    if b0 < 0x80 then (b0, 1)
    else if 0xC2 ≤ b0 ∧ b0 ≤ 0xDF then
      match rest with
      | b1 :: _ =>
        if 0x80 ≤ b1 ∧ b1 ≤ 0xBF then ((b0 - 0xC0) * 64 + (b1 - 0x80), 2)
        else (0xFFFD, 1)
      | _ => (0xFFFD, 1)
    else if 0xE0 ≤ b0 ∧ b0 ≤ 0xEF then
      match rest with
      | b1 :: b2 :: _ =>
        if (if b0 = 0xE0 then 0xA0 else 0x80) ≤ b1 ∧
            b1 ≤ (if b0 = 0xED then 0x9F else 0xBF) ∧
            0x80 ≤ b2 ∧ b2 ≤ 0xBF then
          ((b0 - 0xE0) * 4096 + (b1 - 0x80) * 64 + (b2 - 0x80), 3)
        else (0xFFFD, 1)
      | _ => (0xFFFD, 1)
    else if 0xF0 ≤ b0 ∧ b0 ≤ 0xF4 then
      match rest with
      | b1 :: b2 :: b3 :: _ =>
        if (if b0 = 0xF0 then 0x90 else 0x80) ≤ b1 ∧
            b1 ≤ (if b0 = 0xF4 then 0x8F else 0xBF) ∧
            0x80 ≤ b2 ∧ b2 ≤ 0xBF ∧ 0x80 ≤ b3 ∧ b3 ≤ 0xBF then
          ((b0 - 0xF0) * 262144 + (b1 - 0x80) * 4096 + (b2 - 0x80) * 64 +
            (b3 - 0x80), 4)
        else (0xFFFD, 1)
      | _ => (0xFFFD, 1)
    else (0xFFFD, 1)

/-- UTF-8 encoding of a code point (Go `utf8.AppendRune`); surrogates and
    out-of-range code points encode the replacement character U+FFFD. -/
def utf8EncodeRune (r : Nat) : List Nat :=
  if r < 0x80 then [r]
  else if r < 0x800 then [0xC0 + r / 64, 0x80 + r % 64]
  else if (0xD800 ≤ r ∧ r ≤ 0xDFFF) ∨ 0x10FFFF < r then [0xEF, 0xBF, 0xBD]
  else if r < 0x10000 then
    [0xE0 + r / 4096, 0x80 + r / 64 % 64, 0x80 + r % 64]
  else [0xF0 + r / 262144, 0x80 + r / 4096 % 64, 0x80 + r / 64 % 64,
    0x80 + r % 64]

/-- Go `utf8.ValidRune`: in range and not a surrogate. -/
def validRune (r : Nat) : Bool :=
  decide (¬(0xD800 ≤ r ∧ r ≤ 0xDFFF) ∧ r ≤ 0x10FFFF)

/-! ## go mode (Go `strconv.QuoteToASCII` / `strconv.Unquote`) -/

/-- `n` lowercase hex digits of `v`, most significant first (Go `lowerhex`
    formatting used by `\x`, `\u`, `\U` escapes). -/
def hexPad : Nat → Nat → List Nat
  | 0, _ => []
  | Nat.succ n, v => hexDigit (v / 16 ^ n) :: hexPad n (v % 16 ^ n)

/-- Escape of one rune by Go `strconv.appendEscapedRune` with quote `"` and
    ASCII-only mode: printable ASCII passes through, everything else is
    backslash-escaped. -/
def escapedRune (r : Nat) : List Nat :=
  if r = 34 ∨ r = 92 then [92, r]
  else if 32 ≤ r ∧ r ≤ 126 then [r]
  else if r = 7 then [92, 97]
  else if r = 8 then [92, 98]
  else if r = 12 then [92, 102]
  else if r = 10 then [92, 110]
  else if r = 13 then [92, 114]
  else if r = 9 then [92, 116]
  else if r = 11 then [92, 118]
  else if r < 32 ∨ r = 127 then 92 :: 120 :: hexPad 2 r
  else if (0xD800 ≤ r ∧ r ≤ 0xDFFF) ∨ 0x10FFFF < r then
    92 :: 117 :: hexPad 4 0xFFFD
  else if r < 0x10000 then 92 :: 117 :: hexPad 4 r
  else 92 :: 85 :: hexPad 8 r

/-- The body of `strconv.QuoteToASCII` (between the surrounding quotes):
    valid runes are escaped with `escapedRune`; an invalid byte becomes a
    `\xNN` escape of that byte. -/
def quoteBody (s : List Nat) : List Nat :=
  match s with
  | [] => []
  | b0 :: rest =>
    if b0 < 0x80 then escapedRune b0 ++ quoteBody rest
    else
      let rw := utf8DecodeRune (b0 :: rest)
      if rw.2 = 1 then (92 :: 120 :: hexPad 2 b0) ++ quoteBody rest
      else escapedRune rw.1 ++ quoteBody (rest.drop (rw.2 - 1))
  termination_by s.length
  decreasing_by
    all_goals simp [List.length_drop]
    all_goals omega

/-- `goEnc` of `main.go` (`strconv.QuoteToASCII`): a double-quoted
    ASCII-only literal. -/
def goEnc (src : List Nat) : Except Unit (List Nat) :=
  .ok (34 :: quoteBody src ++ [34])

/-- Go `strconv.unhex` loop for `\x`, `\u`, `\U`: read exactly `n` hex
    digits, most significant first. -/
def readHexDigits (acc : Nat) : Nat → List Nat → Option (Nat × List Nat)
  | 0, s => some (acc, s)
  | Nat.succ _, [] => none
  | Nat.succ n, c :: s =>
    match fromHexChar c with
    | some d => readHexDigits (acc * 16 + d) n s
    | none => none

/-- Go `strconv.unquoteChar` for quote character `q`, split into the first
    byte `c` and the remainder `s`: returns the produced bytes and the
    number of bytes consumed from `s` (one more byte than that is consumed
    in total).  `none` is `ErrSyntax`. -/
def unquoteChar (q c : Nat) (s : List Nat) : Option (List Nat × Nat) :=
  if c = q then none
  else if 0x80 ≤ c then
    let rw := utf8DecodeRune (c :: s)
    if rw.2 = 1 then some ([0xEF, 0xBF, 0xBD], 0)
    else some (utf8EncodeRune rw.1, rw.2 - 1)
  else if c ≠ 92 then some ([c], 0)
  else
    match s with
    | [] => none
    | e :: s1 =>
      if e = 97 then some ([7], 1)
      else if e = 98 then some ([8], 1)
      else if e = 102 then some ([12], 1)
      else if e = 110 then some ([10], 1)
      else if e = 114 then some ([13], 1)
      else if e = 116 then some ([9], 1)
      else if e = 118 then some ([11], 1)
      else if e = 120 then
        match readHexDigits 0 2 s1 with
        | some (v, _) => some ([v], 3)
        | none => none
      else if e = 117 then
        match readHexDigits 0 4 s1 with
        | some (v, _) => if validRune v then some (utf8EncodeRune v, 5) else none
        | none => none
      else if e = 85 then
        match readHexDigits 0 8 s1 with
        | some (v, _) => if validRune v then some (utf8EncodeRune v, 9) else none
        | none => none
      else if 48 ≤ e ∧ e ≤ 55 then
        match s1 with
        | d2 :: d3 :: _ =>
          if (48 ≤ d2 ∧ d2 ≤ 55) ∧ (48 ≤ d3 ∧ d3 ≤ 55) then
            if (e - 48) * 64 + (d2 - 48) * 8 + (d3 - 48) ≤ 255 then
              some ([(e - 48) * 64 + (d2 - 48) * 8 + (d3 - 48)], 3)
            else none
          else none
        | _ => none
      else if e = 92 then some ([92], 1)
      else if e = 39 ∨ e = 34 then
        if e = q then some ([e], 1) else none
      else none

/-- The unquoting loop of Go `strconv.unquote` over the body of a
    single- or double-quoted literal. -/
def unqLoop (q : Nat) : List Nat → Except Unit (List Nat)
  | [] => .ok []
  | c :: s =>
    match unquoteChar q c s with
    | none => .error ()
    | some (out, k) => (unqLoop q (s.drop k)).map (fun tl => out ++ tl)
  termination_by s => s.length
  decreasing_by simp [List.length_drop]; omega

/-- Go `strconv.Unquote`: the input must be a complete backtick-, double- or
    single-quoted literal; backtick strips carriage returns, the other two
    forms reject embedded newlines and unescape the body; a single-quoted
    literal must contain exactly one character. -/
def goUnquote (src : List Nat) : Except Unit (List Nat) :=
  match src with
  | [] => .error ()
  | [_] => .error ()
  | q :: rest =>
    let body := rest.dropLast
    if rest.getLast? ≠ some q then .error ()
    else if q = 96 then
      if 96 ∈ body then .error ()
      else .ok (body.filter (fun b => decide (b ≠ 13)))
    else if q = 34 then
      if 10 ∈ body then .error () else unqLoop 34 body
    else if q = 39 then
      if 10 ∈ body then .error ()
      else
        match body with
        | [] => .error ()
        | c :: s =>
          match unquoteChar 39 c s with
          | some (out, k) => if s.drop k = [] then .ok out else .error ()
          | none => .error ()
    else .error ()

/-- `goDec` of `main.go`: bare input not starting with a quote character is
    first wrapped in double quotes, then `strconv.Unquote` is applied. -/
def goDec (src : List Nat) : Except Unit (List Nat) :=
  if src ≠ [] ∧ src.getD 0 0 ≠ 34 ∧ src.getD 0 0 ≠ 96 ∧ src.getD 0 0 ≠ 39 then
    goUnquote (34 :: src ++ [34])
  else goUnquote src

theorem hexPad_length (n v : Nat) : (hexPad n v).length = n := by
  induction n generalizing v with
  | zero => rfl
  | succ n ih => simp [hexPad, ih]

theorem readHexDigits_hexPad (n : Nat) (v : Nat) (hv : v < 16 ^ n)
    (acc : Nat) (t : List Nat) :
    readHexDigits acc n (hexPad n v ++ t) = some (acc * 16 ^ n + v, t) := by
  induction n generalizing v acc with
  | zero =>
    have : v = 0 := by simpa using hv
    subst this
    simp [hexPad, readHexDigits]
  | succ n ih =>
    have h16 : 0 < 16 ^ n := Nat.pos_pow_of_pos n (by omega)
    have h1 : v / 16 ^ n < 16 := by
      rw [Nat.div_lt_iff_lt_mul h16]
      calc v < 16 ^ (n + 1) := hv
        _ = 16 * 16 ^ n := by rw [pow_succ]; ring
    simp only [hexPad, List.cons_append, readHexDigits]
    rw [fromHexChar_hexDigit _ h1]
    show readHexDigits (acc * 16 + v / 16 ^ n) n (hexPad n (v % 16 ^ n) ++ t) =
      some (acc * 16 ^ (n + 1) + v, t)
    rw [ih (v % 16 ^ n) (Nat.mod_lt _ h16)]
    have key : (acc * 16 + v / 16 ^ n) * 16 ^ n + v % 16 ^ n =
        acc * 16 ^ (n + 1) + v := by
      calc (acc * 16 + v / 16 ^ n) * 16 ^ n + v % 16 ^ n
          = acc * (16 ^ n * 16) + (v / 16 ^ n * 16 ^ n + v % 16 ^ n) := by ring
        _ = acc * 16 ^ (n + 1) + v := by
            rw [Nat.div_add_mod', pow_succ]
    rw [key]

theorem hexDigit_printable : ∀ d, d < 16 →
    (48 ≤ hexDigit d ∧ hexDigit d ≤ 57) ∨ (97 ≤ hexDigit d ∧ hexDigit d ≤ 102) := by
  decide

theorem hexPad_mem (n v : Nat) (hv : v < 16 ^ n) :
    ∀ c ∈ hexPad n v, 32 ≤ c ∧ c ≤ 126 := by
  induction n generalizing v with
  | zero => intro c hc; cases hc
  | succ n ih =>
    have h16 : 0 < 16 ^ n := Nat.pos_pow_of_pos n (by omega)
    have h1 : v / 16 ^ n < 16 := by
      rw [Nat.div_lt_iff_lt_mul h16]
      calc v < 16 ^ (n + 1) := hv
        _ = 16 * 16 ^ n := by rw [pow_succ]; ring
    intro c hc
    simp only [hexPad, List.mem_cons] at hc
    rcases hc with rfl | hc
    · rcases hexDigit_printable _ h1 with h | h <;> omega
    · exact ih (v % 16 ^ n) (Nat.mod_lt _ h16) c hc

theorem escapedRune_mem (r : Nat) : ∀ c ∈ escapedRune r, 32 ≤ c ∧ c ≤ 126 := by
  intro c hc
  unfold escapedRune at hc
  by_cases h1 : r = 34 ∨ r = 92
  · rw [if_pos h1] at hc
    rcases List.mem_cons.mp hc with rfl | hc
    · omega
    · rcases List.mem_cons.mp hc with rfl | hc
      · omega
      · cases hc
  · rw [if_neg h1] at hc
    by_cases h2 : 32 ≤ r ∧ r ≤ 126
    · rw [if_pos h2] at hc
      rcases List.mem_cons.mp hc with rfl | hc
      · omega
      · cases hc
    · rw [if_neg h2] at hc
      by_cases h3 : r = 7
      · rw [if_pos h3] at hc
        rcases List.mem_cons.mp hc with rfl | hc
        · omega
        · rcases List.mem_cons.mp hc with rfl | hc
          · omega
          · cases hc
      · rw [if_neg h3] at hc
        by_cases h4 : r = 8
        · rw [if_pos h4] at hc
          rcases List.mem_cons.mp hc with rfl | hc
          · omega
          · rcases List.mem_cons.mp hc with rfl | hc
            · omega
            · cases hc
        · rw [if_neg h4] at hc
          by_cases h5 : r = 12
          · rw [if_pos h5] at hc
            rcases List.mem_cons.mp hc with rfl | hc
            · omega
            · rcases List.mem_cons.mp hc with rfl | hc
              · omega
              · cases hc
          · rw [if_neg h5] at hc
            by_cases h6 : r = 10
            · rw [if_pos h6] at hc
              rcases List.mem_cons.mp hc with rfl | hc
              · omega
              · rcases List.mem_cons.mp hc with rfl | hc
                · omega
                · cases hc
            · rw [if_neg h6] at hc
              by_cases h7 : r = 13
              · rw [if_pos h7] at hc
                rcases List.mem_cons.mp hc with rfl | hc
                · omega
                · rcases List.mem_cons.mp hc with rfl | hc
                  · omega
                  · cases hc
              · rw [if_neg h7] at hc
                by_cases h8 : r = 9
                · rw [if_pos h8] at hc
                  rcases List.mem_cons.mp hc with rfl | hc
                  · omega
                  · rcases List.mem_cons.mp hc with rfl | hc
                    · omega
                    · cases hc
                · rw [if_neg h8] at hc
                  by_cases h9 : r = 11
                  · rw [if_pos h9] at hc
                    rcases List.mem_cons.mp hc with rfl | hc
                    · omega
                    · rcases List.mem_cons.mp hc with rfl | hc
                      · omega
                      · cases hc
                  · rw [if_neg h9] at hc
                    by_cases h10 : r < 32 ∨ r = 127
                    · rw [if_pos h10] at hc
                      rcases List.mem_cons.mp hc with rfl | hc
                      · omega
                      · rcases List.mem_cons.mp hc with rfl | hc
                        · omega
                        · exact hexPad_mem _ _ (by omega) c hc
                    · rw [if_neg h10] at hc
                      by_cases h11 : (0xD800 ≤ r ∧ r ≤ 0xDFFF) ∨ 0x10FFFF < r
                      · rw [if_pos h11] at hc
                        rcases List.mem_cons.mp hc with rfl | hc
                        · omega
                        · rcases List.mem_cons.mp hc with rfl | hc
                          · omega
                          · exact hexPad_mem _ _ (by omega) c hc
                      · rw [if_neg h11] at hc
                        by_cases h12 : r < 0x10000
                        · rw [if_pos h12] at hc
                          rcases List.mem_cons.mp hc with rfl | hc
                          · omega
                          · rcases List.mem_cons.mp hc with rfl | hc
                            · omega
                            · exact hexPad_mem _ _ (by omega) c hc
                        · rw [if_neg h12] at hc
                          rcases List.mem_cons.mp hc with rfl | hc
                          · omega
                          · rcases List.mem_cons.mp hc with rfl | hc
                            · omega
                            · exact hexPad_mem _ _ (by omega) c hc

theorem unqLoop_cons (q c : Nat) (s : List Nat) :
    unqLoop q (c :: s) =
      match unquoteChar q c s with
      | none => .error ()
      | some (out, k) => (unqLoop q (s.drop k)).map (fun tl => out ++ tl) := by
  rw [unqLoop.eq_def]

theorem quoteBody_nil : quoteBody [] = [] := by
  rw [quoteBody.eq_def]

theorem quoteBody_cons (b : Nat) (rest : List Nat) :
    quoteBody (b :: rest) =
      if b < 0x80 then escapedRune b ++ quoteBody rest
      else if (utf8DecodeRune (b :: rest)).2 = 1 then
        (92 :: 120 :: hexPad 2 b) ++ quoteBody rest
      else
        escapedRune (utf8DecodeRune (b :: rest)).1 ++
          quoteBody (rest.drop ((utf8DecodeRune (b :: rest)).2 - 1)) := by
  rw [quoteBody.eq_def]

theorem quoteBody_mem : ∀ s, Bytes s → ∀ c ∈ quoteBody s, 32 ≤ c ∧ c ≤ 126 := by
  intro s
  induction s using quoteBody.induct with
  | case1 =>
    intro _ c hc
    rw [quoteBody_nil] at hc
    cases hc
  | case2 b rest hb ih =>
    intro hs c hc
    rw [quoteBody_cons, if_pos hb] at hc
    rcases List.mem_append.mp hc with h | h
    · exact escapedRune_mem b c h
    · exact ih (fun d hd => hs d (by simp [hd])) c h
  | case3 b rest hb rwp hw ih =>
    intro hs c hc
    rw [quoteBody_cons, if_neg hb, if_pos hw] at hc
    have hb256 : b < 256 := hs b (by simp)
    rcases List.mem_append.mp hc with h | h
    · rcases List.mem_cons.mp h with rfl | h
      · omega
      · rcases List.mem_cons.mp h with rfl | h
        · omega
        · exact hexPad_mem _ _ (by omega) c h
    · exact ih (fun d hd => hs d (by simp [hd])) c h
  | case4 b rest hb rwp hw ih =>
    intro hs c hc
    rw [quoteBody_cons, if_neg hb, if_neg hw] at hc
    rcases List.mem_append.mp hc with h | h
    · exact escapedRune_mem _ c h
    · exact ih (fun d hd => hs d (List.mem_cons_of_mem _ (List.drop_subset _ _ hd))) c h

theorem unqLoop_plain (b : Nat) (t : List Nat)
    (hb : 32 ≤ b ∧ b ≤ 126 ∧ b ≠ 34 ∧ b ≠ 92) :
    unqLoop 34 (b :: t) = (unqLoop 34 t).map (fun tl => b :: tl) := by
  rw [unqLoop_cons]
  have h : unquoteChar 34 b t = some ([b], 0) := by
    unfold unquoteChar
    rw [if_neg hb.2.2.1, if_neg (by omega), if_pos hb.2.2.2]
  rw [h]
  simp

theorem unqLoop_hex_escape (b : Nat) (hb : b < 256) (t : List Nat) :
    unqLoop 34 ((92 :: 120 :: hexPad 2 b) ++ t) =
      (unqLoop 34 t).map (fun tl => b :: tl) := by
  rw [List.cons_append, List.cons_append, unqLoop_cons]
  have hrd := readHexDigits_hexPad 2 b (by omega) 0 (t := t)
  norm_num at hrd
  have h : unquoteChar 34 92 (120 :: (hexPad 2 b ++ t)) = some ([b], 3) := by
    unfold unquoteChar
    norm_num
    rw [hrd]
  rw [h]
  have hdrop : ((120 : Nat) :: (hexPad 2 b ++ t)).drop 3 = t := by
    show List.drop 2 (hexPad 2 b ++ t) = t
    have hd := List.drop_left (hexPad 2 b) t
    rwa [hexPad_length] at hd
  show (unqLoop 34 (((120 : Nat) :: (hexPad 2 b ++ t)).drop 3)).map
      (fun tl => [b] ++ tl) = (unqLoop 34 t).map (fun tl => b :: tl)
  rw [hdrop]
  rfl

theorem unqLoop_u_escape (r : Nat) (t : List Nat) (hlt : r < 0x10000)
    (hv : validRune r = true) :
    unqLoop 34 ((92 :: 117 :: hexPad 4 r) ++ t) =
      (unqLoop 34 t).map (fun tl => utf8EncodeRune r ++ tl) := by
  rw [List.cons_append, List.cons_append, unqLoop_cons]
  have hrd := readHexDigits_hexPad 4 r (by omega) 0 (t := t)
  norm_num at hrd
  have h : unquoteChar 34 92 (117 :: (hexPad 4 r ++ t)) =
      some (utf8EncodeRune r, 5) := by
    unfold unquoteChar
    norm_num
    rw [hrd]
    show (if validRune r = true then some (utf8EncodeRune r, 5) else none) =
      some (utf8EncodeRune r, 5)
    rw [if_pos hv]
  rw [h]
  have hdrop : ((117 : Nat) :: (hexPad 4 r ++ t)).drop 5 = t := by
    show List.drop 4 (hexPad 4 r ++ t) = t
    have hd := List.drop_left (hexPad 4 r) t
    rwa [hexPad_length] at hd
  show (unqLoop 34 (((117 : Nat) :: (hexPad 4 r ++ t)).drop 5)).map
      (fun tl => utf8EncodeRune r ++ tl) =
    (unqLoop 34 t).map (fun tl => utf8EncodeRune r ++ tl)
  rw [hdrop]

theorem unqLoop_U_escape (r : Nat) (t : List Nat) (hle : r ≤ 0x10FFFF)
    (hv : validRune r = true) :
    unqLoop 34 ((92 :: 85 :: hexPad 8 r) ++ t) =
      (unqLoop 34 t).map (fun tl => utf8EncodeRune r ++ tl) := by
  rw [List.cons_append, List.cons_append, unqLoop_cons]
  have hrd := readHexDigits_hexPad 8 r (by omega) 0 (t := t)
  norm_num at hrd
  have h : unquoteChar 34 92 (85 :: (hexPad 8 r ++ t)) =
      some (utf8EncodeRune r, 9) := by
    unfold unquoteChar
    norm_num
    rw [hrd]
    show (if validRune r = true then some (utf8EncodeRune r, 9) else none) =
      some (utf8EncodeRune r, 9)
    rw [if_pos hv]
  rw [h]
  have hdrop : ((85 : Nat) :: (hexPad 8 r ++ t)).drop 9 = t := by
    show List.drop 8 (hexPad 8 r ++ t) = t
    have hd := List.drop_left (hexPad 8 r) t
    rwa [hexPad_length] at hd
  show (unqLoop 34 (((85 : Nat) :: (hexPad 8 r ++ t)).drop 9)).map
      (fun tl => utf8EncodeRune r ++ tl) =
    (unqLoop 34 t).map (fun tl => utf8EncodeRune r ++ tl)
  rw [hdrop]

theorem unqLoop_escaped_ascii (b : Nat) (hb : b < 128) (t : List Nat) :
    unqLoop 34 (escapedRune b ++ t) = (unqLoop 34 t).map (fun tl => b :: tl) := by
  by_cases h1 : b = 34 ∨ b = 92
  · have he : escapedRune b = [92, b] := by
      unfold escapedRune
      rw [if_pos h1]
    rw [he]
    rcases h1 with rfl | rfl
    · rw [List.cons_append, List.cons_append, unqLoop_cons]
      have h : unquoteChar 34 92 (34 :: ([] ++ t)) = some ([34], 1) := by
        unfold unquoteChar
        norm_num
      rw [h]
      rfl
    · rw [List.cons_append, List.cons_append, unqLoop_cons]
      have h : unquoteChar 34 92 (92 :: ([] ++ t)) = some ([92], 1) := by
        unfold unquoteChar
        norm_num
      rw [h]
      rfl
  · by_cases h2 : 32 ≤ b ∧ b ≤ 126
    · have he : escapedRune b = [b] := by
        unfold escapedRune
        rw [if_neg h1, if_pos h2]
      rw [he, List.singleton_append]
      exact unqLoop_plain b t ⟨h2.1, h2.2, by omega, by omega⟩
    · by_cases h7 : b = 7
      · subst h7
        rw [show escapedRune 7 = [92, 97] from rfl]
        rw [List.cons_append, List.cons_append, unqLoop_cons]
        have h : unquoteChar 34 92 (97 :: ([] ++ t)) = some ([7], 1) := by
          unfold unquoteChar
          norm_num
        rw [h]
        rfl
      · by_cases h8 : b = 8
        · subst h8
          rw [show escapedRune 8 = [92, 98] from rfl]
          rw [List.cons_append, List.cons_append, unqLoop_cons]
          have h : unquoteChar 34 92 (98 :: ([] ++ t)) = some ([8], 1) := by
            unfold unquoteChar
            norm_num
          rw [h]
          rfl
        · by_cases h12 : b = 12
          · subst h12
            rw [show escapedRune 12 = [92, 102] from rfl]
            rw [List.cons_append, List.cons_append, unqLoop_cons]
            have h : unquoteChar 34 92 (102 :: ([] ++ t)) = some ([12], 1) := by
              unfold unquoteChar
              norm_num
            rw [h]
            rfl
          · by_cases h10 : b = 10
            · subst h10
              rw [show escapedRune 10 = [92, 110] from rfl]
              rw [List.cons_append, List.cons_append, unqLoop_cons]
              have h : unquoteChar 34 92 (110 :: ([] ++ t)) = some ([10], 1) := by
                unfold unquoteChar
                norm_num
              rw [h]
              rfl
            · by_cases h13 : b = 13
              · subst h13
                rw [show escapedRune 13 = [92, 114] from rfl]
                rw [List.cons_append, List.cons_append, unqLoop_cons]
                have h : unquoteChar 34 92 (114 :: ([] ++ t)) = some ([13], 1) := by
                  unfold unquoteChar
                  norm_num
                rw [h]
                rfl
              · by_cases h9 : b = 9
                · subst h9
                  rw [show escapedRune 9 = [92, 116] from rfl]
                  rw [List.cons_append, List.cons_append, unqLoop_cons]
                  have h : unquoteChar 34 92 (116 :: ([] ++ t)) = some ([9], 1) := by
                    unfold unquoteChar
                    norm_num
                  rw [h]
                  rfl
                · by_cases h11 : b = 11
                  · subst h11
                    rw [show escapedRune 11 = [92, 118] from rfl]
                    rw [List.cons_append, List.cons_append, unqLoop_cons]
                    have h : unquoteChar 34 92 (118 :: ([] ++ t)) = some ([11], 1) := by
                      unfold unquoteChar
                      norm_num
                    rw [h]
                    rfl
                  · have h10 : b < 32 ∨ b = 127 := by omega
                    have he : escapedRune b = 92 :: 120 :: hexPad 2 b := by
                      unfold escapedRune
                      rw [if_neg h1, if_neg h2]
                      repeat rw [if_neg (by omega)]
                      rw [if_pos h10]
                    rw [he]
                    exact unqLoop_hex_escape b (by omega) t

theorem utf8_decode_spec (b0 : Nat) (rest : List Nat) (hb : Bytes (b0 :: rest))
    (h80 : 0x80 ≤ b0) (hw : (utf8DecodeRune (b0 :: rest)).2 ≠ 1) :
    0x80 ≤ (utf8DecodeRune (b0 :: rest)).1 ∧
    validRune (utf8DecodeRune (b0 :: rest)).1 = true ∧
    utf8EncodeRune (utf8DecodeRune (b0 :: rest)).1 =
      b0 :: rest.take ((utf8DecodeRune (b0 :: rest)).2 - 1) := by
  have hb0 : b0 < 256 := hb b0 (by simp)
  by_cases hA : 0xC2 ≤ b0 ∧ b0 ≤ 0xDF
  · rcases rest with _ | ⟨b1, r1⟩
    · exfalso
      apply hw
      simp only [utf8DecodeRune]
      rw [if_neg (by omega), if_pos hA]
    · have hb1 : b1 < 256 := hb b1 (by simp)
      by_cases hB : 0x80 ≤ b1 ∧ b1 ≤ 0xBF
      · have hd : utf8DecodeRune (b0 :: b1 :: r1) =
            ((b0 - 0xC0) * 64 + (b1 - 0x80), 2) := by
          simp only [utf8DecodeRune]
          rw [if_neg (by omega), if_pos hA]
          rw [if_pos hB]
        rw [hd]
        refine ⟨by omega, ?_, ?_⟩
        · simp only [validRune, decide_eq_true_eq]
          omega
        · unfold utf8EncodeRune
          rw [if_neg (by omega), if_pos (by omega)]
          have e1 : 0xC0 + ((b0 - 0xC0) * 64 + (b1 - 0x80)) / 64 = b0 := by omega
          have e2 : 0x80 + ((b0 - 0xC0) * 64 + (b1 - 0x80)) % 64 = b1 := by omega
          rw [e1, e2]
          rfl
      · exfalso
        apply hw
        simp only [utf8DecodeRune]
        rw [if_neg (by omega), if_pos hA]
        rw [if_neg hB]
  · by_cases hC : 0xE0 ≤ b0 ∧ b0 ≤ 0xEF
    · rcases rest with _ | ⟨b1, _ | ⟨b2, r2⟩⟩
      · exfalso
        apply hw
        simp only [utf8DecodeRune]
        rw [if_neg (by omega), if_neg hA, if_pos hC]
      · exfalso
        apply hw
        simp only [utf8DecodeRune]
        rw [if_neg (by omega), if_neg hA, if_pos hC]
      · have hb1 : b1 < 256 := hb b1 (by simp)
        have hb2 : b2 < 256 := hb b2 (by simp)
        by_cases hB : (if b0 = 0xE0 then 0xA0 else 0x80) ≤ b1 ∧
            b1 ≤ (if b0 = 0xED then 0x9F else 0xBF) ∧ 0x80 ≤ b2 ∧ b2 ≤ 0xBF
        · have hd : utf8DecodeRune (b0 :: b1 :: b2 :: r2) =
              ((b0 - 0xE0) * 4096 + (b1 - 0x80) * 64 + (b2 - 0x80), 3) := by
            simp only [utf8DecodeRune]
            rw [if_neg (by omega), if_neg hA, if_pos hC]
            rw [if_pos hB]
          have hlo : 0xA0 ≤ b1 ∨ (b0 ≠ 0xE0 ∧ 0x80 ≤ b1) := by
            by_cases h : b0 = 0xE0
            · rw [if_pos h] at hB; exact Or.inl hB.1
            · rw [if_neg h] at hB; exact Or.inr ⟨h, hB.1⟩
          have hhi : b1 ≤ 0x9F ∨ (b0 ≠ 0xED ∧ b1 ≤ 0xBF) := by
            by_cases h : b0 = 0xED
            · rw [if_pos h] at hB; exact Or.inl hB.2.1
            · rw [if_neg h] at hB; exact Or.inr ⟨h, hB.2.1⟩
          have hB2 := hB.2.2
          rw [hd]
          refine ⟨by omega, ?_, ?_⟩
          · simp only [validRune, decide_eq_true_eq]
            omega
          · unfold utf8EncodeRune
            rw [if_neg (by omega), if_neg (by omega), if_neg (by omega),
              if_pos (by omega)]
            have e1 : 0xE0 + ((b0 - 0xE0) * 4096 + (b1 - 0x80) * 64 +
                (b2 - 0x80)) / 4096 = b0 := by omega
            have e2 : 0x80 + ((b0 - 0xE0) * 4096 + (b1 - 0x80) * 64 +
                (b2 - 0x80)) / 64 % 64 = b1 := by omega
            have e3 : 0x80 + ((b0 - 0xE0) * 4096 + (b1 - 0x80) * 64 +
                (b2 - 0x80)) % 64 = b2 := by omega
            rw [e1, e2, e3]
            rfl
        · exfalso
          apply hw
          simp only [utf8DecodeRune]
          rw [if_neg (by omega), if_neg hA, if_pos hC]
          rw [if_neg hB]
    · by_cases hD : 0xF0 ≤ b0 ∧ b0 ≤ 0xF4
      · rcases rest with _ | ⟨b1, _ | ⟨b2, _ | ⟨b3, r3⟩⟩⟩
        · exfalso
          apply hw
          simp only [utf8DecodeRune]
          rw [if_neg (by omega), if_neg hA, if_neg hC, if_pos hD]
        · exfalso
          apply hw
          simp only [utf8DecodeRune]
          rw [if_neg (by omega), if_neg hA, if_neg hC, if_pos hD]
        · exfalso
          apply hw
          simp only [utf8DecodeRune]
          rw [if_neg (by omega), if_neg hA, if_neg hC, if_pos hD]
        · have hb1 : b1 < 256 := hb b1 (by simp)
          have hb2 : b2 < 256 := hb b2 (by simp)
          have hb3 : b3 < 256 := hb b3 (by simp)
          by_cases hB : (if b0 = 0xF0 then 0x90 else 0x80) ≤ b1 ∧
              b1 ≤ (if b0 = 0xF4 then 0x8F else 0xBF) ∧ 0x80 ≤ b2 ∧ b2 ≤ 0xBF ∧
              0x80 ≤ b3 ∧ b3 ≤ 0xBF
          · have hd : utf8DecodeRune (b0 :: b1 :: b2 :: b3 :: r3) =
                ((b0 - 0xF0) * 262144 + (b1 - 0x80) * 4096 + (b2 - 0x80) * 64 +
                  (b3 - 0x80), 4) := by
              simp only [utf8DecodeRune]
              rw [if_neg (by omega), if_neg hA, if_neg hC, if_pos hD]
              rw [if_pos hB]
            have hlo : 0x90 ≤ b1 ∨ (b0 ≠ 0xF0 ∧ 0x80 ≤ b1) := by
              by_cases h : b0 = 0xF0
              · rw [if_pos h] at hB; exact Or.inl hB.1
              · rw [if_neg h] at hB; exact Or.inr ⟨h, hB.1⟩
            have hhi : b1 ≤ 0x8F ∨ (b0 ≠ 0xF4 ∧ b1 ≤ 0xBF) := by
              by_cases h : b0 = 0xF4
              · rw [if_pos h] at hB; exact Or.inl hB.2.1
              · rw [if_neg h] at hB; exact Or.inr ⟨h, hB.2.1⟩
            have hB2 := hB.2.2
            rw [hd]
            refine ⟨by omega, ?_, ?_⟩
            · simp only [validRune, decide_eq_true_eq]
              omega
            · unfold utf8EncodeRune
              rw [if_neg (by omega), if_neg (by omega), if_neg (by omega),
                if_neg (by omega)]
              have e1 : 0xF0 + ((b0 - 0xF0) * 262144 + (b1 - 0x80) * 4096 +
                  (b2 - 0x80) * 64 + (b3 - 0x80)) / 262144 = b0 := by omega
              have e2 : 0x80 + ((b0 - 0xF0) * 262144 + (b1 - 0x80) * 4096 +
                  (b2 - 0x80) * 64 + (b3 - 0x80)) / 4096 % 64 = b1 := by omega
              have e3 : 0x80 + ((b0 - 0xF0) * 262144 + (b1 - 0x80) * 4096 +
                  (b2 - 0x80) * 64 + (b3 - 0x80)) / 64 % 64 = b2 := by omega
              have e4 : 0x80 + ((b0 - 0xF0) * 262144 + (b1 - 0x80) * 4096 +
                  (b2 - 0x80) * 64 + (b3 - 0x80)) % 64 = b3 := by omega
              rw [e1, e2, e3, e4]
              rfl
          · exfalso
            apply hw
            simp only [utf8DecodeRune]
            rw [if_neg (by omega), if_neg hA, if_neg hC, if_pos hD]
            rw [if_neg hB]
      · exfalso
        apply hw
        simp only [utf8DecodeRune]
        rw [if_neg (by omega), if_neg hA, if_neg hC, if_neg hD]

theorem unqLoop_nil (q : Nat) : unqLoop q [] = .ok [] := by
  rw [unqLoop.eq_def]

theorem unqLoop_quoteBody : ∀ s, Bytes s → unqLoop 34 (quoteBody s) = .ok s := by
  intro s
  induction s using quoteBody.induct with
  | case1 =>
    intro _
    rw [quoteBody_nil, unqLoop_nil]
  | case2 b rest hb ih =>
    intro hs
    rw [quoteBody_cons, if_pos hb]
    rw [unqLoop_escaped_ascii b hb _]
    rw [ih (fun d hd => hs d (by simp [hd]))]
    rfl
  | case3 b rest hb rwp hw ih =>
    intro hs
    rw [quoteBody_cons, if_neg hb, if_pos hw]
    rw [unqLoop_hex_escape b (hs b (by simp)) _]
    rw [ih (fun d hd => hs d (by simp [hd]))]
    rfl
  | case4 b rest hb rwp hw ih =>
    intro hs
    rw [quoteBody_cons, if_neg hb, if_neg hw]
    obtain ⟨hr80, hval, henc⟩ := utf8_decode_spec b rest hs (by omega) hw
    have hval' : ¬((0xD800 ≤ (utf8DecodeRune (b :: rest)).1 ∧
        (utf8DecodeRune (b :: rest)).1 ≤ 0xDFFF) ∨
        0x10FFFF < (utf8DecodeRune (b :: rest)).1) := by
      simp only [validRune, decide_eq_true_eq] at hval
      omega
    have ih' : Bytes (rest.drop ((utf8DecodeRune (b :: rest)).2 - 1)) →
        unqLoop 34 (quoteBody (rest.drop ((utf8DecodeRune (b :: rest)).2 - 1))) =
          Except.ok (rest.drop ((utf8DecodeRune (b :: rest)).2 - 1)) := ih
    have hbytes : Bytes (rest.drop ((utf8DecodeRune (b :: rest)).2 - 1)) :=
      fun d hd => hs d (List.mem_cons_of_mem _ (List.drop_subset _ _ hd))
    by_cases hlt : (utf8DecodeRune (b :: rest)).1 < 0x10000
    · have he : escapedRune (utf8DecodeRune (b :: rest)).1 =
          92 :: 117 :: hexPad 4 (utf8DecodeRune (b :: rest)).1 := by
        unfold escapedRune
        repeat rw [if_neg (by omega)]
        rw [if_pos hlt]
      rw [he, unqLoop_u_escape _ _ hlt hval]
      rw [ih' hbytes]
      simp only [Except.map]
      rw [henc]
      rw [List.cons_append, List.take_append_drop]
    · have he : escapedRune (utf8DecodeRune (b :: rest)).1 =
          92 :: 85 :: hexPad 8 (utf8DecodeRune (b :: rest)).1 := by
        unfold escapedRune
        repeat rw [if_neg (by omega)]
      rw [he, unqLoop_U_escape _ _ (by omega) hval]
      rw [ih' hbytes]
      simp only [Except.map]
      rw [henc]
      rw [List.cons_append, List.take_append_drop]

theorem goUnquote_goEnc (s : List Nat) (hs : Bytes s) :
    goUnquote (34 :: (quoteBody s ++ [34])) = .ok s := by
  have hqmem := quoteBody_mem s hs
  have hloop := unqLoop_quoteBody s hs
  rcases hqb : quoteBody s with _ | ⟨c0, cs⟩
  · rw [hqb] at hloop
    rw [unqLoop_nil] at hloop
    have hs0 : s = [] := by
      cases hloop
      rfl
    subst hs0
    simp [goUnquote, unqLoop_nil]
  · rw [hqb] at hloop hqmem
    show goUnquote (34 :: c0 :: (cs ++ [34])) = .ok s
    have hshape : c0 :: (cs ++ [34]) = (c0 :: cs) ++ [34] := by simp
    simp only [goUnquote]
    rw [hshape, List.getLast?_concat, List.dropLast_concat]
    have h10 : ¬(10 ∈ c0 :: cs) := by
      intro h
      have := hqmem 10 h
      omega
    rw [if_neg (by simp), if_neg (by decide)]
    simp [h10, hloop]

/-- C7: decoding the go-mode encoding of any byte string `s` returns
    exactly `s`; the encoder's output is a double-quoted ASCII-only literal
    (every byte printable ASCII, first and last byte `"`). -/
theorem claim_c7_go_roundtrip (s : List Nat) (hs : Bytes s) :
    (goEnc s).bind goDec = .ok s ∧
    ∀ out, goEnc s = .ok out →
      (∀ c ∈ out, 32 ≤ c ∧ c ≤ 126) ∧ out.head? = some 34 ∧
        out.getLast? = some 34 := by
  constructor
  · show goDec (34 :: quoteBody s ++ [34]) = .ok s
    unfold goDec
    rw [if_neg (by simp)]
    exact goUnquote_goEnc s hs
  · intro out hout
    have hout' : out = 34 :: quoteBody s ++ [34] := by
      cases hout
      rfl
    subst hout'
    refine ⟨?_, rfl, ?_⟩
    · intro c hc
      rcases List.mem_cons.mp hc with rfl | hc
      · omega
      · rcases List.mem_append.mp hc with h | h
        · exact quoteBody_mem s hs c h
        · rcases List.mem_cons.mp h with rfl | h
          · omega
          · cases h
    · rw [show (34 :: quoteBody s ++ [34] : List Nat) =
        (34 :: quoteBody s) ++ [34] by simp, List.getLast?_concat]

theorem claim_c7_go_roundtrip_witness :
    (goEnc [0, 34, 92, 127, 195, 169, 237, 240, 159, 152, 128]).bind goDec =
      .ok [0, 34, 92, 127, 195, 169, 237, 240, 159, 152, 128] :=
  (claim_c7_go_roundtrip [0, 34, 92, 127, 195, 169, 237, 240, 159, 152, 128]
    (by decide)).1

/-! ## hex-extended (Go `hex.Dump`) -/

/-- `n` hex digits from a table, most significant first. -/
def hexPadTable (tbl : List Nat) : Nat → Nat → List Nat
  | 0, _ => []
  | Nat.succ n, v => tbl.getD (v / 16 ^ n) 0 :: hexPadTable tbl n (v % 16 ^ n)

/-- One cell of the hex area of a dump line: two hex digits and a space for
    a present byte, three spaces otherwise; the cells after the eighth and
    the sixteenth byte carry an extra space, so two spaces separate the hex
    area from the `|` gutter (Go `hex.Dumper`). -/
def dumpCell (chunk : List Nat) (j : Nat) : List Nat :=
  (match chunk.get? j with
   | some b => hexPad 2 b ++ [32]
   | none => [32, 32, 32]) ++ (if j = 7 ∨ j = 15 then [32] else [])

/-- The ASCII gutter of a dump line: printable bytes verbatim, `.` (46)
    otherwise. -/
def dumpGutterByte (b : Nat) : Nat := if 32 ≤ b ∧ b ≤ 126 then b else 46

/-- Concatenation of the 16 cells of a dump line. -/
def dumpCells (chunk : List Nat) : Nat → List Nat
  | 0 => []
  | Nat.succ j => dumpCells chunk j ++ dumpCell chunk j

/-- One line of Go `hex.Dump`: 8-digit offset, two spaces, the 16 hex
    cells, and the ASCII gutter between `|` (124), ending in a newline. -/
def hexDumpLine (off : Nat) (chunk : List Nat) : List Nat :=
  hexPad 8 (off % 4294967296) ++ [32, 32] ++ dumpCells chunk 16 ++
    [124] ++ chunk.map dumpGutterByte ++ [124, 10]

/-- Go `hex.Dump`: 16-byte lines; empty input dumps to nothing. -/
def hexDump (off : Nat) (s : List Nat) : List Nat :=
  match s with
  | [] => []
  | b :: rest =>
    hexDumpLine off ((b :: rest).take 16) ++ hexDump (off + 16) (rest.drop 15)
  termination_by s.length
  decreasing_by simp [List.length_drop]; omega

/-- `hexExtEnc` of `main.go` (`hex.Dump`). -/
def hexExtEnc (src : List Nat) : Except Unit (List Nat) :=
  .ok (hexDump 0 src)

/-! ## html (Go `html.EscapeString`) -/

/-- Go `html.EscapeString` replacement for one byte: `&`→`&amp;`,
    `'`→`&#39;`, `<`→`&lt;`, `>`→`&gt;`, `"`→`&#34;`. -/
def htmlEscapeByte (b : Nat) : List Nat :=
  if b = 38 then [38, 97, 109, 112, 59]
  else if b = 39 then [38, 35, 51, 57, 59]
  else if b = 60 then [38, 108, 116, 59]
  else if b = 62 then [38, 103, 116, 59]
  else if b = 34 then [38, 35, 51, 52, 59]
  else [b]

def htmlEscapeBytes : List Nat → List Nat
  | [] => []
  | b :: rest => htmlEscapeByte b ++ htmlEscapeBytes rest

/-- `htmlEnc` of `main.go`. -/
def htmlEnc (src : List Nat) : Except Unit (List Nat) :=
  .ok (htmlEscapeBytes src)

/-! ## json (Go `encoding/json` string marshalling) -/

/-- The escaped body of Go `json.Marshal` of a string (HTML-escaping on, as
    `json.Marshal` defaults): safe ASCII passes through; `"`, `\`, newline,
    carriage return and tab get two-character escapes; other controls and
    `<`, `>`, `&` become `\u00XX`; invalid UTF-8 becomes `�`;
    U+2028/U+2029 become ` `/` `; other runes pass through
    verbatim. -/
def jsonEscapeBytes (s : List Nat) : List Nat :=
  match s with
  | [] => []
  | b :: rest =>
    if b < 0x80 then
      (if b ≥ 0x20 ∧ b ≠ 34 ∧ b ≠ 92 ∧ b ≠ 60 ∧ b ≠ 62 ∧ b ≠ 38 then [b]
       else if b = 34 then [92, 34]
       else if b = 92 then [92, 92]
       else if b = 10 then [92, 110]
       else if b = 13 then [92, 114]
       else if b = 9 then [92, 116]
       else 92 :: 117 :: hexPad 4 b) ++ jsonEscapeBytes rest
    else
      let rw := utf8DecodeRune (b :: rest)
      if rw.2 = 1 then
        (92 :: [117, 102, 102, 102, 100]) ++ jsonEscapeBytes rest
      else if rw.1 = 0x2028 ∨ rw.1 = 0x2029 then
        (92 :: 117 :: hexPad 4 rw.1) ++ jsonEscapeBytes (rest.drop (rw.2 - 1))
      else
        (b :: rest).take rw.2 ++ jsonEscapeBytes (rest.drop (rw.2 - 1))
  termination_by s.length
  decreasing_by
    all_goals simp [List.length_drop]
    all_goals omega

/-- `jsonEnc` of `main.go` (`json.Marshal` of the input as a string):
    a double-quoted JSON string literal; marshalling a string never fails. -/
def jsonEnc (src : List Nat) : Except Unit (List Nat) :=
  .ok (34 :: jsonEscapeBytes src ++ [34])

/-! ## codepoint (encode-only) -/

/-- The code points of a byte string, as Go `[]rune(string(src))`: each
    invalid byte decodes to U+FFFD. -/
def utf8Runes (s : List Nat) : List Nat :=
  match s with
  | [] => []
  | b :: rest =>
    let rw := utf8DecodeRune (b :: rest)
    rw.1 :: utf8Runes (rest.drop (rw.2 - 1))
  termination_by s.length
  decreasing_by simp [List.length_drop]; omega

/-- `n` uppercase hex digits, most significant first (for `%U` and `%X`). -/
def upperHexPad (n v : Nat) : List Nat := hexPadTable upperhex n v

/-- Go `%U`: `U+` followed by at least four uppercase hex digits. -/
def formatU (r : Nat) : List Nat :=
  85 :: 43 :: upperHexPad
    (if r < 0x10000 then 4 else if r < 0x100000 then 5 else 6) r

/-- One line of `codepointEnc`: `%U`, tab, the printable rune (or U+FFFD),
    tab, the rune name. -/
def codepointLine (isPrint : Nat → Bool) (name : Nat → List Nat)
    (r : Nat) : List Nat :=
  formatU r ++ [9] ++
    (if isPrint r then utf8EncodeRune r else [0xEF, 0xBF, 0xBD]) ++ [9] ++
    name r

/-- Newline-joined lines over the runes. -/
def codepointLines (isPrint : Nat → Bool) (name : Nat → List Nat) :
    List Nat → List Nat
  | [] => []
  | [r] => codepointLine isPrint name r
  | r :: rs => codepointLine isPrint name r ++ [10] ++
      codepointLines isPrint name rs

/-- `codepointEnc` of `main.go`, parameterized by the two external Unicode
    tables it consults: `unicode.IsPrint` and `runenames.Name` (pure total
    functions backed by Unicode data tables that are not modelled; no claim
    depends on their values). -/
def codepointEnc (isPrint : Nat → Bool) (name : Nat → List Nat)
    (src : List Nat) : Except Unit (List Nat) :=
  .ok (codepointLines isPrint name (utf8Runes src))

/-- C9: the encoders of the modes hex, hex-extended, base32,
    base32-crockford, base32-hex, base64, base64-url, rot13, go, json,
    html, url-path, url-query and codepoint never fail: on every input
    (empty or invalid UTF-8 included, and whatever the Unicode tables say)
    each returns a nil error. -/
theorem claim_c9_encoders_never_fail (src : List Nat)
    (isPrint : Nat → Bool) (name : Nat → List Nat) :
    (∃ y, hexEnc src = .ok y) ∧ (∃ y, hexExtEnc src = .ok y) ∧
    (∃ y, base32Enc src = .ok y) ∧ (∃ y, base32CrockfordEnc src = .ok y) ∧
    (∃ y, base32HexEnc src = .ok y) ∧ (∃ y, base64Enc src = .ok y) ∧
    (∃ y, base64URLEnc src = .ok y) ∧ (∃ y, rot13 src = .ok y) ∧
    (∃ y, goEnc src = .ok y) ∧ (∃ y, jsonEnc src = .ok y) ∧
    (∃ y, htmlEnc src = .ok y) ∧ (∃ y, urlPathEnc src = .ok y) ∧
    (∃ y, urlQueryEnc src = .ok y) ∧
    (∃ y, codepointEnc isPrint name src = .ok y) :=
  ⟨⟨_, rfl⟩, ⟨_, rfl⟩, ⟨_, rfl⟩, ⟨_, rfl⟩, ⟨_, rfl⟩, ⟨_, rfl⟩, ⟨_, rfl⟩,
   ⟨_, rfl⟩, ⟨_, rfl⟩, ⟨_, rfl⟩, ⟨_, rfl⟩, ⟨_, rfl⟩, ⟨_, rfl⟩, ⟨_, rfl⟩⟩

/-! ## float32-hex / float16-hex (Go `strconv`, `math`, x448/float16)

The numeric transforms treat the input as whitespace-separated text tokens
(`strings.Fields`).  `strconv.ParseFloat` is modelled on the special words
`inf`, `infinity`, `nan`, on hexadecimal float literals (`readFloat` in
base 16 and `atofHex`), and on decimal literals.  IEEE-754 rounding is
modelled exactly (round to nearest, ties to even) over exact rationals for
decimals, and by the source's sticky-bit shifting for hex literals. -/

/-- ASCII lowercasing (for the case-insensitive special float words). -/
def toLowerByte (b : Nat) : Nat := if 65 ≤ b ∧ b ≤ 90 then b + 32 else b

/-- Go `unicode.IsSpace`: the Unicode White_Space code points. -/
def isSpaceRune (r : Nat) : Bool :=
  decide (r = 9 ∨ r = 10 ∨ r = 11 ∨ r = 12 ∨ r = 13 ∨ r = 32 ∨ r = 0x85 ∨
    r = 0xA0 ∨ r = 0x1680 ∨ (0x2000 ≤ r ∧ r ≤ 0x200A) ∨ r = 0x2028 ∨
    r = 0x2029 ∨ r = 0x202F ∨ r = 0x205F ∨ r = 0x3000)

/-- The maximal non-space prefix of `s` (rune-wise) and the remainder. -/
def takeField (s : List Nat) : List Nat × List Nat :=
  match s with
  | [] => ([], [])
  | b :: rest =>
    if isSpaceRune (utf8DecodeRune (b :: rest)).1 then ([], b :: rest)
    else
      ((b :: rest).take (utf8DecodeRune (b :: rest)).2 ++
        (takeField (rest.drop ((utf8DecodeRune (b :: rest)).2 - 1))).1,
       (takeField (rest.drop ((utf8DecodeRune (b :: rest)).2 - 1))).2)
  termination_by s.length
  decreasing_by
    all_goals simp [List.length_drop]
    all_goals omega

theorem takeField_nil : takeField [] = ([], []) := by
  rw [takeField.eq_def]

theorem takeField_cons (b : Nat) (rest : List Nat) :
    takeField (b :: rest) =
      if isSpaceRune (utf8DecodeRune (b :: rest)).1 then ([], b :: rest)
      else
        ((b :: rest).take (utf8DecodeRune (b :: rest)).2 ++
          (takeField (rest.drop ((utf8DecodeRune (b :: rest)).2 - 1))).1,
         (takeField (rest.drop ((utf8DecodeRune (b :: rest)).2 - 1))).2) := by
  rw [takeField.eq_def]

theorem takeField_rest_le : ∀ s : List Nat, (takeField s).2.length ≤ s.length := by
  intro s
  induction s using takeField.induct with
  | case1 => rw [takeField_nil]
  | case2 b rest hsp =>
    rw [takeField_cons, if_pos hsp]
  | case3 b rest hsp ih =>
    rw [takeField_cons, if_neg hsp]
    have h2 : (rest.drop ((utf8DecodeRune (b :: rest)).2 - 1)).length ≤
        rest.length := by
      simp [List.length_drop]
    simp only [List.length_cons]
    omega

/-- Go `strings.Fields`: the whitespace-separated tokens of the input,
    splitting at Unicode white space runes. -/
def fields (s : List Nat) : List (List Nat) :=
  match s with
  | [] => []
  | b :: rest =>
    if isSpaceRune (utf8DecodeRune (b :: rest)).1 then
      fields (rest.drop ((utf8DecodeRune (b :: rest)).2 - 1))
    else
      ((b :: rest).take (utf8DecodeRune (b :: rest)).2 ++
        (takeField (rest.drop ((utf8DecodeRune (b :: rest)).2 - 1))).1) ::
        fields (takeField (rest.drop ((utf8DecodeRune (b :: rest)).2 - 1))).2
  termination_by s.length
  decreasing_by
    · simp [List.length_drop]; omega
    · have h1 := takeField_rest_le
        (List.drop ((utf8DecodeRune (b :: rest)).2 - 1) rest)
      have h2 : (List.drop ((utf8DecodeRune (b :: rest)).2 - 1) rest).length ≤
          rest.length := by
        simp [List.length_drop]
      simp only [List.length_cons]
      omega

theorem fields_nil : fields [] = [] := by
  rw [fields.eq_def]

theorem fields_cons (b : Nat) (rest : List Nat) :
    fields (b :: rest) =
      if isSpaceRune (utf8DecodeRune (b :: rest)).1 then
        fields (rest.drop ((utf8DecodeRune (b :: rest)).2 - 1))
      else
        ((b :: rest).take (utf8DecodeRune (b :: rest)).2 ++
          (takeField (rest.drop ((utf8DecodeRune (b :: rest)).2 - 1))).1) ::
          fields (takeField (rest.drop ((utf8DecodeRune (b :: rest)).2 - 1))).2 := by
  rw [fields.eq_def]

/-- Go `strconv.ParseUint(w, 16, bitSize)`: nonempty, hex digits only (no
    sign, prefix or underscores with an explicit base), value within the
    bit size (`ErrRange` otherwise). -/
def parseUintHex (bits : Nat) (w : List Nat) : Option Nat :=
  match w with
  | [] => none
  | _ =>
    (parseHexList 0 w).bind fun v => if v < 2 ^ bits then some v else none
where
  parseHexList (acc : Nat) : List Nat → Option Nat
    | [] => some acc
    | c :: rest =>
      match fromHexChar c with
      | some d => parseHexList (acc * 16 + d) rest
      | none => none

/-- ASCII decimal digit. -/
def isDigit (c : Nat) : Bool := decide (48 ≤ c ∧ c ≤ 57)

/-- Value of a decimal digit string (most significant first). -/
def digitsVal (acc : Nat) : List Nat → Nat
  | [] => acc
  | c :: r => digitsVal (acc * 10 + (c - 48)) r

/-- The scan of Go `strconv.underscoreOK`: `saw` is 1 after a digit (or the
    base prefix), 2 after an underscore, 0 otherwise; an underscore is legal
    only directly after a digit and the scan fails when anything but a digit
    follows one (including the end of the literal). -/
def underscoreScan (hex : Bool) : Nat → List Nat → Bool
  | saw, [] => decide (saw ≠ 2)
  | saw, c :: r =>
    if (48 ≤ c ∧ c ≤ 57) ∨ (hex ∧ 97 ≤ toLowerByte c ∧ toLowerByte c ≤ 102)
    then underscoreScan hex 1 r
    else if c = 95 then
      if saw = 1 then underscoreScan hex 2 r else false
    else if saw = 2 then false
    else underscoreScan hex 0 r

/-- Go `strconv.underscoreOK`: after an optional sign and an optional
    `0b`/`0o`/`0x` base prefix (which counts as a digit), every `_` sits
    directly between two digits, hexadecimal digits included after `0x`. -/
def underscoreOK (w : List Nat) : Bool :=
  let w1 := match w with
    | 43 :: r => r
    | 45 :: r => r
    | r => r
  match w1 with
  | 48 :: x :: r =>
    if toLowerByte x = 98 ∨ toLowerByte x = 111 ∨ toLowerByte x = 120 then
      underscoreScan (toLowerByte x = 120) 1 r
    else underscoreScan false 0 w1
  | _ => underscoreScan false 0 w1

/-- The special float words of Go `strconv.special`: optional sign with
    `inf` or `infinity`, unsigned `nan`, all case-insensitive. -/
inductive FloatSpecial where
  | inf (neg : Bool)
  | nan
deriving DecidableEq

def parseSpecial (w : List Nat) : Option FloatSpecial :=
  let l := w.map toLowerByte
  if l = [105, 110, 102] ∨ l = [105, 110, 102, 105, 110, 105, 116, 121] then
    some (.inf false)
  else if l = [43, 105, 110, 102] ∨
      l = [43, 105, 110, 102, 105, 110, 105, 116, 121] then
    some (.inf false)
  else if l = [45, 105, 110, 102] ∨
      l = [45, 105, 110, 102, 105, 110, 105, 116, 121] then
    some (.inf true)
  else if l = [110, 97, 110] then some .nan
  else none

/-- The body of a decimal literal after the sign: digits with an optional
    dot, then an optional decimal exponent; result is mantissa `m` and
    exponent `e` with exact magnitude `m * 10 ^ e`. -/
def parseDecCore (w1 : List Nat) : Option (Nat × Int) :=
  let intD := w1.takeWhile isDigit
  let w2 := w1.drop intD.length
  let fw : List Nat × List Nat :=
    match w2 with
    | 46 :: r => (r.takeWhile isDigit, r.drop (r.takeWhile isDigit).length)
    | r => ([], r)
  let fracD := fw.1
  let w3 := fw.2
  if intD = [] ∧ fracD = [] then none
  else
    let mant : Nat := digitsVal 0 (intD ++ fracD)
    match w3 with
    | [] => some (mant, -(fracD.length : Int))
    | e :: r4 =>
      if e = 101 ∨ e = 69 then
        let es : Bool × List Nat :=
          match r4 with
          | 43 :: r => (false, r)
          | 45 :: r => (true, r)
          | r => (false, r)
        if es.2 ≠ [] ∧ es.2.all isDigit then
          let ev : Nat := digitsVal 0 es.2
          some (mant,
            (if es.1 then -(ev : Int) else (ev : Int)) - (fracD.length : Int))
        else none
      else none

/-- Go `strconv.readFloat` on decimal literals: optional sign, digits with
    an optional dot, optional decimal exponent; underscores must satisfy
    `underscoreOK` and are then stripped. -/
def parseDecimal (w : List Nat) : Option (Bool × Nat × Int) :=
  if 95 ∈ w ∧ ¬ underscoreOK w then none
  else
    match w.filter (fun c => decide (c ≠ 95)) with
    | 43 :: r => (parseDecCore r).map (fun me => (false, me))
    | 45 :: r => (parseDecCore r).map (fun me => (true, me))
    | r => (parseDecCore r).map (fun me => (false, me))

/-- The mantissa-scanning state of Go `strconv.readFloat` in base 16:
    digits seen, mantissa digits kept (at most 16), decimal-point position
    in digits, accumulated mantissa, truncation and underscore flags. -/
structure HexMantState where
  sawdot : Bool
  sawdigits : Bool
  nd : Nat
  ndMant : Nat
  dp : Int
  mantissa : Nat
  trunc : Bool
  uscore : Bool

/-- The digit loop of Go `strconv.readFloat` with `base = 16`: consumes
    underscores, one dot, decimal and hex digits (leading zeros only move
    the point; digits beyond the sixteenth are dropped into `trunc`), and
    stops at the first other character, returning the state and the rest. -/
def hexMantLoop : HexMantState → List Nat → HexMantState × List Nat
  | st, [] => (st, [])
  | st, c :: r =>
    if c = 95 then hexMantLoop { st with uscore := true } r
    else if c = 46 then
      if st.sawdot then (st, c :: r)
      else hexMantLoop { st with sawdot := true, dp := st.nd } r
    else if 48 ≤ c ∧ c ≤ 57 then
      if c = 48 ∧ st.nd = 0 then
        hexMantLoop { st with sawdigits := true, dp := st.dp - 1 } r
      else
        hexMantLoop { st with
          sawdigits := true
          nd := st.nd + 1
          mantissa := if st.ndMant < 16 then st.mantissa * 16 + (c - 48)
            else st.mantissa
          ndMant := if st.ndMant < 16 then st.ndMant + 1 else st.ndMant
          trunc := if st.ndMant < 16 then st.trunc
            else st.trunc || decide (c ≠ 48) } r
    else if 97 ≤ toLowerByte c ∧ toLowerByte c ≤ 102 then
      hexMantLoop { st with
        sawdigits := true
        nd := st.nd + 1
        mantissa := if st.ndMant < 16 then
            st.mantissa * 16 + (toLowerByte c - 97 + 10)
          else st.mantissa
        ndMant := if st.ndMant < 16 then st.ndMant + 1 else st.ndMant
        trunc := if st.ndMant < 16 then st.trunc else true } r
    else (st, c :: r)

/-- The exponent-digit loop of Go `strconv.readFloat`: decimal digits with
    the accumulator capped below 10000, underscores recorded, stopping at
    the first other character. -/
def hexExpLoop : Nat → Bool → List Nat → Nat × Bool × List Nat
  | e, us, [] => (e, us, [])
  | e, us, c :: r =>
    if 48 ≤ c ∧ c ≤ 57 then
      hexExpLoop (if e < 10000 then e * 10 + (c - 48) else e) us r
    else if c = 95 then hexExpLoop e true r
    else (e, us, c :: r)

/-- The body of a hexadecimal float literal after the sign and the `0x`
    prefix, per Go `strconv.readFloat`: hex digits with an optional dot, a
    mandatory `p`-exponent, nothing left over (`ParseFloat` demands the
    whole string), and underscores legal by `underscoreOK` on the whole
    token `w`.  Result: mantissa, binary exponent, truncation flag. -/
def parseHexBody (w body : List Nat) : Option (Nat × Int × Bool) :=
  let st0 : HexMantState :=
    ⟨false, false, 0, 0, 0, 0, false, false⟩
  let p := hexMantLoop st0 body
  let st := p.1
  if ¬ st.sawdigits then none
  else
    let dp4 : Int := (if st.sawdot then st.dp else (st.nd : Int)) * 4
    let ndM4 : Int := (st.ndMant : Int) * 4
    match p.2 with
    | pc :: r2 =>
      if toLowerByte pc = 112 then
        let es : Bool × List Nat :=
          match r2 with
          | 43 :: r => (false, r)
          | 45 :: r => (true, r)
          | r => (false, r)
        match es.2 with
        | d :: _ =>
          if isDigit d then
            let q := hexExpLoop 0 false es.2
            match q.2.2 with
            | [] =>
              let dp5 : Int :=
                dp4 + (if es.1 then -(q.1 : Int) else (q.1 : Int))
              let exp : Int := if st.mantissa ≠ 0 then dp5 - ndM4 else 0
              if (st.uscore || q.2.1) ∧ ¬ underscoreOK w then none
              else some (st.mantissa, exp, st.trunc)
            | _ :: _ => none
          else none
        | [] => none
      else none
    | [] => none

/-- A hexadecimal float literal after the optional sign: Go
    `strconv.readFloat` switches to base 16 when the remainder starts
    `0x`/`0X` with at least one further character. -/
def parseHexAfterSign (w r : List Nat) : Option (Nat × Int × Bool) :=
  match r with
  | 48 :: x :: c0 :: r0 =>
    if toLowerByte x = 120 then parseHexBody w (c0 :: r0) else none
  | _ => none

/-- Go `strconv.readFloat` restricted to hexadecimal float literals:
    `none` when the token is not a (complete, well-underscored) hex float.
    Tokens rejected here fall through to the decimal reading, exactly as
    the single pass of `readFloat` behaves on them. -/
def parseHexFloat (w : List Nat) : Option (Bool × Nat × Int × Bool) :=
  match w with
  | 43 :: r => (parseHexAfterSign w r).map (fun met => (false, met))
  | 45 :: r => (parseHexAfterSign w r).map (fun met => (true, met))
  | r => (parseHexAfterSign w r).map (fun met => (false, met))

/-- `mantissa>>1 | mantissa&1` of Go `strconv.atofHex`: halve, keeping a
    sticky low bit. -/
def sticky1 (m : Nat) : Nat :=
  if m % 2 = 1 then m / 2 - m / 2 % 2 + 1 else m / 2

/-- The first loop of Go `strconv.atofHex` (float32): shift the mantissa up
    until bit 25 is set (fuelled; 64 steps always suffice below `2^64`). -/
def hexNormUp : Nat → Nat → Int → Nat × Int
  | 0, m, e => (m, e)
  | Nat.succ fuel, m, e =>
    if m ≠ 0 ∧ m / 2 ^ 25 = 0 then hexNormUp fuel (m * 2) (e - 1) else (m, e)

/-- The second loop of Go `strconv.atofHex` (float32): sticky-shift the
    mantissa down below bit 26. -/
def hexShiftDown : Nat → Nat → Int → Nat × Int
  | 0, m, e => (m, e)
  | Nat.succ fuel, m, e =>
    if m / 2 ^ 26 ≠ 0 then hexShiftDown fuel (sticky1 m) (e + 1) else (m, e)

/-- The denormalization loop of Go `strconv.atofHex` (float32):
    sticky-shift up to the subnormal exponent range. -/
def hexDenorm : Nat → Nat → Int → Nat × Int
  | 0, m, e => (m, e)
  | Nat.succ fuel, m, e =>
    if 1 < m ∧ e < -128 then hexDenorm fuel (sticky1 m) (e + 1) else (m, e)

/-- Go `strconv.atofHex` with `float32info` (mantbits 23, expbits 8, bias
    -127): round the exact `mantissa * 2 ^ exp` (`trunc` marking dropped
    digits as a sticky bit) to the float32 magnitude-and-exponent bits;
    `none` is the `ErrRange` overflow, which aborts the program. -/
def atofHex32 (mantissa : Nat) (exp : Int) (trunc : Bool) : Option Nat :=
  let p1 := hexNormUp 64 mantissa (exp + 23)
  let m2 := if trunc then p1.1 - p1.1 % 2 + 1 else p1.1
  let p2 := hexShiftDown 64 m2 p1.2
  let p3 := hexDenorm 64 p2.1 p2.2
  let round0 := p3.1 % 4
  let m4 := p3.1 / 4
  let roundUp : Bool := round0 = 3 ∨ (round0 = 2 ∧ m4 % 2 = 1)
  let m5 := if roundUp then m4 + 1 else m4
  let e5 : Int := if m5 = 2 ^ 24 then p3.2 + 3 else p3.2 + 2
  let m6 := if m5 = 2 ^ 24 then 2 ^ 23 else m5
  let e6 : Int := if m6 / 2 ^ 23 = 0 then -127 else e5
  if 127 < e6 then none
  else some ((e6 + 127).toNat % 256 * 2 ^ 23 + m6 % 2 ^ 23)

/-- Fuelled floor of `log b` on naturals (structural, so that concrete
    values compute in the kernel). -/
def natLogF (b : Nat) : Nat → Nat → Nat
  | 0, _ => 0
  | Nat.succ fuel, m => if m < b then 0 else natLogF b fuel (m / b) + 1

/-- `natLog2 m` is the floor of the base-2 logarithm for `m ≥ 1`. -/
def natLog2 (m : Nat) : Nat := natLogF 2 m m

/-- Fuelled search for the least `j` with `n * b ^ j ≥ d`. -/
def negExpF (b : Nat) : Nat → Nat → Nat → Nat
  | 0, _, _ => 0
  | Nat.succ fuel, n, d => if d ≤ n then 0 else negExpF b fuel (b * n) d + 1

/-- Floor of the base-2 logarithm of the positive fraction `n / d`. -/
def flog2nd (n d : Nat) : Int :=
  if d ≤ n then (natLog2 (n / d) : Int) else -(negExpF 2 d n d : Int)

/-- Floor of the base-10 logarithm of the positive fraction `n / d` (used
    only to position candidate digit counts when formatting; its value is
    checked by re-parsing, never trusted). -/
def flog10nd (n d : Nat) : Int :=
  if d ≤ n then (natLogF 10 n (n / d) : Int) else -(negExpF 10 d n d : Int)

/-- Round the positive fraction `n / d` to the nearest natural number,
    ties to even. -/
def roundNEnd (n d : Nat) : Nat :=
  if 2 * (n % d) < d then n / d
  else if d < 2 * (n % d) then n / d + 1
  else if n / d % 2 = 0 then n / d else n / d + 1

/-- Round the positive exact decimal `m * 10 ^ e10` to the binary32
    magnitude bit pattern (IEEE-754 round to nearest, ties to even; gradual
    underflow to zero).  `none` is overflow: the value rounds above the
    largest finite float32, which Go reports as `ErrRange`. -/
def round32dec (m : Nat) (e10 : Int) : Option Nat :=
  if m = 0 then some 0
  else
    let n := m * 10 ^ e10.toNat
    let d := 10 ^ (-e10).toNat
    let e2 : Int := max (flog2nd n d) (-126)
    let s : Int := 23 - e2
    let mr : Nat := roundNEnd (n * 2 ^ s.toNat) (d * 2 ^ (-s).toNat)
    let m2 : Nat := if mr = 2 ^ 24 then 2 ^ 23 else mr
    let e3 : Int := if mr = 2 ^ 24 then e2 + 1 else e2
    if 128 ≤ e3 then none
    else some ((e3 + 126).toNat * 2 ^ 23 + m2)

/-- Bits of Go `float32(strconv.ParseFloat(w, 32))` together with the error
    behaviour of `ParseFloat(w, 32)`: `none` on syntax error or overflow
    (`ErrRange`); special words, then hexadecimal float literals
    (`readFloat` base 16 with `atofHex`), then decimal literals; `nan`
    parses to the canonical quiet NaN 0x7FC00000 (the `float64→float32`
    conversion of `math.NaN()`). -/
def parseFloat32Bits (w : List Nat) : Option Nat :=
  match parseSpecial w with
  | some (.inf false) => some 0x7F800000
  | some (.inf true) => some 0xFF800000
  | some .nan => some 0x7FC00000
  | none =>
    match parseHexFloat w with
    | some (neg, m, e2, tr) =>
      match atofHex32 m e2 tr with
      | some mb => some ((if neg then 0x80000000 else 0) + mb)
      | none => none
    | none =>
      match parseDecimal w with
      | some (neg, m, e10) =>
        match round32dec m e10 with
        | some mb => some ((if neg then 0x80000000 else 0) + mb)
        | none => none
      | none => none

/-- Decimal digit characters of `n`, most significant first (fuelled). -/
def natDigitsF : Nat → Nat → List Nat
  | 0, _ => [48]
  | Nat.succ fuel, n =>
    if n < 10 then [48 + n] else natDigitsF fuel (n / 10) ++ [48 + n % 10]

def natDigits (n : Nat) : List Nat := natDigitsF n n

/-- At least two decimal digits (Go `strconv` exponent formatting). -/
def expDigits (n : Nat) : List Nat :=
  if n < 10 then [48, 48 + n] else natDigits n

/-- Lay out `digits` with decimal point position `dp` in Go `%g` fixed
    form. -/
def fixedForm (digits : List Nat) (dp : Int) : List Nat :=
  if dp ≤ 0 then
    [48, 46] ++ List.replicate (-dp).toNat 48 ++ digits
  else if (digits.length : Int) ≤ dp then
    digits ++ List.replicate (dp - digits.length).toNat 48
  else
    digits.take dp.toNat ++ [46] ++ digits.drop dp.toNat

/-- Lay out `digits` with decimal exponent `ex` in Go `%e` form (as `%g`
    uses it: shortest digits, lowercase `e`, signed two-digit exponent). -/
def sciForm (digits : List Nat) (ex : Int) : List Nat :=
  (match digits with
   | [] => [48]
   | d :: ds => if ds = [] then [d] else d :: 46 :: ds) ++
  [101] ++ (if ex < 0 then [45] else [43]) ++ expDigits ex.natAbs

/-- Go `%g` placement rule for shortest formatting: scientific form iff the
    decimal exponent is below -4 or at least 6. -/
def gForm (digits : List Nat) (ex : Int) : List Nat :=
  if ex < -4 ∨ 6 ≤ ex then sciForm digits ex else fixedForm digits (ex + 1)

/-- The rounding of the positive value `c * 2 ^ e2` to `p` significant
    decimal digits: digit characters and the decimal exponent of the
    leading digit. -/
def sigRound (p : Nat) (c : Nat) (e2 : Int) : List Nat × Int :=
  let n0 := c * 2 ^ e2.toNat
  let d0 := 2 ^ (-e2).toNat
  let d10 : Int := flog10nd n0 d0
  let t : Int := (p : Int) - 1 - d10
  let n := roundNEnd (n0 * 10 ^ t.toNat) (d0 * 10 ^ (-t).toNat)
  if n = 10 ^ p then (natDigits (10 ^ (p - 1)), d10 + 1)
  else (natDigits n, d10)

/-- Does the decimal text `s` parse back (as `ParseFloat(·, 32)` does) to
    exactly the float32 magnitude `mb`? -/
def checkRT (mb : Nat) (s : List Nat) : Bool :=
  match parseDecimal s with
  | some (false, m, e10) =>
    match round32dec m e10 with
    | some b => b == mb
    | none => false
  | _ => false

/-- The exact decimal spelling of the float32 magnitude with fields `E`,
    `f` (always round-trips; the fallback of the shortest search). -/
def exactForm (E f : Nat) : List Nat :=
  if E = 0 then natDigits (f * 5 ^ 149) ++ [101, 45] ++ natDigits 149
  else if E ≤ 149 then
    natDigits ((2 ^ 23 + f) * 5 ^ (150 - E)) ++ [101, 45] ++ natDigits (150 - E)
  else natDigits ((2 ^ 23 + f) * 2 ^ (E - 150))

/-- The significand and binary exponent of the finite float32 magnitude
    with fields `E`, `f`: its exact value is `c * 2 ^ e`. -/
def sigExp32 (E f : Nat) : Nat × Int :=
  if E = 0 then (f, -149) else (2 ^ 23 + f, (E : Int) - 150)

/-- Shortest-round-trip decimal formatting of a positive float32 magnitude,
    modelling the contract of Go `strconv.FormatFloat(·, 'g', -1, 32)`: the
    decimal with the fewest significant digits that parses back to the same
    float32, laid out by the `%g` rule.  (Go computes the digits with a
    dedicated algorithm; here the candidate digit counts 1..17 are checked
    by re-parsing, with the exact decimal expansion as a fallback — for
    actual float32 values a candidate with at most 9 digits always
    succeeds.) -/
def gShortest (E f : Nat) : List Nat :=
  let c := (sigExp32 E f).1
  let ee := (sigExp32 E f).2
  let mb := E * 2 ^ 23 + f
  match (List.range 17).find?
      (fun i => checkRT mb
        (gForm (sigRound (i + 1) c ee).1 (sigRound (i + 1) c ee).2)) with
  | some i => gForm (sigRound (i + 1) c ee).1 (sigRound (i + 1) c ee).2
  | none => exactForm E f

/-- Go `fmt` `%g` of the float32 with bits `b` (shortest formatting):
    `±Inf`, `NaN`, `-` sign for negative finite values, `0` for zeros. -/
def float32gFormat (b : Nat) : List Nat :=
  let sign := b / 2 ^ 31 % 2
  let E := b / 2 ^ 23 % 256
  let f := b % 2 ^ 23
  if E = 255 then
    if f = 0 then (if sign = 1 then [45, 73, 110, 102] else [43, 73, 110, 102])
    else [78, 97, 78]
  else
    (if sign = 1 then [45] else []) ++
      (if E = 0 ∧ f = 0 then [48] else gShortest E f)

/-- `float32hexDec` of `main.go`, applied to the token list. -/
def float32hexDecTokens : List (List Nat) → Except Unit (List Nat)
  | [] => .ok []
  | w :: ws =>
    match parseUintHex 32 w with
    | none => .error ()
    | some b =>
      (float32hexDecTokens ws).map
        (fun tl => float32gFormat b ++ [32] ++ tl)

/-- `float32hexDec` of `main.go`: each whitespace-separated token is parsed
    as a 32-bit hex word, reinterpreted as a float32 and printed `%g` with
    a trailing space; any bad token aborts with no output. -/
def float32hexDec (src : List Nat) : Except Unit (List Nat) :=
  float32hexDecTokens (fields src)

/-- `float32hexEnc` of `main.go`, applied to the token list. -/
def float32hexEncTokens : List (List Nat) → Except Unit (List Nat)
  | [] => .ok []
  | w :: ws =>
    match parseFloat32Bits w with
    | none => .error ()
    | some b =>
      (float32hexEncTokens ws).map
        (fun tl => upperHexPad 8 b ++ [32] ++ tl)

/-- `float32hexEnc` of `main.go`: each whitespace-separated token is parsed
    as a float (`ParseFloat(·, 32)`), and its float32 bit pattern printed
    `%.8X` with a trailing space; any bad token aborts with no output. -/
def float32hexEnc (src : List Nat) : Except Unit (List Nat) :=
  float32hexEncTokens (fields src)

/-- x448/float16 `f32bitsToF16bits`: narrow a float32 bit pattern to the
    binary16 pattern with round-to-nearest-even (overflow to infinity,
    NaNs quieted with the payload's top bits). -/
def f32bitsToF16bits (u : Nat) : Nat :=
  let sign16 := u / 2 ^ 31 % 2 * 2 ^ 15
  let expF := u / 2 ^ 23 % 256
  let coef := u % 2 ^ 23
  if expF = 255 then
    if coef = 0 then sign16 + 0x7C00
    else
      let p := coef / 2 ^ 13
      sign16 + 0x7C00 + (if 512 ≤ p % 1024 then p else p + 512)
  else if 143 ≤ expF then sign16 + 0x7C00
  else if expF ≤ 112 then
    if expF < 102 then sign16
    else
      let c := coef + 2 ^ 23
      let shift := 126 - expF
      let halfCoef := c / 2 ^ shift
      let roundBit := 2 ^ (shift - 1)
      if c / roundBit % 2 = 1 ∧ (c % roundBit ≠ 0 ∨ c / (2 * roundBit) % 2 = 1)
      then sign16 + halfCoef + 1
      else sign16 + halfCoef
  else
    let halfExp := expF - 112
    let halfCoef := coef / 2 ^ 13
    let roundBit := 2 ^ 12
    if coef / roundBit % 2 = 1 ∧
        (coef % roundBit ≠ 0 ∨ coef / (2 * roundBit) % 2 = 1)
    then sign16 + halfExp * 2 ^ 10 + halfCoef + 1
    else sign16 + halfExp * 2 ^ 10 + halfCoef

/-- `float16hexEnc` of `main.go`, applied to the token list: parse with
    `ParseFloat(·, 32)`, narrow the float32 to binary16 with
    `float16.Fromfloat32`, print `%.4X` with a trailing space. -/
def float16hexEncTokens : List (List Nat) → Except Unit (List Nat)
  | [] => .ok []
  | w :: ws =>
    match parseFloat32Bits w with
    | none => .error ()
    | some b =>
      (float16hexEncTokens ws).map
        (fun tl => upperHexPad 4 (f32bitsToF16bits b) ++ [32] ++ tl)

/-- `float16hexEnc` of `main.go`. -/
def float16hexEnc (src : List Nat) : Except Unit (List Nat) :=
  float16hexEncTokens (fields src)

/-- The subnormal-normalization loop of x448/float16 `f16bitsToF32bits`
    (`for coef&0x7f800000 == 0 { coef <<= 1; exp-- }`, on uint32 values). -/
def f16norm : Nat → Nat → Nat → Nat × Nat
  | 0, exp, coef => (exp, coef)
  | Nat.succ fuel, exp, coef =>
    if coef % 2 ^ 31 / 2 ^ 23 = 0 then
      f16norm fuel ((exp + 2 ^ 32 - 1) % 2 ^ 32) (coef * 2 % 2 ^ 32)
    else (exp, coef)

/-- x448/float16 `f16bitsToF32bits`: widen a binary16 bit pattern to the
    float32 pattern (exact; NaN payloads are shifted up and quieted). -/
def f16bitsToF32bits (u : Nat) : Nat :=
  let sign := u / 2 ^ 15 % 2 * 2 ^ 31
  let exp := u / 2 ^ 10 % 32
  let coef := u % 2 ^ 10 * 2 ^ 13
  if exp = 31 then
    if coef = 0 then sign + 0x7F800000
    else sign + 0x7F800000 + 2 ^ 22 + coef % 2 ^ 22
  else if exp = 0 then
    if coef = 0 then sign
    else
      let p := f16norm 32 1 coef
      sign + (p.1 + 112) % 2 ^ 32 % 512 * 2 ^ 23 + p.2 % 2 ^ 23
  else sign + (exp + 112) * 2 ^ 23 + coef

/-- `float16hexDec` of `main.go`, applied to the token list: each token is
    parsed as a 16-bit hex word, widened to float32
    (`float16.Frombits(·).Float32()`) and printed `%g` with a trailing
    space; any bad token aborts with no output. -/
def float16hexDecTokens : List (List Nat) → Except Unit (List Nat)
  | [] => .ok []
  | w :: ws =>
    match parseUintHex 16 w with
    | none => .error ()
    | some b =>
      (float16hexDecTokens ws).map
        (fun tl => float32gFormat (f16bitsToF32bits b) ++ [32] ++ tl)

/-- `float16hexDec` of `main.go`. -/
def float16hexDec (src : List Nat) : Except Unit (List Nat) :=
  float16hexDecTokens (fields src)

theorem float32hexEncTokens_ok (ws : List (List Nat)) (bs : List Nat)
    (h : List.Forall₂ (fun w b => parseFloat32Bits w = some b) ws bs) :
    float32hexEncTokens ws =
      .ok ((bs.map (fun b => upperHexPad 8 b ++ [32])).flatten) := by
  induction h with
  | nil => rfl
  | cons hwb htail ih =>
    simp only [float32hexEncTokens, hwb, ih, Except.map, List.map_cons,
      List.flatten, List.append_assoc]

theorem fields_single_token :
    fields [49, 46, 53] = [[49, 46, 53]] := by
  simp [fields_cons, takeField_cons, takeField_nil, fields_nil,
    utf8DecodeRune, isSpaceRune]

/-- C4: float32-hex encode tokenizes its input by whitespace
    (`strings.Fields`), parses each token as a float literal narrowed to
    binary32 with IEEE rounding (`parseFloat32Bits`), and prints each
    resulting 32-bit pattern as 8-digit zero-padded uppercase hex followed
    by one space (so the output ends in a trailing space); encoding `1.5`
    yields exactly `3FC00000 `. -/
theorem claim_c4_float32hex_enc_format :
    (∀ src, float32hexEnc src = float32hexEncTokens (fields src)) ∧
    (∀ ws bs, List.Forall₂ (fun w b => parseFloat32Bits w = some b) ws bs →
      float32hexEncTokens ws =
        .ok ((bs.map (fun b => upperHexPad 8 b ++ [32])).flatten)) ∧
    float32hexEnc (strBytes "1.5") = .ok (strBytes "3FC00000 ") := by
  refine ⟨fun _ => rfl, float32hexEncTokens_ok, ?_⟩
  have h1 : strBytes "1.5" = [49, 46, 53] := by decide
  unfold float32hexEnc
  rw [h1, fields_single_token]
  decide

theorem claim_c4_float32hex_enc_format_witness :
    float32hexEncTokens [[51, 46, 53], [45, 50]] =
      .ok (([1080033280, 3221225472].map
        (fun b => upperHexPad 8 b ++ [32])).flatten) :=
  claim_c4_float32hex_enc_format.2.1 [[51, 46, 53], [45, 50]]
    [1080033280, 3221225472]
    (List.Forall₂.cons (by decide) (List.Forall₂.cons (by decide)
      List.Forall₂.nil))

theorem float32hexDecTokens_err (ws : List (List Nat))
    (h : ∃ w ∈ ws, parseUintHex 32 w = none) :
    float32hexDecTokens ws = .error () := by
  induction ws with
  | nil => simp at h
  | cons w ws ih =>
    rcases h with ⟨t, ht, hn⟩
    rcases List.mem_cons.mp ht with rfl | ht
    · simp only [float32hexDecTokens, hn]
    · cases hw : parseUintHex 32 w with
      | none => simp only [float32hexDecTokens, hw]
      | some b => simp only [float32hexDecTokens, hw, ih ⟨t, ht, hn⟩,
          Except.map]

theorem float32hexEncTokens_err (ws : List (List Nat))
    (h : ∃ w ∈ ws, parseFloat32Bits w = none) :
    float32hexEncTokens ws = .error () := by
  induction ws with
  | nil => simp at h
  | cons w ws ih =>
    rcases h with ⟨t, ht, hn⟩
    rcases List.mem_cons.mp ht with rfl | ht
    · simp only [float32hexEncTokens, hn]
    · cases hw : parseFloat32Bits w with
      | none => simp only [float32hexEncTokens, hw]
      | some b => simp only [float32hexEncTokens, hw, ih ⟨t, ht, hn⟩,
          Except.map]

theorem float16hexDecTokens_err (ws : List (List Nat))
    (h : ∃ w ∈ ws, parseUintHex 16 w = none) :
    float16hexDecTokens ws = .error () := by
  induction ws with
  | nil => simp at h
  | cons w ws ih =>
    rcases h with ⟨t, ht, hn⟩
    rcases List.mem_cons.mp ht with rfl | ht
    · simp only [float16hexDecTokens, hn]
    · cases hw : parseUintHex 16 w with
      | none => simp only [float16hexDecTokens, hw]
      | some b => simp only [float16hexDecTokens, hw, ih ⟨t, ht, hn⟩,
          Except.map]

theorem float16hexEncTokens_err (ws : List (List Nat))
    (h : ∃ w ∈ ws, parseFloat32Bits w = none) :
    float16hexEncTokens ws = .error () := by
  induction ws with
  | nil => simp at h
  | cons w ws ih =>
    rcases h with ⟨t, ht, hn⟩
    rcases List.mem_cons.mp ht with rfl | ht
    · simp only [float16hexEncTokens, hn]
    · cases hw : parseFloat32Bits w with
      | none => simp only [float16hexEncTokens, hw]
      | some b => simp only [float16hexEncTokens, hw, ih ⟨t, ht, hn⟩,
          Except.map]

/-- C6: for float32-hex and float16-hex, in both directions, if any
    whitespace-separated token of the input fails to parse (as a hex word
    of the mode's width when decoding, as a float literal when encoding),
    the whole transform returns an error and no output bytes — whatever the
    other tokens are, in particular when earlier ones parsed fine. -/
theorem claim_c6_parse_failure_aborts :
    (∀ src, (∃ w ∈ fields src, parseUintHex 32 w = none) →
      float32hexDec src = .error ()) ∧
    (∀ src, (∃ w ∈ fields src, parseFloat32Bits w = none) →
      float32hexEnc src = .error ()) ∧
    (∀ src, (∃ w ∈ fields src, parseUintHex 16 w = none) →
      float16hexDec src = .error ()) ∧
    (∀ src, (∃ w ∈ fields src, parseFloat32Bits w = none) →
      float16hexEnc src = .error ()) :=
  ⟨fun _ h => float32hexDecTokens_err _ h,
   fun _ h => float32hexEncTokens_err _ h,
   fun _ h => float16hexDecTokens_err _ h,
   fun _ h => float16hexEncTokens_err _ h⟩

theorem claim_c6_parse_failure_aborts_witness :
    float32hexDec (strBytes "3F800000 zz") = .error () ∧
    float32hexEnc (strBytes "1.5 zz") = .error () ∧
    float16hexDec (strBytes "3C00 zz") = .error () ∧
    float16hexEnc (strBytes "1.5 zz") = .error () := by
  have h1 : fields (strBytes "3F800000 zz") =
      [[51, 70, 56, 48, 48, 48, 48, 48], [122, 122]] := by
    simp [strBytes, fields_cons, takeField_cons, takeField_nil, fields_nil,
      utf8DecodeRune, isSpaceRune]
  have h2 : fields (strBytes "1.5 zz") = [[49, 46, 53], [122, 122]] := by
    simp [strBytes, fields_cons, takeField_cons, takeField_nil, fields_nil,
      utf8DecodeRune, isSpaceRune]
  have h3 : fields (strBytes "3C00 zz") =
      [[51, 67, 48, 48], [122, 122]] := by
    simp [strBytes, fields_cons, takeField_cons, takeField_nil, fields_nil,
      utf8DecodeRune, isSpaceRune]
  exact ⟨claim_c6_parse_failure_aborts.1 _
      ⟨[122, 122], by rw [h1]; simp, by decide⟩,
    claim_c6_parse_failure_aborts.2.1 _
      ⟨[122, 122], by rw [h2]; simp, by decide⟩,
    claim_c6_parse_failure_aborts.2.2.1 _
      ⟨[122, 122], by rw [h3]; simp, by decide⟩,
    claim_c6_parse_failure_aborts.2.2.2 _
      ⟨[122, 122], by rw [h2]; simp, by decide⟩⟩

theorem digitsVal_nil (acc : Nat) : digitsVal acc [] = acc := rfl

theorem digitsVal_cons (acc c : Nat) (r : List Nat) :
    digitsVal acc (c :: r) = digitsVal (acc * 10 + (c - 48)) r := rfl

theorem digitsVal_append (xs ys : List Nat) : ∀ acc,
    digitsVal acc (xs ++ ys) = digitsVal (digitsVal acc xs) ys := by
  induction xs with
  | nil => intro acc; rfl
  | cons x xs ih =>
    intro acc
    simp only [List.cons_append, digitsVal_cons, ih]

theorem natDigitsF_digits (fuel : Nat) : ∀ n, ∀ c ∈ natDigitsF fuel n,
    48 ≤ c ∧ c ≤ 57 := by
  induction fuel with
  | zero => intro n c hc; simp [natDigitsF] at hc; omega
  | succ fuel ih =>
    intro n c hc
    simp only [natDigitsF] at hc
    by_cases h : n < 10
    · rw [if_pos h] at hc; simp at hc; omega
    · rw [if_neg h] at hc
      rcases List.mem_append.mp hc with h1 | h1
      · exact ih _ _ h1
      · simp at h1; have := Nat.mod_lt n (show 0 < 10 by norm_num); omega

theorem natDigitsF_ne_nil (fuel n : Nat) : natDigitsF fuel n ≠ [] := by
  cases fuel with
  | zero => simp [natDigitsF]
  | succ fuel =>
    simp only [natDigitsF]
    by_cases h : n < 10
    · rw [if_pos h]; simp
    · rw [if_neg h]; simp [natDigitsF_ne_nil fuel (n / 10)]

theorem natDigitsF_val (fuel : Nat) : ∀ n, n ≤ fuel → ∀ acc,
    digitsVal acc (natDigitsF fuel n) =
      acc * 10 ^ (natDigitsF fuel n).length + n := by
  induction fuel with
  | zero =>
    intro n hn acc
    have hn0 : n = 0 := by omega
    subst hn0
    simp only [natDigitsF, digitsVal_cons, digitsVal_nil, List.length_cons,
      List.length_nil, pow_one]
    omega
  | succ fuel ih =>
    intro n hn acc
    simp only [natDigitsF]
    by_cases h : n < 10
    · rw [if_pos h]
      simp only [digitsVal_cons, digitsVal_nil, List.length_cons,
        List.length_nil, pow_one]
      omega
    · rw [if_neg h]
      rw [digitsVal_append]
      have h10 : n / 10 ≤ fuel := by omega
      rw [ih _ h10]
      simp only [digitsVal_cons, digitsVal_nil, List.length_append,
        List.length_cons, List.length_nil, pow_succ]
      have hd := Nat.div_add_mod n 10
      generalize (10 : Nat) ^ (natDigitsF fuel (n / 10)).length = P
      ring_nf
      omega

theorem natDigits_val (n : Nat) : digitsVal 0 (natDigits n) = n := by
  have := natDigitsF_val n n le_rfl 0
  simpa [natDigits] using this

theorem natDigits_digits (n : Nat) : ∀ c ∈ natDigits n, 48 ≤ c ∧ c ≤ 57 :=
  natDigitsF_digits n n

theorem natDigits_ne_nil (n : Nat) : natDigits n ≠ [] := natDigitsF_ne_nil n n

theorem expDigits_digits (n : Nat) : ∀ c ∈ expDigits n, 48 ≤ c ∧ c ≤ 57 := by
  intro c hc
  simp only [expDigits] at hc
  by_cases h : n < 10
  · rw [if_pos h] at hc; simp at hc; omega
  · rw [if_neg h] at hc; exact natDigits_digits n c hc

theorem takeWhile_digits_stop (ds : List Nat) (e : Nat) (r : List Nat)
    (hds : ∀ c ∈ ds, isDigit c = true) (he : isDigit e = false) :
    (ds ++ e :: r).takeWhile isDigit = ds := by
  induction ds with
  | nil => simp [List.takeWhile_cons, he]
  | cons d ds ih =>
    have hd : isDigit d = true := hds d (by simp)
    have ih' := ih (fun c hc => hds c (by simp [hc]))
    simp [List.cons_append, List.takeWhile_cons, hd, ih']

theorem takeWhile_digits_all (ds : List Nat)
    (hds : ∀ c ∈ ds, isDigit c = true) : ds.takeWhile isDigit = ds := by
  induction ds with
  | nil => rfl
  | cons d ds ih =>
    have hd : isDigit d = true := hds d (by simp)
    have ih' := ih (fun c hc => hds c (by simp [hc]))
    simp [List.takeWhile_cons, hd, ih']

theorem isDigit_of (c : Nat) (h1 : 48 ≤ c) (h2 : c ≤ 57) :
    isDigit c = true := by
  simp [isDigit]; omega

theorem natDigits_isDigit (n : Nat) : ∀ c ∈ natDigits n, isDigit c = true :=
  fun c hc => isDigit_of c (natDigits_digits n c hc).1
    (natDigits_digits n c hc).2

theorem parseDecCore_sci (N j : Nat) :
    parseDecCore (natDigits N ++ 101 :: 45 :: natDigits j) =
      some (N, -(j : Int)) := by
  have h1 : (natDigits N ++ 101 :: 45 :: natDigits j).takeWhile isDigit
      = natDigits N :=
    takeWhile_digits_stop _ _ _ (natDigits_isDigit N) (by simp [isDigit])
  have h2 : (natDigits N ++ 101 :: 45 :: natDigits j).drop
      (natDigits N).length = 101 :: 45 :: natDigits j := List.drop_left _ _
  simp only [parseDecCore, h1, h2]
  rw [if_neg (by simp [natDigits_ne_nil N])]
  rw [if_pos (Or.inl trivial)]
  rw [if_pos ⟨natDigits_ne_nil j, by
    simp only [List.all_eq_true]; exact natDigits_isDigit j⟩]
  simp only [List.append_nil, natDigits_val, if_true, List.length_nil]
  simp only [Option.some.injEq, Prod.mk.injEq, true_and]
  omega

theorem parseDecCore_int (N : Nat) :
    parseDecCore (natDigits N) = some (N, 0) := by
  have h1 : (natDigits N).takeWhile isDigit = natDigits N :=
    takeWhile_digits_all _ (natDigits_isDigit N)
  have h2 : (natDigits N).drop (natDigits N).length = [] := List.drop_length _
  simp only [parseDecCore, h1, h2]
  rw [if_neg (by simp [natDigits_ne_nil N])]
  simp only [List.append_nil, natDigits_val]
  simp

theorem natLogF_eq_of (b : Nat) (hb : 2 ≤ b) : ∀ j, ∀ m fuel,
    b ^ j ≤ m → m < b ^ (j + 1) → j ≤ fuel → natLogF b fuel m = j := by
  intro j
  induction j with
  | zero =>
    intro m fuel h1 h2 _
    cases fuel with
    | zero => rfl
    | succ fuel =>
      simp only [natLogF]
      rw [if_pos]
      rw [pow_one] at h2
      exact h2
  | succ j ih =>
    intro m fuel h1 h2 hf
    cases fuel with
    | zero => omega
    | succ fuel =>
      simp only [natLogF]
      have hbm : ¬ m < b := by
        have : b = b ^ 1 := (pow_one b).symm
        have hle : b ^ 1 ≤ b ^ (j + 1) := Nat.pow_le_pow_right (by omega) (by omega)
        omega
      rw [if_neg hbm]
      have hd1 : b ^ j ≤ m / b := by
        rw [Nat.le_div_iff_mul_le (by omega)]
        calc b ^ j * b = b ^ (j + 1) := (pow_succ b j).symm
          _ ≤ m := h1
      have hd2 : m / b < b ^ (j + 1) := by
        rw [Nat.div_lt_iff_lt_mul (by omega)]
        calc m < b ^ (j + 1 + 1) := h2
          _ = b ^ (j + 1) * b := pow_succ b (j + 1)
      rw [ih (m / b) fuel hd1 hd2 (by omega)]

theorem natLog2_eq_of (m j : Nat) (h1 : 2 ^ j ≤ m) (h2 : m < 2 ^ (j + 1)) :
    natLog2 m = j := by
  have hj : j ≤ m := by
    have := Nat.lt_two_pow j
    omega
  exact natLogF_eq_of 2 le_rfl j m m h1 h2 hj

theorem negExpF_eq_of (b : Nat) (hb : 2 ≤ b) : ∀ j, ∀ n d fuel,
    0 < n → d ≤ n * b ^ j → (∀ i, i < j → n * b ^ i < d) → j ≤ fuel →
    negExpF b fuel n d = j := by
  intro j
  induction j with
  | zero =>
    intro n d fuel _ hj _ _
    cases fuel with
    | zero => rfl
    | succ fuel =>
      simp only [negExpF]
      rw [if_pos]
      simpa using hj
  | succ j ih =>
    intro n d fuel hn hj hj' hf
    cases fuel with
    | zero => omega
    | succ fuel =>
      simp only [negExpF]
      have hnd : ¬ d ≤ n := by
        have := hj' 0 (by omega)
        simp at this
        omega
      rw [if_neg hnd]
      have e1 : d ≤ b * n * b ^ j := by
        calc d ≤ n * b ^ (j + 1) := hj
          _ = b * n * b ^ j := by ring
      have e2 : ∀ i, i < j → b * n * b ^ i < d := by
        intro i hi
        calc b * n * b ^ i = n * b ^ (i + 1) := by ring
          _ < d := hj' (i + 1) (by omega)
      rw [ih (b * n) d fuel (by positivity) e1 e2 (by omega)]

theorem negExpF_ge (b : Nat) (_hb : 2 ≤ b) : ∀ j, ∀ n d fuel,
    (∀ i, i < j → n * b ^ i < d) → j ≤ fuel →
    j ≤ negExpF b fuel n d := by
  intro j
  induction j with
  | zero => intro n d fuel _ _; omega
  | succ j ih =>
    intro n d fuel hj' hf
    cases fuel with
    | zero => omega
    | succ fuel =>
      simp only [negExpF]
      have hnd : ¬ d ≤ n := by
        have := hj' 0 (by omega)
        simp at this
        omega
      rw [if_neg hnd]
      have e2 : ∀ i, i < j → b * n * b ^ i < d := by
        intro i hi
        calc b * n * b ^ i = n * b ^ (i + 1) := by ring
          _ < d := hj' (i + 1) (by omega)
      have := ih (b * n) d fuel e2 (by omega)
      omega

theorem roundNEnd_mul (c d : Nat) (hd : 0 < d) : roundNEnd (c * d) d = c := by
  simp only [roundNEnd]
  rw [Nat.mul_mod_left, Nat.mul_div_cancel _ hd]
  simp [hd]

theorem pow10_split (k : Nat) : (10:Nat) ^ k = 2 ^ k * 5 ^ k := by
  rw [show (10:Nat) = 2 * 5 by norm_num, mul_pow]

theorem flog2nd_sig (c k : Nat) (h1 : 2 ^ 23 ≤ c) (h2 : c < 2 ^ 24) :
    flog2nd (c * 5 ^ k) (10 ^ k) = 23 - (k : Int) := by
  have h5 : (0:Nat) < 5 ^ k := by positivity
  by_cases hk : k ≤ 23
  · have hle : (10:Nat) ^ k ≤ c * 5 ^ k := by
      rw [pow10_split]
      exact Nat.mul_le_mul_right _
        (le_trans (Nat.pow_le_pow_right (by norm_num) hk) h1)
    simp only [flog2nd]
    rw [if_pos hle]
    have hdiv : c * 5 ^ k / 10 ^ k = c / 2 ^ k := by
      rw [pow10_split, Nat.mul_div_mul_right _ _ h5]
    rw [hdiv]
    have e1 : 2 ^ (23 - k) ≤ c / 2 ^ k := by
      rw [Nat.le_div_iff_mul_le (by positivity)]
      calc 2 ^ (23 - k) * 2 ^ k = 2 ^ 23 := by rw [← pow_add]; congr 1; omega
        _ ≤ c := h1
    have e2 : c / 2 ^ k < 2 ^ (23 - k + 1) := by
      rw [Nat.div_lt_iff_lt_mul (by positivity)]
      calc c < 2 ^ 24 := h2
        _ ≤ 2 ^ (23 - k + 1 + k) := Nat.pow_le_pow_right (by norm_num) (by omega)
        _ = 2 ^ (23 - k + 1) * 2 ^ k := by rw [← pow_add]
    rw [natLog2_eq_of _ _ e1 e2]
    omega
  · have hlt : c * 5 ^ k < 10 ^ k := by
      rw [pow10_split]
      have hc : c < 2 ^ k :=
        lt_of_lt_of_le h2 (Nat.pow_le_pow_right (by norm_num) (by omega))
      exact Nat.mul_lt_mul_of_lt_of_le hc le_rfl h5
    simp only [flog2nd]
    rw [if_neg (by omega)]
    have e1 : 10 ^ k ≤ c * 5 ^ k * 2 ^ (k - 23) := by
      have h2k : (2:Nat) ^ k = 2 ^ 23 * 2 ^ (k - 23) := by
        rw [← pow_add]; congr 1; omega
      calc (10:Nat) ^ k = 2 ^ 23 * (2 ^ (k - 23) * 5 ^ k) := by
            rw [pow10_split, h2k]; ring
        _ ≤ c * (2 ^ (k - 23) * 5 ^ k) := Nat.mul_le_mul_right _ h1
        _ = c * 5 ^ k * 2 ^ (k - 23) := by ring
    have e2 : ∀ i, i < k - 23 → c * 5 ^ k * 2 ^ i < 10 ^ k := by
      intro i hi
      have h2k : (2:Nat) ^ k = 2 ^ 24 * 2 ^ (k - 24) := by
        rw [← pow_add]; congr 1; omega
      have hik : (2:Nat) ^ i ≤ 2 ^ (k - 24) :=
        Nat.pow_le_pow_right (by norm_num) (by omega)
      have hc2 : c * 2 ^ i < 2 ^ 24 * 2 ^ (k - 24) :=
        Nat.mul_lt_mul_of_lt_of_le h2 hik (by positivity)
      calc c * 5 ^ k * 2 ^ i = c * 2 ^ i * 5 ^ k := by ring
        _ < 2 ^ 24 * 2 ^ (k - 24) * 5 ^ k :=
            Nat.mul_lt_mul_of_lt_of_le hc2 le_rfl h5
        _ = 10 ^ k := by rw [pow10_split, h2k]
    have hpos : 0 < c * 5 ^ k := by positivity
    rw [negExpF_eq_of 2 le_rfl (k - 23) _ _ _ hpos e1 e2 ?hfuel]
    · omega
    case hfuel =>
      have : k < 10 ^ k := Nat.lt_pow_self (by norm_num) k
      omega

theorem flog2nd_small (f : Nat) (hf : f < 2 ^ 23) :
    flog2nd (f * 5 ^ 149) (10 ^ 149) ≤ -127 := by
  have h5 : (0:Nat) < 5 ^ 149 := by positivity
  have hlt : f * 5 ^ 149 < 10 ^ 149 := by
    rw [pow10_split]
    have hc : f < 2 ^ 149 :=
      lt_of_lt_of_le hf (Nat.pow_le_pow_right (by norm_num) (by omega))
    exact Nat.mul_lt_mul_of_lt_of_le hc le_rfl h5
  simp only [flog2nd]
  rw [if_neg (by omega)]
  have e2 : ∀ i, i < 127 → f * 5 ^ 149 * 2 ^ i < 10 ^ 149 := by
    intro i hi
    have h2k : (2:Nat) ^ 149 = 2 ^ 23 * 2 ^ 126 := by norm_num [← pow_add]
    have hik : (2:Nat) ^ i ≤ 2 ^ 126 :=
      Nat.pow_le_pow_right (by norm_num) (by omega)
    have hc2 : f * 2 ^ i < 2 ^ 23 * 2 ^ 126 :=
      Nat.mul_lt_mul_of_lt_of_le hf hik (by positivity)
    calc f * 5 ^ 149 * 2 ^ i = f * 2 ^ i * 5 ^ 149 := by ring
      _ < 2 ^ 23 * 2 ^ 126 * 5 ^ 149 :=
          Nat.mul_lt_mul_of_lt_of_le hc2 le_rfl h5
      _ = 10 ^ 149 := by rw [pow10_split, h2k]
  have hge : 127 ≤ negExpF 2 (10 ^ 149) (f * 5 ^ 149) (10 ^ 149) := by
    apply negExpF_ge 2 le_rfl 127 _ _ _ e2
    have : (149:Nat) < 10 ^ 149 := Nat.lt_pow_self (by norm_num) 149
    omega
  omega

theorem flog2nd_int (c j : Nat) (h1 : 2 ^ 23 ≤ c) (h2 : c < 2 ^ 24) :
    flog2nd (c * 2 ^ j) 1 = 23 + (j : Int) := by
  simp only [flog2nd]
  rw [if_pos (Nat.one_le_iff_ne_zero.mpr (by positivity))]
  rw [Nat.div_one]
  have e1 : 2 ^ (23 + j) ≤ c * 2 ^ j := by
    rw [pow_add]
    exact Nat.mul_le_mul_right _ h1
  have e2 : c * 2 ^ j < 2 ^ (23 + j + 1) := by
    have : (2:Nat) ^ (23 + j + 1) = 2 ^ 24 * 2 ^ j := by
      rw [← pow_add]; congr 1; omega
    rw [this]
    exact Nat.mul_lt_mul_of_lt_of_le h2 le_rfl (by positivity)
  rw [natLog2_eq_of _ _ e1 e2]
  omega

theorem round32dec_eq (m : Nat) (e10 : Int) (hm : m ≠ 0) (n d : Nat)
    (e2 s : Int) (mr : Nat)
    (hn : n = m * 10 ^ e10.toNat) (hd : d = 10 ^ (-e10).toNat)
    (he2 : e2 = max (flog2nd n d) (-126)) (hs : s = 23 - e2)
    (hmr : mr = roundNEnd (n * 2 ^ s.toNat) (d * 2 ^ (-s).toNat))
    (hne : mr ≠ 2 ^ 24) (hok : e2 < 128) :
    round32dec m e10 = some ((e2 + 126).toNat * 2 ^ 23 + mr) := by
  simp only [round32dec]
  rw [if_neg hm]
  rw [← hn, ← hd, ← he2, ← hs, ← hmr]
  rw [if_neg hne, if_neg hne, if_neg (by omega)]

theorem round32dec_exact_sub (f : Nat) (hf : 0 < f) (hf2 : f < 2 ^ 23) :
    round32dec (f * 5 ^ 149) (-(149 : Int)) = some f := by
  have h := round32dec_eq (f * 5 ^ 149) (-(149 : Int)) (by positivity)
    (f * 5 ^ 149) (10 ^ 149) (-126) 149 f
    (by rw [show ((-(149 : Int))).toNat = 0 from by decide, pow_zero, mul_one])
    (by rw [show ((-(-(149 : Int)))).toNat = 149 from by decide])
    ((max_eq_right (by have := flog2nd_small f hf2; omega)).symm)
    (by norm_num) ?hmr (by omega) (by norm_num)
  · rw [h]; norm_num
  case hmr =>
    have ht1 : ((149:Int)).toNat = 149 := rfl
    have ht2 : ((-(149:Int))).toNat = 0 := rfl
    rw [ht1, ht2, pow_zero, mul_one]
    have e : f * 5 ^ 149 * 2 ^ 149 = f * 10 ^ 149 := by
      rw [pow10_split]; ring
    rw [e]
    exact (roundNEnd_mul f (10 ^ 149) (by positivity)).symm

theorem round32dec_exact_norm (f E : Nat) (hf : f < 2 ^ 23) (hE1 : 1 ≤ E)
    (hE2 : E ≤ 149) :
    round32dec ((2 ^ 23 + f) * 5 ^ (150 - E)) (-((150 - E : Nat) : Int)) =
      some (E * 2 ^ 23 + f) := by
  have hsig := flog2nd_sig (2 ^ 23 + f) (150 - E) (by omega) (by omega)
  have h := round32dec_eq ((2 ^ 23 + f) * 5 ^ (150 - E))
    (-((150 - E : Nat) : Int)) (by positivity)
    ((2 ^ 23 + f) * 5 ^ (150 - E)) (10 ^ (150 - E))
    ((E : Int) - 127) (((150 - E : Nat)) : Int) (2 ^ 23 + f)
    ?hn ?hd ?he2 (by omega) ?hmr (by omega) (by omega)
  · rw [h]
    simp only [Option.some.injEq]
    omega
  case hn =>
    have ht : ((-((150 - E : Nat) : Int))).toNat = 0 := by omega
    rw [ht, pow_zero, mul_one]
  case hd =>
    have ht : ((-(-((150 - E : Nat) : Int)))).toNat = 150 - E := by omega
    rw [ht]
  case he2 =>
    rw [hsig, max_eq_left (by omega)]
    omega
  case hmr =>
    have ht1 : ((((150 - E : Nat)) : Int)).toNat = 150 - E := by omega
    have ht2 : ((-(((150 - E : Nat)) : Int))).toNat = 0 := by omega
    rw [ht1, ht2, pow_zero, mul_one]
    have e : (2 ^ 23 + f) * 5 ^ (150 - E) * 2 ^ (150 - E) =
        (2 ^ 23 + f) * 10 ^ (150 - E) := by
      rw [pow10_split]; ring
    rw [e]
    exact (roundNEnd_mul (2 ^ 23 + f) (10 ^ (150 - E)) (by positivity)).symm

theorem round32dec_exact_big (f E : Nat) (hf : f < 2 ^ 23) (hE1 : 150 ≤ E)
    (hE2 : E ≤ 254) :
    round32dec ((2 ^ 23 + f) * 2 ^ (E - 150)) 0 =
      some (E * 2 ^ 23 + f) := by
  have hint := flog2nd_int (2 ^ 23 + f) (E - 150) (by omega) (by omega)
  have h := round32dec_eq ((2 ^ 23 + f) * 2 ^ (E - 150)) 0 (by positivity)
    ((2 ^ 23 + f) * 2 ^ (E - 150)) 1
    ((E : Int) - 127) ((150 : Int) - (E : Int)) (2 ^ 23 + f)
    (by norm_num) (by norm_num) ?he2 (by omega) ?hmr (by omega) (by omega)
  · rw [h]
    simp only [Option.some.injEq]
    omega
  case he2 =>
    rw [hint, max_eq_left (by omega)]
    omega
  case hmr =>
    have ht1 : (((150 : Int) - (E : Int))).toNat = 0 := by omega
    have ht2 : ((-((150 : Int) - (E : Int)))).toNat = E - 150 := by omega
    rw [ht1, ht2, pow_zero, mul_one, one_mul]
    exact (roundNEnd_mul (2 ^ 23 + f) (2 ^ (E - 150)) (by positivity)).symm

theorem exactForm_core (E f : Nat) (hE : E ≤ 254) (hf : f < 2 ^ 23)
    (hnz : ¬(E = 0 ∧ f = 0)) :
    ∃ m, ∃ e10 : Int, parseDecCore (exactForm E f) = some (m, e10) ∧
      round32dec m e10 = some (E * 2 ^ 23 + f) := by
  by_cases hE0 : E = 0
  · subst hE0
    refine ⟨f * 5 ^ 149, -(149 : Int), ?_, ?_⟩
    · have he : exactForm 0 f =
          natDigits (f * 5 ^ 149) ++ 101 :: 45 :: natDigits 149 := by
        simp [exactForm]
      rw [he]
      have := parseDecCore_sci (f * 5 ^ 149) 149
      simpa using this
    · rw [show (0 * 2 ^ 23 + f) = f by omega]
      exact round32dec_exact_sub f (by omega) hf
  · by_cases hE149 : E ≤ 149
    · refine ⟨(2 ^ 23 + f) * 5 ^ (150 - E), -((150 - E : Nat) : Int), ?_, ?_⟩
      · have he : exactForm E f =
            natDigits ((2 ^ 23 + f) * 5 ^ (150 - E)) ++
              101 :: 45 :: natDigits (150 - E) := by
          simp [exactForm, hE0, hE149]
        rw [he]
        exact parseDecCore_sci _ _
      · exact round32dec_exact_norm f E hf (by omega) hE149
    · refine ⟨(2 ^ 23 + f) * 2 ^ (E - 150), 0, ?_, ?_⟩
      · have he : exactForm E f =
            natDigits ((2 ^ 23 + f) * 2 ^ (E - 150)) := by
          simp [exactForm, hE0, hE149]
        rw [he]
        exact parseDecCore_int _
      · exact round32dec_exact_big f E hf (by omega) hE

/-- The characters the decimal float formatter can emit: `+`, `-`, `.`,
    digits, `e`. -/
def decOutChar (c : Nat) : Prop :=
  (43 ≤ c ∧ c ≤ 46) ∨ (48 ≤ c ∧ c ≤ 57) ∨ c = 101

theorem head_digit_of (s : List Nat) (hne : s ≠ [])
    (hds : ∀ c ∈ s, 48 ≤ c ∧ c ≤ 57) :
    ∃ hd t, s = hd :: t ∧ 48 ≤ hd ∧ hd ≤ 57 := by
  cases s with
  | nil => exact absurd rfl hne
  | cons d t => exact ⟨d, t, rfl, (hds d (by simp)).1, (hds d (by simp)).2⟩

theorem fixedForm_shape (ds : List Nat) (dp : Int) (hne : ds ≠ [])
    (hds : ∀ c ∈ ds, 48 ≤ c ∧ c ≤ 57) :
    (∃ hd t, fixedForm ds dp = hd :: t ∧ 48 ≤ hd ∧ hd ≤ 57) ∧
    ∀ c ∈ fixedForm ds dp, decOutChar c := by
  obtain ⟨d, ds', rfl, hh1, hh2⟩ := head_digit_of ds hne hds
  simp only [fixedForm]
  by_cases h1 : dp ≤ 0
  · rw [if_pos h1]
    refine ⟨⟨48, _, rfl, by omega, by omega⟩, ?_⟩
    intro c hc
    simp only [List.cons_append, List.nil_append, List.mem_cons,
      List.mem_append] at hc
    rcases hc with rfl | rfl | hc | hc
    · right; left; omega
    · left; omega
    · rw [List.eq_of_mem_replicate hc]; right; left; omega
    · have := hds c (by simp [hc]); right; left; omega
  · rw [if_neg h1]
    by_cases h2 : (((d :: ds').length : Nat) : Int) ≤ dp
    · rw [if_pos h2]
      refine ⟨⟨d, _, rfl, hh1, hh2⟩, ?_⟩
      intro c hc
      rcases List.mem_append.mp hc with hc | hc
      · have := hds c hc; right; left; omega
      · rw [List.eq_of_mem_replicate hc]; right; left; omega
    · rw [if_neg h2]
      obtain ⟨k, hk⟩ : ∃ k, dp.toNat = k + 1 := ⟨dp.toNat - 1, by omega⟩
      rw [hk, List.take_succ_cons, List.drop_succ_cons]
      refine ⟨⟨d, _, rfl, hh1, hh2⟩, ?_⟩
      intro c hc
      simp only [List.cons_append, List.append_assoc, List.mem_cons,
        List.mem_append] at hc
      rcases hc with rfl | hc | rfl | (hc | hc)
      · right; left; omega
      · have := hds c (by simp [List.take_subset _ _ hc])
        right; left; omega
      · left; omega
      · exact absurd hc (List.not_mem_nil c)
      · have := hds c (by simp [List.drop_subset _ _ hc])
        right; left; omega

theorem sciForm_shape (ds : List Nat) (ex : Int) (hne : ds ≠ [])
    (hds : ∀ c ∈ ds, 48 ≤ c ∧ c ≤ 57) :
    (∃ hd t, sciForm ds ex = hd :: t ∧ 48 ≤ hd ∧ hd ≤ 57) ∧
    ∀ c ∈ sciForm ds ex, decOutChar c := by
  obtain ⟨d, ds', rfl, hh1, hh2⟩ := head_digit_of ds hne hds
  have hsign : ∀ c ∈ (if ex < 0 then [45] else [43]), decOutChar c := by
    intro c hc
    by_cases hex : ex < 0 <;> simp [hex] at hc <;> subst hc <;>
      (left; omega)
  have hexp : ∀ c ∈ expDigits ex.natAbs, decOutChar c := by
    intro c hc
    have := expDigits_digits ex.natAbs c hc
    right; left; omega
  simp only [sciForm]
  by_cases h1 : ds' = []
  · subst h1
    rw [if_pos rfl]
    refine ⟨⟨d, _, rfl, hh1, hh2⟩, ?_⟩
    intro c hc
    rcases List.mem_append.mp hc with hc | hc
    · rcases List.mem_append.mp hc with hc | hc
      · rcases List.mem_append.mp hc with hc | hc
        · simp at hc; subst hc; right; left; omega
        · simp at hc; subst hc; right; right; rfl
      · exact hsign c hc
    · exact hexp c hc
  · rw [if_neg h1]
    refine ⟨⟨d, _, rfl, hh1, hh2⟩, ?_⟩
    intro c hc
    rcases List.mem_append.mp hc with hc | hc
    · rcases List.mem_append.mp hc with hc | hc
      · rcases List.mem_append.mp hc with hc | hc
        · rcases List.mem_cons.mp hc with rfl | hc
          · right; left; omega
          · rcases List.mem_cons.mp hc with rfl | hc
            · left; omega
            · have := hds c (by simp [hc]); right; left; omega
        · simp at hc; subst hc; right; right; rfl
      · exact hsign c hc
    · exact hexp c hc

theorem gForm_shape (ds : List Nat) (ex : Int) (hne : ds ≠ [])
    (hds : ∀ c ∈ ds, 48 ≤ c ∧ c ≤ 57) :
    (∃ hd t, gForm ds ex = hd :: t ∧ 48 ≤ hd ∧ hd ≤ 57) ∧
    ∀ c ∈ gForm ds ex, decOutChar c := by
  simp only [gForm]
  by_cases h : ex < -4 ∨ 6 ≤ ex
  · rw [if_pos h]; exact sciForm_shape ds ex hne hds
  · rw [if_neg h]; exact fixedForm_shape ds (ex + 1) hne hds

theorem sigRound_shape (p c : Nat) (e : Int) :
    (sigRound p c e).1 ≠ [] ∧
    ∀ ch ∈ (sigRound p c e).1, 48 ≤ ch ∧ ch ≤ 57 := by
  simp only [sigRound]
  split_ifs <;>
    exact ⟨natDigits_ne_nil _, fun ch hch => natDigits_digits _ ch hch⟩

theorem exactForm_shape (E f : Nat) :
    (∃ hd t, exactForm E f = hd :: t ∧ 48 ≤ hd ∧ hd ≤ 57) ∧
    ∀ c ∈ exactForm E f, decOutChar c := by
  simp only [exactForm]
  split_ifs with h1 h2
  · obtain ⟨d, t, he, hd1, hd2⟩ := head_digit_of _ (natDigits_ne_nil (f * 5 ^ 149)) (natDigits_digits _)
    rw [he]
    refine ⟨⟨d, _, rfl, hd1, hd2⟩, ?_⟩
    intro c hc
    rw [← he] at hc
    simp only [List.append_assoc, List.cons_append, List.nil_append,
      List.mem_append, List.mem_cons] at hc
    rcases hc with hc | rfl | rfl | hc
    · have := natDigits_digits _ c hc; right; left; omega
    · right; right; rfl
    · left; omega
    · have := natDigits_digits _ c hc; right; left; omega
  · obtain ⟨d, t, he, hd1, hd2⟩ := head_digit_of _
      (natDigits_ne_nil ((2 ^ 23 + f) * 5 ^ (150 - E))) (natDigits_digits _)
    rw [he]
    refine ⟨⟨d, _, rfl, hd1, hd2⟩, ?_⟩
    intro c hc
    rw [← he] at hc
    simp only [List.append_assoc, List.cons_append, List.nil_append,
      List.mem_append, List.mem_cons] at hc
    rcases hc with hc | rfl | rfl | hc
    · have := natDigits_digits _ c hc; right; left; omega
    · right; right; rfl
    · left; omega
    · have := natDigits_digits _ c hc; right; left; omega
  · refine ⟨head_digit_of _ (natDigits_ne_nil _) (natDigits_digits _), ?_⟩
    intro c hc
    have := natDigits_digits _ c hc; right; left; omega

theorem toLowerByte_digit (hd : Nat) (h1 : 48 ≤ hd) (h2 : hd ≤ 57) :
    toLowerByte hd = hd := by
  simp only [toLowerByte]
  rw [if_neg (by omega)]

theorem parseSpecial_digit (hd : Nat) (t : List Nat) (h1 : 48 ≤ hd)
    (h2 : hd ≤ 57) :
    parseSpecial (hd :: t) = none ∧ parseSpecial (45 :: hd :: t) = none := by
  have hlow := toLowerByte_digit hd h1 h2
  constructor
  · simp only [parseSpecial, List.map_cons, hlow]
    rw [if_neg (by rintro (h | h) <;> (simp at h; try omega)),
      if_neg (by rintro (h | h) <;> (simp at h; try omega)),
      if_neg (by rintro (h | h) <;> (simp at h; try omega)),
      if_neg (by intro h; simp at h; try omega)]
  · simp only [parseSpecial, List.map_cons, hlow,
      show toLowerByte 45 = 45 from rfl]
    rw [if_neg (by rintro (h | h) <;> (simp at h; try omega)),
      if_neg (by rintro (h | h) <;> (simp at h; try omega)),
      if_neg (by rintro (h | h) <;> (simp at h; try omega)),
      if_neg (by intro h; simp at h; try omega)]

theorem parseDecimal_eq_core (s : List Nat)
    (hhd : ∃ hd t, s = hd :: t ∧ 48 ≤ hd ∧ hd ≤ 57)
    (h95 : ∀ c ∈ s, c ≠ 95) :
    parseDecimal s = (parseDecCore s).map (fun me => (false, me)) := by
  obtain ⟨hd, t, rfl, hh1, hh2⟩ := hhd
  simp only [parseDecimal]
  rw [if_neg (by intro hcon; exact h95 95 hcon.1 rfl)]
  have hfilt : (hd :: t).filter (fun c => decide (c ≠ 95)) = hd :: t :=
    List.filter_eq_self.mpr (fun c hc => by simpa using h95 c hc)
  rw [hfilt]
  split
  · next r heq => simp at heq; omega
  · next r heq => simp at heq; omega
  · rfl

theorem parseDecimal_neg_core (s : List Nat)
    (hhd : ∃ hd t, s = hd :: t ∧ 48 ≤ hd ∧ hd ≤ 57)
    (h95 : ∀ c ∈ s, c ≠ 95) :
    parseDecimal (45 :: s) = (parseDecCore s).map (fun me => (true, me)) := by
  obtain ⟨hd, t, rfl, hh1, hh2⟩ := hhd
  simp only [parseDecimal]
  rw [if_neg (by
    intro hcon
    rcases List.mem_cons.mp hcon.1 with h | h
    · omega
    · exact h95 95 h rfl)]
  have hfilt : (45 :: hd :: t).filter (fun c => decide (c ≠ 95)) =
      45 :: hd :: t :=
    List.filter_eq_self.mpr (by
      intro c hc
      rcases List.mem_cons.mp hc with rfl | hc
      · simp
      · simpa using h95 c hc)
  rw [hfilt]

theorem parseHexAfterSign_none (w : List Nat) (hd : Nat) (t : List Nat)
    (hall : ∀ c ∈ t, decOutChar c) :
    parseHexAfterSign w (hd :: t) = none := by
  simp only [parseHexAfterSign]
  split
  · next x c0 r0 heq =>
    simp only [List.cons.injEq] at heq
    obtain ⟨h48, rfl⟩ := heq
    have hx : decOutChar x := hall x (by simp)
    rw [if_neg ?hneg]
    case hneg =>
      intro hcon
      simp only [toLowerByte] at hcon
      rcases hx with h | h | h <;> split_ifs at hcon <;> omega
  · rfl

theorem parseHexFloat_digit (hd : Nat) (t : List Nat) (h1 : 48 ≤ hd)
    (h2 : hd ≤ 57) (hall : ∀ c ∈ t, decOutChar c) :
    parseHexFloat (hd :: t) = none ∧
    parseHexFloat (45 :: hd :: t) = none := by
  constructor
  · simp only [parseHexFloat]
    split
    · next r heq => simp at heq; omega
    · next r heq => simp at heq; omega
    · rw [parseHexAfterSign_none _ hd t hall]
      rfl
  · simp only [parseHexFloat]
    rw [parseHexAfterSign_none _ hd t hall]
    rfl

theorem parseFloat32Bits_of_core (s : List Nat) (m : Nat) (e10 : Int)
    (mb : Nat) (hhd : ∃ hd t, s = hd :: t ∧ 48 ≤ hd ∧ hd ≤ 57)
    (h95 : ∀ c ∈ s, c ≠ 95) (hall : ∀ c ∈ s, decOutChar c)
    (hc : parseDecCore s = some (m, e10))
    (hr : round32dec m e10 = some mb) :
    parseFloat32Bits s = some mb ∧
    parseFloat32Bits (45 :: s) = some (2 ^ 31 + mb) := by
  obtain ⟨hd, t, hs, hh1, hh2⟩ := hhd
  have hspec := parseSpecial_digit hd t hh1 hh2
  have hpd : parseDecimal s = some (false, m, e10) := by
    rw [parseDecimal_eq_core s ⟨hd, t, hs, hh1, hh2⟩ h95, hc]
    rfl
  have hpd2 : parseDecimal (45 :: s) = some (true, m, e10) := by
    rw [parseDecimal_neg_core s ⟨hd, t, hs, hh1, hh2⟩ h95, hc]
    rfl
  subst hs
  have hhex := parseHexFloat_digit hd t hh1 hh2
    (fun c hc1 => hall c (by simp [hc1]))
  constructor
  · simp only [parseFloat32Bits, hspec.1, hhex.1, hpd, hr]
    norm_num
  · simp only [parseFloat32Bits, hspec.2, hhex.2, hpd2, hr]
    norm_num

theorem checkRT_core (mb : Nat) (s : List Nat) (h : checkRT mb s = true)
    (hhd : ∃ hd t, s = hd :: t ∧ 48 ≤ hd ∧ hd ≤ 57)
    (h95 : ∀ c ∈ s, c ≠ 95) :
    ∃ m, ∃ e10 : Int, parseDecCore s = some (m, e10) ∧
      round32dec m e10 = some mb := by
  have hcore := parseDecimal_eq_core s hhd h95
  unfold checkRT at h
  rw [hcore] at h
  cases hc : parseDecCore s with
  | none => rw [hc] at h; simp [Option.map] at h
  | some me =>
    obtain ⟨m, e10⟩ := me
    rw [hc] at h
    refine ⟨m, e10, rfl, ?_⟩
    simp only [Option.map] at h
    cases hr : round32dec m e10 with
    | none => rw [hr] at h; simp at h
    | some b =>
      rw [hr] at h
      simp at h
      rw [h]

theorem gShortest_props (E f : Nat) (hE : E ≤ 254) (hf : f < 2 ^ 23)
    (hnz : ¬(E = 0 ∧ f = 0)) :
    (∃ hd t, gShortest E f = hd :: t ∧ 48 ≤ hd ∧ hd ≤ 57) ∧
    (∀ c ∈ gShortest E f, decOutChar c) ∧
    ∃ m, ∃ e10 : Int, parseDecCore (gShortest E f) = some (m, e10) ∧
      round32dec m e10 = some (E * 2 ^ 23 + f) := by
  have hunf : gShortest E f =
      match (List.range 17).find?
          (fun i => checkRT (E * 2 ^ 23 + f)
            (gForm (sigRound (i + 1) (sigExp32 E f).1 (sigExp32 E f).2).1
              (sigRound (i + 1) (sigExp32 E f).1 (sigExp32 E f).2).2)) with
      | some i =>
        gForm (sigRound (i + 1) (sigExp32 E f).1 (sigExp32 E f).2).1
          (sigRound (i + 1) (sigExp32 E f).1 (sigExp32 E f).2).2
      | none => exactForm E f := rfl
  cases hfind : (List.range 17).find?
      (fun i => checkRT (E * 2 ^ 23 + f)
        (gForm (sigRound (i + 1) (sigExp32 E f).1 (sigExp32 E f).2).1
          (sigRound (i + 1) (sigExp32 E f).1 (sigExp32 E f).2).2)) with
  | none =>
    rw [hfind] at hunf
    rw [hunf]
    exact ⟨(exactForm_shape E f).1, (exactForm_shape E f).2,
      exactForm_core E f hE hf hnz⟩
  | some i =>
    rw [hfind] at hunf
    rw [hunf]
    have hck := List.find?_some hfind
    simp only [decide_eq_true_eq] at hck
    have hsr := sigRound_shape (i + 1) (sigExp32 E f).1 (sigExp32 E f).2
    have hsh := gForm_shape _
      (sigRound (i + 1) (sigExp32 E f).1 (sigExp32 E f).2).2 hsr.1 hsr.2
    exact ⟨hsh.1, hsh.2, checkRT_core _ _ hck hsh.1
      (fun c hc => by
        have := hsh.2 c hc
        rcases this with h | h | h <;> omega)⟩

theorem utf8DecodeRune_ascii (c : Nat) (l : List Nat) (h : c < 128) :
    utf8DecodeRune (c :: l) = (c, 1) := by
  simp only [utf8DecodeRune]
  rw [if_pos h]

theorem isSpaceRune_false (c : Nat) (h1 : 33 ≤ c) (h2 : c ≤ 126) :
    isSpaceRune c = false := by
  simp only [isSpaceRune, decide_eq_false_iff_not]
  omega

theorem takeField_good_cons (c : Nat) (rest : List Nat) (h1 : 33 ≤ c)
    (h2 : c ≤ 126) :
    takeField (c :: rest) =
      (c :: (takeField rest).1, (takeField rest).2) := by
  rw [takeField_cons, utf8DecodeRune_ascii c rest (by omega)]
  rw [if_neg (by simp [isSpaceRune_false c h1 h2])]
  simp

theorem takeField_space (u : List Nat) : takeField (32 :: u) = ([], 32 :: u) := by
  rw [takeField_cons, utf8DecodeRune_ascii 32 u (by omega)]
  rw [if_pos (by decide)]

theorem takeField_token (t : List Nat) (ht : ∀ c ∈ t, 33 ≤ c ∧ c ≤ 126)
    (u : List Nat) : takeField (t ++ 32 :: u) = (t, 32 :: u) := by
  induction t with
  | nil => simpa using takeField_space u
  | cons c t ih =>
    have hc := ht c (by simp)
    rw [List.cons_append, takeField_good_cons c _ hc.1 hc.2,
      ih (fun d hd => ht d (by simp [hd]))]

theorem fields_space (u : List Nat) : fields (32 :: u) = fields u := by
  rw [fields_cons, utf8DecodeRune_ascii 32 u (by omega)]
  rw [if_pos (by decide)]
  simp

theorem fields_token (t : List Nat) (hne : t ≠ [])
    (ht : ∀ c ∈ t, 33 ≤ c ∧ c ≤ 126) (u : List Nat) :
    fields (t ++ 32 :: u) = t :: fields u := by
  obtain ⟨c, t', rfl⟩ : ∃ c t', t = c :: t' := by
    cases t with
    | nil => exact absurd rfl hne
    | cons c t' => exact ⟨c, t', rfl⟩
  have hc := ht c (by simp)
  rw [List.cons_append, fields_cons, utf8DecodeRune_ascii c _ (by omega)]
  rw [if_neg (by simp [isSpaceRune_false c hc.1 hc.2])]
  have hred : List.drop ((c, 1).2 - 1) (t' ++ 32 :: u) = t' ++ 32 :: u := rfl
  rw [hred, takeField_token t' (fun d hd => ht d (by simp [hd])) u]
  simp [fields_space]

theorem fields_flatten (ts : List (List Nat))
    (h : ∀ t ∈ ts, t ≠ [] ∧ ∀ c ∈ t, 33 ≤ c ∧ c ≤ 126) :
    fields ((ts.map (fun t => t ++ [32])).flatten) = ts := by
  induction ts with
  | nil => simpa using fields_nil
  | cons t ts ih =>
    have ht := h t (by simp)
    simp only [List.map_cons, List.flatten_cons]
    have he : (t ++ [32]) ++ (ts.map (fun t => t ++ [32])).flatten =
        t ++ 32 :: (ts.map (fun t => t ++ [32])).flatten := by
      simp
    rw [he, fields_token t ht.1 ht.2,
      ih (fun x hx => h x (by simp [hx]))]

theorem float32gFormat_good (b : Nat) :
    float32gFormat b ≠ [] ∧ ∀ c ∈ float32gFormat b, 33 ≤ c ∧ c ≤ 126 := by
  simp only [float32gFormat]
  by_cases hE : b / 2 ^ 23 % 256 = 255
  · rw [if_pos hE]
    by_cases hf : b % 2 ^ 23 = 0
    · rw [if_pos hf]
      by_cases hs : b / 2 ^ 31 % 2 = 1
      · rw [if_pos hs]
        exact ⟨by simp, by intro c hc; simp at hc; omega⟩
      · rw [if_neg hs]
        exact ⟨by simp, by intro c hc; simp at hc; omega⟩
    · rw [if_neg hf]
      exact ⟨by simp, by intro c hc; simp at hc; omega⟩
  · rw [if_neg hE]
    have hsub : (if b / 2 ^ 23 % 256 = 0 ∧ b % 2 ^ 23 = 0 then [48]
        else gShortest (b / 2 ^ 23 % 256) (b % 2 ^ 23)) ≠ [] ∧
        ∀ c ∈ (if b / 2 ^ 23 % 256 = 0 ∧ b % 2 ^ 23 = 0 then [48]
          else gShortest (b / 2 ^ 23 % 256) (b % 2 ^ 23)),
          33 ≤ c ∧ c ≤ 126 := by
      by_cases h0 : b / 2 ^ 23 % 256 = 0 ∧ b % 2 ^ 23 = 0
      · rw [if_pos h0]
        exact ⟨by simp, by intro c hc; simp at hc; omega⟩
      · rw [if_neg h0]
        have hE' : b / 2 ^ 23 % 256 ≤ 254 := by
          have := Nat.mod_lt (b / 2 ^ 23) (show 0 < 256 by norm_num)
          omega
        have hf' : b % 2 ^ 23 < 2 ^ 23 := Nat.mod_lt _ (by positivity)
        obtain ⟨⟨hd, t, heq, hh1, hh2⟩, hchars, _⟩ :=
          gShortest_props (b / 2 ^ 23 % 256) (b % 2 ^ 23) hE' hf' h0
        refine ⟨by rw [heq]; simp, ?_⟩
        intro c hc
        have := hchars c hc
        rcases this with h | h | h <;> omega
    by_cases hs : b / 2 ^ 31 % 2 = 1
    · rw [if_pos hs]
      refine ⟨by simp, ?_⟩
      intro c hc
      rcases List.mem_append.mp hc with hc | hc
      · simp at hc; omega
      · exact hsub.2 c hc
    · rw [if_neg hs]
      refine ⟨by simpa using hsub.1, ?_⟩
      intro c hc
      rw [List.nil_append] at hc
      exact hsub.2 c hc

theorem parseUintHex_lt (bits : Nat) (w : List Nat) (v : Nat)
    (h : parseUintHex bits w = some v) : v < 2 ^ bits := by
  unfold parseUintHex at h
  cases w with
  | nil => simp at h
  | cons c r =>
    cases hp : parseUintHex.parseHexList 0 (c :: r) with
    | none => rw [hp] at h; simp [Option.bind] at h
    | some a =>
      rw [hp] at h
      simp only [Option.bind] at h
      by_cases ha : a < 2 ^ bits
      · rw [if_pos ha] at h
        simp only [Option.some.injEq] at h
        omega
      · rw [if_neg ha] at h
        simp at h

theorem parseFloat32Bits_gFormat (b : Nat) (hb : b < 2 ^ 32)
    (hnan : b / 2 ^ 23 % 256 = 255 → b % 2 ^ 23 ≠ 0 → b = 0x7FC00000) :
    parseFloat32Bits (float32gFormat b) = some b := by
  by_cases hE : b / 2 ^ 23 % 256 = 255
  · by_cases hf : b % 2 ^ 23 = 0
    · by_cases hs : b / 2 ^ 31 % 2 = 1
      · have hb' : b = 0xFF800000 := by omega
        subst hb'
        decide
      · have hb' : b = 0x7F800000 := by omega
        subst hb'
        decide
    · have hb' := hnan hE hf
      subst hb'
      decide
  · by_cases h0 : b / 2 ^ 23 % 256 = 0 ∧ b % 2 ^ 23 = 0
    · by_cases hs : b / 2 ^ 31 % 2 = 1
      · have hb' : b = 0x80000000 := by omega
        subst hb'
        decide
      · have hb' : b = 0 := by omega
        subst hb'
        decide
    · have hE' : b / 2 ^ 23 % 256 ≤ 254 := by
        have := Nat.mod_lt (b / 2 ^ 23) (show 0 < 256 by norm_num)
        omega
      have hf' : b % 2 ^ 23 < 2 ^ 23 := Nat.mod_lt _ (by positivity)
      obtain ⟨hshape, hchars, m, e10, hcore, hround⟩ :=
        gShortest_props (b / 2 ^ 23 % 256) (b % 2 ^ 23) hE' hf' h0
      have hofc := parseFloat32Bits_of_core
        (gShortest (b / 2 ^ 23 % 256) (b % 2 ^ 23)) m e10 _ hshape
        (fun c hc => by
          have := hchars c hc
          rcases this with h | h | h <;> omega)
        hchars hcore hround
      have hfmt : float32gFormat b =
          (if b / 2 ^ 31 % 2 = 1 then [45] else []) ++
            gShortest (b / 2 ^ 23 % 256) (b % 2 ^ 23) := by
        simp only [float32gFormat]
        rw [if_neg hE, if_neg h0]
      rw [hfmt]
      by_cases hs : b / 2 ^ 31 % 2 = 1
      · rw [if_pos hs]
        have he : ([45] : List Nat) ++
            gShortest (b / 2 ^ 23 % 256) (b % 2 ^ 23) =
            45 :: gShortest (b / 2 ^ 23 % 256) (b % 2 ^ 23) := rfl
        rw [he, hofc.2]
        simp only [Option.some.injEq]
        omega
      · rw [if_neg hs, List.nil_append, hofc.1]
        simp only [Option.some.injEq]
        omega

theorem gFormat_forall2 : ∀ bs : List Nat, (∀ b ∈ bs, b < 2 ^ 32) →
    (∀ b ∈ bs, b / 2 ^ 23 % 256 = 255 → b % 2 ^ 23 ≠ 0 → b = 0x7FC00000) →
    List.Forall₂ (fun w b => parseFloat32Bits w = some b)
      (bs.map float32gFormat) bs := by
  intro bs
  induction bs with
  | nil => intro _ _; exact List.Forall₂.nil
  | cons b bs ih =>
    intro hb hnan
    exact List.Forall₂.cons
      (parseFloat32Bits_gFormat b (hb b (by simp)) (hnan b (by simp)))
      (ih (fun x hx => hb x (by simp [hx]))
        (fun x hx => hnan x (by simp [hx])))

theorem float32hexDecTokens_ok (ws : List (List Nat)) (bs : List Nat)
    (h : List.Forall₂ (fun w b => parseUintHex 32 w = some b) ws bs) :
    float32hexDecTokens ws =
      .ok ((bs.map (fun b => float32gFormat b ++ [32])).flatten) := by
  induction h with
  | nil => rfl
  | cons hwb htail ih =>
    simp only [float32hexDecTokens, hwb, ih, Except.map, List.map_cons,
      List.flatten, List.append_assoc]

/-- C5 (amended): for an input of whitespace-separated valid 32-bit hex
    tokens, float32-hex decode then float32-hex encode recovers, at every
    token position, the original token's 32-bit pattern in canonical
    8-digit uppercase zero-padded form followed by a space — except that
    non-canonical NaN patterns are not recovered bit-exactly; under the
    hypothesis that every NaN-pattern token is the canonical quiet NaN
    0x7FC00000, the round trip is bit-exact. -/
theorem claim_c5_float32hex_roundtrip (src : List Nat) (bs : List Nat)
    (hp : List.Forall₂ (fun w b => parseUintHex 32 w = some b)
      (fields src) bs)
    (hnan : ∀ b ∈ bs, b / 2 ^ 23 % 256 = 255 → b % 2 ^ 23 ≠ 0 →
      b = 0x7FC00000) :
    (float32hexDec src).bind float32hexEnc =
      .ok ((bs.map (fun b => upperHexPad 8 b ++ [32])).flatten) := by
  have hbound : ∀ b ∈ bs, b < 2 ^ 32 := by
    clear hnan
    generalize hws : fields src = ws at hp
    clear hws
    induction hp with
    | nil => simp
    | cons h1 h2 ih =>
      intro b hb
      rcases List.mem_cons.mp hb with rfl | hb
      · exact parseUintHex_lt _ _ _ h1
      · exact ih b hb
  have hdec : float32hexDec src =
      .ok ((bs.map (fun b => float32gFormat b ++ [32])).flatten) :=
    float32hexDecTokens_ok _ _ hp
  rw [hdec]
  show float32hexEnc ((bs.map (fun b => float32gFormat b ++ [32])).flatten) = _
  unfold float32hexEnc
  have hmm : bs.map (fun b => float32gFormat b ++ [32]) =
      (bs.map float32gFormat).map (fun t => t ++ [32]) := by
    rw [List.map_map]
    rfl
  rw [hmm, fields_flatten (bs.map float32gFormat) (by
    intro t ht
    obtain ⟨b, _, rfl⟩ := List.mem_map.mp ht
    exact float32gFormat_good b)]
  exact float32hexEncTokens_ok (bs.map float32gFormat) bs
    (gFormat_forall2 bs hbound hnan)

/-- C5 counterexample: `7FC00001` is a valid 32-bit hex token (a
    non-canonical NaN pattern), but float32-hex decode prints it `NaN` and
    re-encoding yields the canonical pattern `7FC00000 `, not the original
    value — so decode-then-encode is not bit-exact on every valid token. -/
theorem claim_c5_counterexample :
    parseUintHex 32 (strBytes "7FC00001") = some 0x7FC00001 ∧
    (float32hexDec (strBytes "7FC00001")).bind float32hexEnc =
      .ok (upperHexPad 8 0x7FC00000 ++ [32]) ∧
    (0x7FC00000 : Nat) ≠ 0x7FC00001 := by
  refine ⟨by decide, ?_, by decide⟩
  have h1 : fields (strBytes "7FC00001") = [strBytes "7FC00001"] := by
    simp [strBytes, fields_cons, takeField_cons, takeField_nil, fields_nil,
      utf8DecodeRune, isSpaceRune]
  show (float32hexDecTokens (fields (strBytes "7FC00001"))).bind
      float32hexEnc = _
  rw [h1]
  have h2 : float32hexDecTokens [strBytes "7FC00001"] =
      .ok (strBytes "NaN ") := by decide
  rw [h2]
  show float32hexEnc (strBytes "NaN ") = _
  unfold float32hexEnc
  have h3 : fields (strBytes "NaN ") = [[78, 97, 78]] := by
    simp [strBytes, fields_cons, takeField_cons, takeField_nil, fields_nil,
      utf8DecodeRune, isSpaceRune]
  rw [h3]
  decide

theorem claim_c5_float32hex_roundtrip_witness :
    (float32hexDec (strBytes "3F800000")).bind float32hexEnc =
      .ok (([0x3F800000].map (fun b => upperHexPad 8 b ++ [32])).flatten) := by
  have hfields : fields (strBytes "3F800000") = [strBytes "3F800000"] := by
    simp [strBytes, fields_cons, takeField_cons, takeField_nil, fields_nil,
      utf8DecodeRune, isSpaceRune]
  exact claim_c5_float32hex_roundtrip (strBytes "3F800000") [0x3F800000]
    (by rw [hfields]
        exact List.Forall₂.cons (by decide) List.Forall₂.nil)
    (by decide)
